import Mathlib

/-!
# nodeblaze: a verification development

Shallow embedding of the caching core of the nodeblaze server
(`src/core/utils/storage.util.js`, `src/core/utils/http.util.js`,
`src/core/utils/request.util.js`, `src/core/utils/cache.util.js`,
`src/core/server.js`) and theorems about it.

Conventions of the embedding.

* A JavaScript string is a `List Char` (a sequence of Unicode scalar values).
* A `Buffer` / `Uint8Array` is a `List Nat` whose elements are bytes; every byte
  the embedded code produces itself is reduced `% 256` explicitly.
* A function that can throw (or an `async` function that can reject) returns
  `Except`.
* Host functions whose code is outside the sources (zlib, the xxhash package,
  `String.prototype.localeCompare`, the URL parser) are parameters of the embedded
  functions; the `Headers` class, UTF-8 and `Buffer` reads and writes are embedded.
-/

namespace Nodeblaze

/-! ## Strings -/

/-- A JavaScript string. -/
abbrev JsString := List Char

/-- The line feed character. -/
def LF : Char := Char.ofNat 10

/-- `String.prototype.split(sep)` for a separator of one character: the pieces between
the occurrences of `sep`; the empty string splits into one empty piece. -/
def split (sep : Char) : JsString → List JsString
  | [] => [[]]
  | c :: cs =>
    if c = sep then [] :: split sep cs
    else
      match split sep cs with
      | [] => [[c]]
      | piece :: pieces => (c :: piece) :: pieces

/-- `Array.prototype.join(sep)` on an array of strings. -/
def join (sep : JsString) (parts : List JsString) : JsString :=
  sep.intercalate parts

/-- White space and line terminators of ECMAScript, the characters that
`String.prototype.trim` strips. -/
def isJsWhiteSpace (c : Char) : Bool :=
  let n := c.toNat
  n = 0x09 || n = 0x0A || n = 0x0B || n = 0x0C || n = 0x0D || n = 0x20 || n = 0xA0 ||
  n = 0x1680 || (0x2000 ≤ n && n ≤ 0x200A) || n = 0x2028 || n = 0x2029 || n = 0x202F ||
  n = 0x205F || n = 0x3000 || n = 0xFEFF

/-- `String.prototype.trim`. -/
def trim (s : JsString) : JsString :=
  ((s.dropWhile isJsWhiteSpace).reverse.dropWhile isJsWhiteSpace).reverse

/-! ## UTF-8 -/

/-- UTF-8 bytes of one character. -/
def utf8EncodeChar (c : Char) : List Nat :=
  let n := c.toNat
  if n < 0x80 then [n]
  else if n < 0x800 then [0xC0 + n / 64, 0x80 + n % 64]
  else if n < 0x10000 then [0xE0 + n / 4096, 0x80 + n / 64 % 64, 0x80 + n % 64]
  else [0xF0 + n / 262144, 0x80 + n / 4096 % 64, 0x80 + n / 64 % 64, 0x80 + n % 64]

/-- `Buffer.from(s, "utf-8")`. -/
def utf8Encode (s : JsString) : List Nat :=
  s.flatMap utf8EncodeChar

/-- U+FFFD, which the decoder emits for a malformed sequence. -/
def replacementChar : Char := Char.ofNat 0xFFFD

/-- State of the UTF-8 decoder inside a multi-byte sequence. -/
structure Utf8Pending where
  /-- Code point accumulated so far. -/
  codePoint : Nat
  /-- Continuation bytes still expected. -/
  needed : Nat
  /-- Smallest byte accepted next. -/
  lower : Nat
  /-- Largest byte accepted next. -/
  upper : Nat

/-- What the decoder does with a byte read outside a multi-byte sequence: emit a character
(`Sum.inl`) or start a sequence (`Sum.inr`). -/
def utf8Lead (b : Nat) : Char ⊕ Utf8Pending :=
  if b ≤ 0x7F then .inl (Char.ofNat b)
  else if 0xC2 ≤ b ∧ b ≤ 0xDF then .inr ⟨b % 32, 1, 0x80, 0xBF⟩
  else if 0xE0 ≤ b ∧ b ≤ 0xEF then
    .inr ⟨b % 16, 2, if b = 0xE0 then 0xA0 else 0x80, if b = 0xED then 0x9F else 0xBF⟩
  else if 0xF0 ≤ b ∧ b ≤ 0xF4 then
    .inr ⟨b % 8, 3, if b = 0xF0 then 0x90 else 0x80, if b = 0xF4 then 0x8F else 0xBF⟩
  else .inl replacementChar

/-- The UTF-8 decoder with replacement (`Buffer.prototype.toString("utf-8")`): `st` is
`none` outside a sequence; a byte that cannot continue the pending sequence yields U+FFFD
and is read again as a lead byte. -/
def utf8DecodeFrom : Option Utf8Pending → List Nat → JsString
  | none, [] => []
  | some _, [] => [replacementChar]
  | none, b :: bs =>
    match utf8Lead b with
    | .inl c => c :: utf8DecodeFrom none bs
    | .inr p => utf8DecodeFrom (some p) bs
  | some p, b :: bs =>
    if b < p.lower ∨ p.upper < b then
      replacementChar ::
        (match utf8Lead b with
         | .inl c => c :: utf8DecodeFrom none bs
         | .inr q => utf8DecodeFrom (some q) bs)
    else if p.needed ≤ 1 then
      Char.ofNat (p.codePoint * 64 + b % 64) :: utf8DecodeFrom none bs
    else
      utf8DecodeFrom (some ⟨p.codePoint * 64 + b % 64, p.needed - 1, 0x80, 0xBF⟩) bs

/-- `buffer.toString("utf-8")`. -/
def utf8Decode (bytes : List Nat) : JsString :=
  utf8DecodeFrom none bytes

/-! ## Buffers -/

/-- `buf.writeUInt32LE(value)` on a fresh 4-byte buffer: throws a `RangeError` when the
value does not fit in 32 bits. -/
def writeUInt32LE (value : Nat) : Except String (List Nat) :=
  if value < 2 ^ 32 then
    .ok [value % 256, value / 256 % 256, value / 65536 % 256, value / 16777216 % 256]
  else .error "ERR_OUT_OF_RANGE"

/-- `buf.writeInt32LE(value)` on a fresh 4-byte buffer: two's complement, throws a
`RangeError` outside the signed 32-bit range. -/
def writeInt32LE (value : Int) : Except String (List Nat) :=
  if -(2 ^ 31) ≤ value ∧ value < 2 ^ 31 then
    let u := (value % 2 ^ 32).toNat
    .ok [u % 256, u / 256 % 256, u / 65536 % 256, u / 16777216 % 256]
  else .error "ERR_OUT_OF_RANGE"

/-- `buf.readUInt32LE(offset)`: throws a `RangeError` unless four bytes are available. -/
def readUInt32LE (data : List Nat) (offset : Nat) : Except String Nat :=
  if offset + 4 ≤ data.length then
    .ok (data.getD offset 0 + 256 * data.getD (offset + 1) 0 +
      65536 * data.getD (offset + 2) 0 + 16777216 * data.getD (offset + 3) 0)
  else .error "ERR_OUT_OF_RANGE"

/-- `buf.readInt32LE(offset)`. -/
def readInt32LE (data : List Nat) (offset : Nat) : Except String Int := do
  let u ← readUInt32LE data offset
  pure (if u < 2 ^ 31 then (u : Int) else (u : Int) - 2 ^ 32)

/-- `buf.subarray(start, end)`: both ends are clamped to the buffer. -/
def subarray (data : List Nat) (start stop : Nat) : List Nat :=
  (data.drop start).take (stop - start)

/-! ## The persistence layer (`storage.util.js`) -/

/-- `ResponseCacheableObject`: the record stored per key. -/
structure ResponseCacheableObject where
  /-- Body bytes, already encoded. -/
  body : List Nat
  /-- Status code. -/
  status : Int
  /-- Header pairs, in order. -/
  headers : List (JsString × JsString)
deriving DecidableEq, Repr

/-- `DataItem`: a record and its accounted size. -/
structure DataItem where
  /-- The record. -/
  value : ResponseCacheableObject
  /-- The accounted size. -/
  size : Nat
deriving DecidableEq, Repr

/-- `DataArray`: one dumped cache entry, `[key, entry]`. -/
abbrev DataArray := JsString × DataItem

/-- The files on disk: the content of each path that exists. -/
abbrev FileSystem := JsString → Option (List Nat)

/-- `writeFile(filename, data)`: creates or overwrites the file. -/
def writeFile (fs : FileSystem) (filename : JsString) (data : List Nat) : FileSystem :=
  fun p => if p = filename then some data else fs p

/-- The text written for the header list: every pair is joined with a colon, empty
results are dropped, and the rest is joined with line feeds. -/
def headersString (headers : List (JsString × JsString)) : JsString :=
  join [LF] ((headers.map (fun header => join [':'] [header.1, header.2])).filter
    (fun s => !s.isEmpty))

/-- The body of the loop of `serializeToFile`: the bytes of one item. -/
def serializeItem (item : DataArray) : Except String (List Nat) := do
  let requestIdUint8Array := utf8Encode item.1
  let requestIdLengthBuffer ← writeUInt32LE requestIdUint8Array.length
  let headersUint8Array := utf8Encode (headersString item.2.value.headers)
  let headersLengthBuffer ← writeUInt32LE headersUint8Array.length
  let statusBuffer ← writeInt32LE item.2.value.status
  let bodyLengthBuffer ← writeUInt32LE item.2.value.body.length
  pure (requestIdLengthBuffer ++ requestIdUint8Array ++ headersLengthBuffer ++
    headersUint8Array ++ statusBuffer ++ bodyLengthBuffer ++ item.2.value.body)

/-- The `try` block of `serializeToFile` up to the write: all items, concatenated. -/
def serializeItems : List DataArray → Except String (List Nat)
  | [] => .ok []
  | item :: rest => do
    let serializedItem ← serializeItem item
    let others ← serializeItems rest
    pure (serializedItem ++ others)

/-- `serializeToFile(data, filename)`: rejects when `data` is absent or empty or `filename`
is absent or empty; an exception inside the `try` block is logged and swallowed, and then
nothing is written. The result is the file system afterwards. -/
def serializeToFile (fs : FileSystem) (data : Option (List DataArray))
    (filename : Option JsString) : Except String FileSystem :=
  match data with
  | none => .error "data is required"
  | some [] => .error "data is required"
  | some (item :: rest) =>
    match filename with
    | none => .error "filename is required"
    | some [] => .error "filename is required"
    | some (c :: cs) =>
      match serializeItems (item :: rest) with
      | .ok combinedData => .ok (writeFile fs (c :: cs) combinedData)
      | .error _ => .ok fs

/-- The header list read back from a header text: one pair per line, the name up to the
first colon, the value the trimmed remainder. -/
def parseHeaders (headersString : JsString) : List (JsString × JsString) :=
  (split LF headersString).map (fun header =>
    match split ':' header with
    | [] => ([], [])
    | key :: rest => (key, trim (join [':'] rest)))

/-- The `while` loop of `deserializeFromFile`; `fuel` bounds the number of iterations
(every iteration moves `offset` forward by at least 12). -/
def deserializeLoop (data : List Nat) :
    Nat → Nat → List DataArray → Except String (List DataArray)
  | 0, _, deserializedData => .ok deserializedData
  | fuel + 1, offset, deserializedData =>
    if offset < data.length then do
      let requestIdLength ← readUInt32LE data offset
      let offset := offset + 4
      let requestId := utf8Decode (subarray data offset (offset + requestIdLength))
      let offset := offset + requestIdLength
      let headersLength ← readUInt32LE data offset
      let offset := offset + 4
      let headersArray := parseHeaders (utf8Decode (subarray data offset (offset + headersLength)))
      let offset := offset + headersLength
      let status ← readInt32LE data offset
      let offset := offset + 4
      let bodyLength ← readUInt32LE data offset
      let offset := offset + 4
      let body := subarray data offset (offset + bodyLength)
      let offset := offset + bodyLength
      deserializeLoop data fuel offset (deserializedData ++
        [(requestId, { value := { body := body, status := status, headers := headersArray },
                       size := bodyLength + headersLength + 8 + requestIdLength + 4 })])
    else .ok deserializedData

/-- `deserializeFromFile(filename)`: rejects when the file does not exist (`stat`); an
exception while reading is logged and swallowed, and the result is then the empty list. -/
def deserializeFromFile (fs : FileSystem) (filename : JsString) :
    Except String (List DataArray) :=
  match fs filename with
  | none => .error "ENOENT"
  | some data =>
    match deserializeLoop data (data.length + 1) 0 [] with
    | .ok deserializedData => .ok deserializedData
    | .error _ => .ok []

instance instDecidableEqExcept {ε α : Type} [DecidableEq ε] [DecidableEq α] :
    DecidableEq (Except ε α) := fun a b =>
  match a, b with
  | .ok x, .ok y => if h : x = y then isTrue (by rw [h]) else isFalse (fun e => h (Except.ok.inj e))
  | .error x, .error y =>
    if h : x = y then isTrue (by rw [h]) else isFalse (fun e => h (Except.error.inj e))
  | .ok _, .error _ => isFalse (fun e => by cases e)
  | .error _, .ok _ => isFalse (fun e => by cases e)

/-! ## The `Headers` class of the Fetch standard -/

/-- ASCII lower-casing of one character. -/
def asciiLower (c : Char) : Char :=
  if 65 ≤ c.toNat ∧ c.toNat ≤ 90 then Char.ofNat (c.toNat + 32) else c

/-- Byte-lowercase of a header name. -/
def lowerName (name : JsString) : JsString :=
  name.map asciiLower

/-- HTTP whitespace: tab, line feed, carriage return, space. -/
def isHttpWhitespace (c : Char) : Bool :=
  c.toNat = 0x09 || c.toNat = 0x0A || c.toNat = 0x0D || c.toNat = 0x20

/-- Normalization of a header value: leading and trailing HTTP whitespace is removed. -/
def normalizeValue (value : JsString) : JsString :=
  ((value.dropWhile isHttpWhitespace).reverse.dropWhile isHttpWhitespace).reverse

/-- The characters of an HTTP token. -/
def isTokenChar (c : Char) : Bool :=
  let n := c.toNat
  (48 ≤ n && n ≤ 57) || (65 ≤ n && n ≤ 90) || (97 ≤ n && n ≤ 122) ||
  n = 0x21 || n = 0x23 || n = 0x24 || n = 0x25 || n = 0x26 || n = 0x27 || n = 0x2A ||
  n = 0x2B || n = 0x2D || n = 0x2E || n = 0x5E || n = 0x5F || n = 0x60 || n = 0x7C || n = 0x7E

/-- A header name is a non-empty token. -/
def isHeaderName (name : JsString) : Bool :=
  !name.isEmpty && name.all isTokenChar

/-- A header value is a byte string without NUL, line feed and carriage return. -/
def isHeaderValue (value : JsString) : Bool :=
  value.all (fun c => c.toNat ≤ 0xFF && c.toNat ≠ 0x00 && c.toNat ≠ 0x0A && c.toNat ≠ 0x0D)

/-- A `Headers` object: its header list, the names kept in lower case. -/
structure Headers where
  /-- The header list, in insertion order. -/
  list : List (JsString × JsString)
deriving DecidableEq, Repr

/-- `new Headers()`. -/
def Headers.empty : Headers := ⟨[]⟩

/-- `headers.append(name, value)`: throws a `TypeError` for an invalid name or value. -/
def Headers.append (h : Headers) (name value : JsString) : Except String Headers :=
  let value := normalizeValue value
  if isHeaderName name && isHeaderValue value then
    .ok ⟨h.list ++ [(lowerName name, value)]⟩
  else .error "TypeError: invalid header"

/-- Filling a header list from a sequence of pairs. -/
def Headers.fill (h : Headers) : List (JsString × JsString) → Except String Headers
  | [] => .ok h
  | (name, value) :: rest => do
    let h1 ← h.append name value
    Headers.fill h1 rest

/-- `new Headers(init)` for a sequence of pairs `init`. -/
def Headers.ofEntries (init : List (JsString × JsString)) : Except String Headers :=
  Headers.fill Headers.empty init

/-- The values of the headers named `name` (lower case), in order. -/
def Headers.valuesOf (h : Headers) (name : JsString) : List JsString :=
  (h.list.filter (fun p => p.1 = name)).map (fun p => p.2)

/-- `headers.get(name)`: the values under the name joined by a comma and a space, `none`
(JavaScript `null`) when there is none. -/
def Headers.get (h : Headers) (name : JsString) : Option JsString :=
  match h.valuesOf (lowerName name) with
  | [] => none
  | v :: vs => some (join [',', ' '] (v :: vs))

/-- Setting a header in a header list: the first header of that name takes the value and
the others of that name are removed. -/
def setFirst (name value : JsString) : List (JsString × JsString) → List (JsString × JsString)
  | [] => []
  | p :: rest =>
    if p.1 = name then (name, value) :: rest.filter (fun q => q.1 ≠ name)
    else p :: setFirst name value rest

/-- `headers.set(name, value)` for a valid name and value (every call in the sources passes
a literal token as name and a value without control characters, for which it cannot throw):
the value is normalized; an existing header of that name is replaced, otherwise the header
is appended. -/
def Headers.set (h : Headers) (name value : JsString) : Headers :=
  let name := lowerName name
  let value := normalizeValue value
  if h.list.any (fun p => p.1 = name) then ⟨setFirst name value h.list⟩
  else ⟨h.list ++ [(name, value)]⟩

/-- Code-point order on strings (for ASCII names it is the code-unit order the Fetch
standard sorts header names by). -/
def codePointLe : JsString → JsString → Bool
  | [], _ => true
  | _ :: _, [] => false
  | a :: as, b :: bs => a.toNat < b.toNat || (a.toNat = b.toNat && codePointLe as bs)

/-- The distinct header names, sorted. -/
def Headers.sortedNames (h : Headers) : List JsString :=
  ((h.list.map (fun p => p.1)).dedup).insertionSort (fun a b => codePointLe a b = true)

/-- The name `set-cookie`, whose values are never combined. -/
def setCookie : JsString := "set-cookie".toList

/-- `Array.from(headers.entries())`: sort and combine. One pair per name, in sorted order,
with the values of the name combined; `set-cookie` keeps one pair per value. -/
def Headers.entries (h : Headers) : List (JsString × JsString) :=
  h.sortedNames.flatMap (fun name =>
    if name = setCookie then (h.valuesOf name).map (fun v => (name, v))
    else [(name, join [',', ' '] (h.valuesOf name))])

/-! ## Encodings and cacheable objects (`http.util.js`) -/

/-- `ENCODINGS.BROTLI`. -/
def BROTLI : JsString := "br".toList
/-- `ENCODINGS.GZIP`. -/
def GZIP : JsString := "gzip".toList
/-- `ENCODINGS.DEFLATE`. -/
def DEFLATE : JsString := "deflate".toList
/-- `ENCODINGS.IDENTITY`. -/
def IDENTITY : JsString := "identity".toList

/-- The compressors and decompressors of `compress.util.js` (promisified `node:zlib`
functions). A compressor is given the bytes of its input (for a string, its UTF-8 bytes);
a decompressor throws on data it cannot read. -/
structure Zlib where
  /-- `brotliCompress`. -/
  brotliCompress : List Nat → List Nat
  /-- `brotliDecompress`. -/
  brotliDecompress : List Nat → Except String (List Nat)
  /-- `gzipCompress`. -/
  gzipCompress : List Nat → List Nat
  /-- `gzipDecompress`. -/
  gzipDecompress : List Nat → Except String (List Nat)
  /-- `deflateCompress`. -/
  deflateCompress : List Nat → List Nat
  /-- `deflateDecompress`. -/
  deflateDecompress : List Nat → Except String (List Nat)

/-- `compressData(data, encoding)` for a string `data`. -/
def compressData (z : Zlib) (data : JsString) (encoding : JsString) :
    Except String (List Nat) :=
  if encoding = BROTLI then .ok (z.brotliCompress (utf8Encode data))
  else if encoding = GZIP then .ok (z.gzipCompress (utf8Encode data))
  else if encoding = DEFLATE then .ok (z.deflateCompress (utf8Encode data))
  else if encoding = IDENTITY then .ok (utf8Encode data)
  else .error "Invalid encoding provided for compressData"

/-- A `Response`: the text of its body (what `response.text()` resolves to), its status
and its headers. -/
structure Response where
  /-- The body text. -/
  text : JsString
  /-- The status. -/
  status : Int
  /-- The headers. -/
  headers : Headers
deriving DecidableEq, Repr

/-- `compressResponse(response, dataEncoding)`. -/
def compressResponse (z : Zlib) (response : Response) (dataEncoding : JsString) :
    Except String (List Nat) :=
  compressData z response.text dataEncoding

/-- `compressString(data, dataEncoding)`. -/
def compressString (z : Zlib) (data : JsString) (dataEncoding : JsString) :
    Except String (List Nat) :=
  compressData z data dataEncoding

/-- What a route handler may return (`RouteResponse`): a `Response`, a string, an object or
array (given by its `JSON.stringify` text), or any other JSON value (number, boolean,
`null`). -/
inductive RouteData where
  | response (r : Response)
  | text (s : JsString)
  | object (json : JsString)
  | other
deriving DecidableEq, Repr

/-- The order of preference of `convertToCacheableObject` and `convertCacheableObject`. -/
def preferredEncodings : List JsString := [BROTLI, GZIP, DEFLATE, IDENTITY]

/-- Decimal text of a length (`Number.prototype.toString`). -/
def decimal (n : Nat) : JsString := Nat.toDigits 10 n

/-- The default of the parameter `acceptableEncodings` of `convertToCacheableObject`, which
a caller that omits the argument passes. -/
def defaultAcceptableEncodings : List JsString := [BROTLI, GZIP, DEFLATE]

/-- `convertToCacheableObject(data, acceptableEncodings)`; `none` is a `null` list. -/
def convertToCacheableObject (z : Zlib) (data : RouteData)
    (acceptableEncodings : Option (List JsString)) : Except String ResponseCacheableObject :=
  match acceptableEncodings with
  | none => .error "Please provide array of acceptable encodings"
  | some [] => .error "Please provide array of acceptable encodings"
  | some (e :: es) => do
    let dataEncoding :=
      ((preferredEncodings.find? (fun enc => (e :: es).contains enc)).getD IDENTITY)
    let (compressedData, responseHeaders, status) ←
      (match data with
       | .response r => do
         let compressedData ← compressResponse z r dataEncoding
         pure (compressedData, r.headers, r.status)
       | .text s => do
         let responseHeaders := Headers.empty.set "content-type".toList "text/plain".toList
         let compressedData ← compressString z s dataEncoding
         pure (compressedData, responseHeaders, (200 : Int))
       | .object json => do
         let responseHeaders :=
           Headers.empty.set "content-type".toList "application/json".toList
         let compressedData ← compressString z json dataEncoding
         pure (compressedData, responseHeaders, (200 : Int))
       | .other => do
         let compressedData ← compressString z [] dataEncoding
         pure (compressedData, Headers.empty, (200 : Int)))
    let responseHeaders := responseHeaders.set "content-encoding".toList dataEncoding
    let responseHeaders :=
      responseHeaders.set "content-length".toList (decimal compressedData.length)
    pure { body := compressedData, status := status, headers := responseHeaders.entries }

/-- The byte order mark, which `TextDecoder` drops at the start of its input. -/
def BOM : Char := Char.ofNat 0xFEFF

/-- `new TextDecoder().decode(bytes)`. -/
def textDecode (bytes : List Nat) : JsString :=
  match utf8Decode bytes with
  | [] => []
  | c :: cs => if c = BOM then cs else c :: cs

/-- The decompression step of `convertCacheableObject`: the text of the body under the
current encoding, `none` (JavaScript `undefined`) when the encoding is none of the four. -/
def decompressCurrent (z : Zlib) (body : List Nat) (currentEncoding : Option JsString) :
    Except String (Option JsString) :=
  if currentEncoding = some BROTLI then do
    let b ← z.brotliDecompress body
    pure (some (utf8Decode b))
  else if currentEncoding = some GZIP then do
    let b ← z.gzipDecompress body
    pure (some (utf8Decode b))
  else if currentEncoding = some DEFLATE then do
    let b ← z.deflateDecompress body
    pure (some (utf8Decode b))
  else if currentEncoding = some IDENTITY then pure (some (textDecode body))
  else pure none

/-- The compression step of `convertCacheableObject`: a zlib compressor throws a
`TypeError` when handed `undefined`, `TextEncoder.encode(undefined)` gives no bytes, and
so does an expected encoding that is none of the four. -/
def compressExpected (z : Zlib) (decompressedData : Option JsString)
    (expectedEncoding : JsString) : Except String (List Nat) :=
  if expectedEncoding = BROTLI then
    match decompressedData with
    | some s => .ok (z.brotliCompress (utf8Encode s))
    | none => .error "ERR_INVALID_ARG_TYPE"
  else if expectedEncoding = GZIP then
    match decompressedData with
    | some s => .ok (z.gzipCompress (utf8Encode s))
    | none => .error "ERR_INVALID_ARG_TYPE"
  else if expectedEncoding = DEFLATE then
    match decompressedData with
    | some s => .ok (z.deflateCompress (utf8Encode s))
    | none => .error "ERR_INVALID_ARG_TYPE"
  else if expectedEncoding = IDENTITY then
    match decompressedData with
    | some s => .ok (utf8Encode s)
    | none => .ok []
  else .ok []

/-- `convertCacheableObject(cacheableObj, acceptableEncodings)`; `none` is a `null` list. -/
def convertCacheableObject (z : Zlib) (cacheableObj : ResponseCacheableObject)
    (acceptableEncodings : Option (List JsString)) : Except String ResponseCacheableObject := do
  let headers ← Headers.ofEntries cacheableObj.headers
  let currentEncoding := headers.get "content-encoding".toList
  match acceptableEncodings with
  | none => .error "Please provide array of acceptable encodings"
  | some [] => .error "Please provide array of acceptable encodings"
  | some (e :: es) =>
    let expectedEncoding :=
      ((preferredEncodings.find? (fun enc => (e :: es).contains enc)).getD IDENTITY)
    if currentEncoding = some expectedEncoding then pure cacheableObj
    else do
      let decompressedData ← decompressCurrent z cacheableObj.body currentEncoding
      let convertedCompressedData ← compressExpected z decompressedData expectedEncoding
      if convertedCompressedData.length = 0 then .error "No expected encoding found"
      else do
        let newResponseObjHeaders ← Headers.ofEntries cacheableObj.headers
        let newResponseObjHeaders :=
          newResponseObjHeaders.set "content-encoding".toList expectedEncoding
        let newResponseObjHeaders :=
          newResponseObjHeaders.set "content-length".toList
            (decimal convertedCompressedData.length)
        pure { body := convertedCompressedData, status := cacheableObj.status,
               headers := newResponseObjHeaders.entries }

/-- A header list as every `Headers` object holds it: the names are lower-case tokens and
the values are header values. -/
def Headers.WellFormed (h : Headers) : Prop :=
  ∀ p ∈ h.list, isHeaderName p.1 = true ∧ lowerName p.1 = p.1 ∧ isHeaderValue p.2 = true

instance (h : Headers) : Decidable h.WellFormed := by
  unfold Headers.WellFormed
  infer_instance

/-- The encoding a record states: `new Headers(record.headers).get("content-encoding")`. -/
def currentEncoding (cacheableObj : ResponseCacheableObject) :
    Except String (Option JsString) := do
  let headers ← Headers.ofEntries cacheableObj.headers
  pure (headers.get "content-encoding".toList)

/-! ## Fingerprints (`hash.util.js`, `request.util.js`, `http.util.js`) -/

/-- A parsed URL, as far as the sources read it: `href`, `pathname` and the list behind
`searchParams` (names and values already decoded). -/
structure URL where
  /-- The serialized URL. -/
  href : JsString
  /-- The path. -/
  pathname : JsString
  /-- The query parameters, in order. -/
  searchParams : List (JsString × JsString)
deriving DecidableEq, Repr

/-- The host functions the fingerprint code and `fetch.util.js` call: the URL parser
`new URL(input, base)` (a `TypeError` for an invalid URL), `String.prototype.localeCompare`,
the xxhash package (`xxhashjs.h64(string, seed).toString(16)`), and
`String.prototype.toUpperCase` (the mapping of the Unicode standard, which is not limited
to ASCII letters). -/
structure Host where
  /-- `new URL(input, base)`. -/
  newURL : JsString → Option JsString → Except String URL
  /-- `a.localeCompare(b)`. -/
  localeCompare : JsString → JsString → Int
  /-- `xxhashjs.h64(string, seed).toString(16)`. -/
  h64 : JsString → Nat → JsString
  /-- `s.toUpperCase()`. -/
  toUpperCase : JsString → JsString

/-- `DEFAULT_SEED`. -/
def DEFAULT_SEED : Nat := 0xfdea1e3

/-- `hash(string)`. -/
def hash (host : Host) (string : JsString) : JsString :=
  host.h64 string DEFAULT_SEED

/-- Upper-case hexadecimal digit. -/
def upperHexDigit (n : Nat) : Char :=
  if n < 10 then Char.ofNat (48 + n) else Char.ofNat (55 + n)

/-- The bytes the `application/x-www-form-urlencoded` serializer leaves as they are:
ASCII letters and digits, `*`, `-`, `.` and `_`. -/
def isFormSafe (b : Nat) : Bool :=
  (48 ≤ b && b ≤ 57) || (65 ≤ b && b ≤ 90) || (97 ≤ b && b ≤ 122) ||
  b = 0x2A || b = 0x2D || b = 0x2E || b = 0x5F

/-- Serialization of one byte: a space becomes `+`, a safe byte itself, any other byte a
percent escape. -/
def formEncodeByte (b : Nat) : JsString :=
  if b = 0x20 then ['+']
  else if isFormSafe b then [Char.ofNat b]
  else ['%', upperHexDigit (b / 16), upperHexDigit (b % 16)]

/-- Serialization of a name or value. -/
def formEncode (s : JsString) : JsString :=
  (utf8Encode s).flatMap formEncodeByte

/-- `new URLSearchParams(pairs).toString()`. -/
def urlSearchParamsToString (pairs : List (JsString × JsString)) : JsString :=
  join ['&'] (pairs.map (fun p => formEncode p.1 ++ '=' :: formEncode p.2))

/-- `pairs.sort((a, b) => a[0].localeCompare(b[0]))`: `Array.prototype.sort` is stable, so
for a consistent comparator the result is the insertion sort by name. -/
def sortByName (host : Host) (pairs : List (JsString × JsString)) :
    List (JsString × JsString) :=
  pairs.insertionSort (fun a b => host.localeCompare a.1 b.1 ≤ 0)

/-- The first argument of `getUrlId`: a string or a `URL` object. -/
inductive UrlArg where
  | string (s : JsString)
  | url (u : URL)
deriving DecidableEq, Repr

/-- `new URL(url)` for a string or a `URL` object (which is copied). -/
def newURLOf (host : Host) : UrlArg → Except String URL
  | .string s => host.newURL s none
  | .url u => .ok u

/-- `getUrlId(url, prefix)`. Assigning the serialized parameters to `urlObj.search` stores
them as they are (the serializer emits no character the query parser escapes), and
`urlObj.search` then reads as the empty string for an empty query and as `?` followed by
the query otherwise. -/
def getUrlId (host : Host) (url : UrlArg) (urlPrefix : JsString) : Except String JsString := do
  let urlObj ← newURLOf host url
  let query := urlSearchParamsToString (sortByName host urlObj.searchParams)
  let search := if query.isEmpty then [] else '?' :: query
  let exceptHost := urlPrefix ++ urlObj.pathname ++ search
  let uniqueUrlKey := hash host exceptHost
  pure ("u:".toList ++ uniqueUrlKey)

/-- An incoming request (`http.IncomingMessage`): request target, method, the header object
(lower-case names), whether the connection is encrypted, and the text its body stream
delivers. -/
structure Request where
  /-- `req.url`. -/
  url : JsString
  /-- `req.method`. -/
  method : JsString
  /-- `req.headers`. -/
  headers : List (JsString × JsString)
  /-- `req.connection.encrypted`. -/
  encrypted : Bool
  /-- The text of the body. -/
  body : JsString
deriving DecidableEq, Repr

/-- `req.headers[name]`. -/
def Request.header (req : Request) (name : JsString) : Option JsString :=
  (req.headers.find? (fun p => p.1 = name)).map (fun p => p.2)

/-- `a || b` for a possibly absent string `a`: absent and empty strings are falsy. -/
def orElse (a : Option JsString) (b : JsString) : JsString :=
  match a with
  | none => b
  | some [] => b
  | some (c :: cs) => c :: cs

/-- `getBodyAsText(request)`: empty for GET and HEAD. -/
def getBodyAsText (req : Request) : JsString :=
  if req.method = "GET".toList ∨ req.method = "HEAD".toList then [] else req.body

/-- `getFullUrl(req)`. A missing host header is interpolated as `undefined`. -/
def getFullUrl (host : Host) (req : Request) : Except String JsString := do
  let protocol := orElse (req.header "x-forwarded-proto".toList)
    (if req.encrypted then "https".toList else "http".toList)
  let hostName := orElse (req.header "x-forwarded-host".toList)
    (match req.header "host".toList with
     | some h => h
     | none => "undefined".toList)
  let fullUrl ← host.newURL req.url (some (protocol ++ "://".toList ++ hostName))
  pure fullUrl.href

/-- `getHeadersId(request)`. -/
def getHeadersId (host : Host) (req : Request) : Except String JsString := do
  let requestHeaders ← Headers.ofEntries req.headers
  let uniqueHeaders :=
    [orElse (requestHeaders.get "x-unique-id".toList) [],
     orElse (requestHeaders.get "authorization".toList) []].filter (fun s => !s.isEmpty)
  let allHeaders := join [':'] uniqueHeaders
  pure ("h:".toList ++ hash host allHeaders)

/-- `getBodyId(request)`. -/
def getBodyId (host : Host) (req : Request) : JsString :=
  "b:".toList ++ hash host (getBodyAsText req)

/-- `getRequestId(request, useBodyText)`, without the memoization per request object. -/
def getRequestId (host : Host) (req : Request) (useBodyText : Bool) :
    Except String JsString := do
  let fullUrl ← getFullUrl host req
  let urlId ← getUrlId host (.string fullUrl) []
  let bodyId := if useBodyText then getBodyId host req else []
  let headersId ← getHeadersId host req
  let hashes := join [':'] ([urlId, bodyId, headersId].filter (fun s => !s.isEmpty))
  let uniqueHash := hash host hashes
  pure ("req:".toList ++ uniqueHash)

/-! ## The cache store (`cache.util.js`) -/

/-- The options `CacheManager` hands to the store (`index.js`): the byte ceiling, the size
function and the stale-serving flag. -/
structure CacheOptions where
  /-- The ceiling for the accounted size. -/
  maxSize : Nat
  /-- The accounted size of a record. -/
  sizeCalculation : ResponseCacheableObject → Nat
  /-- Whether a stale entry may be returned. -/
  allowStale : Bool

/-- One entry of the store. -/
structure StoreEntry where
  /-- The key. -/
  key : JsString
  /-- The record. -/
  value : ResponseCacheableObject
  /-- The size accounted for it at insertion. -/
  size : Nat
deriving DecidableEq, Repr

/-- Modelled from the spec: the size-bounded store (the `lru-cache` package that
`CacheManager` constructs is not part of the sources). The entries are kept from least to
most recently used. -/
structure LRUCache where
  /-- The options it was built with. -/
  options : CacheOptions
  /-- The entries, least recently used first. -/
  entries : List StoreEntry

/-- `new LRUCache(options)`, as the constructor of `CacheManager` calls it. -/
def LRUCache.new (options : CacheOptions) : LRUCache :=
  { options := options, entries := [] }

/-- The total accounted size of a list of entries. -/
def totalSize (entries : List StoreEntry) : Nat :=
  (entries.map (fun e => e.size)).sum

/-- The total accounted size of the entries held. -/
def LRUCache.calculatedSize (c : LRUCache) : Nat :=
  totalSize c.entries

/-- Modelled from the spec: eviction, "evicts least-recently-used entries until it fits":
entries are dropped from the least recently used end until the rest is within `budget`. -/
def evictUntil (budget : Nat) : List StoreEntry → List StoreEntry
  | [] => []
  | e :: rest => if totalSize (e :: rest) ≤ budget then e :: rest else evictUntil budget rest

/-- Modelled from the spec: `cache.set(key, value)`. The size is taken from
`sizeCalculation` at insertion; a record that alone exceeds `maxSize` is rejected (the
store then holds nothing under the key), otherwise any entry under the key is replaced,
least recently used entries are evicted until the record fits, and the record becomes the
most recently used entry. -/
def LRUCache.set (c : LRUCache) (key : JsString) (value : ResponseCacheableObject) :
    LRUCache :=
  let size := c.options.sizeCalculation value
  let others := c.entries.filter (fun e => e.key ≠ key)
  if c.options.maxSize < size then { c with entries := others }
  else
    { c with entries :=
        evictUntil (c.options.maxSize - size) others ++
          [{ key := key, value := value, size := size }] }

/-- Modelled from the spec: `cache.get(key)`: the record under the key, which becomes the
most recently used entry. -/
def LRUCache.get (c : LRUCache) (key : JsString) :
    Option ResponseCacheableObject × LRUCache :=
  match c.entries.find? (fun e => e.key = key) with
  | none => (none, c)
  | some e =>
    (some e.value, { c with entries := c.entries.filter (fun e => e.key ≠ key) ++ [e] })

/-- The record under a key, without touching the order (`cache.peek(key)`). -/
def LRUCache.peek (c : LRUCache) (key : JsString) : Option ResponseCacheableObject :=
  (c.entries.find? (fun e => e.key = key)).map (fun e => e.value)

/-- Modelled from the spec: `cache.delete(key)`. -/
def LRUCache.delete (c : LRUCache) (key : JsString) : LRUCache :=
  { c with entries := c.entries.filter (fun e => e.key ≠ key) }

/-- The store after a sequence of `set` calls. -/
def LRUCache.setAll (c : LRUCache) (calls : List (JsString × ResponseCacheableObject)) :
    LRUCache :=
  calls.foldl (fun c kv => c.set kv.1 kv.2) c

/-- Assignment to a property of the record object held under a key: the object `get`
returns is the stored one, so the store sees the change; order and accounted size stay. -/
def LRUCache.mutate (c : LRUCache) (key : JsString)
    (f : ResponseCacheableObject → ResponseCacheableObject) : LRUCache :=
  { c with entries :=
      c.entries.map (fun e => if e.key = key then { e with value := f e.value } else e) }

/-- `cacheResponseObject(requestId, responseObj)`: stamps `x-cache-date` with the current
time `now` and stores the record in the singleton store; `initiated` tells whether
`getCacheInstance()` finds an instance. The result is the stamped record and the store. -/
def cacheResponseObject (now : JsString) (initiated : Bool) (cache : LRUCache)
    (requestId : JsString) (responseObj : ResponseCacheableObject) :
    Except String (ResponseCacheableObject × LRUCache) := do
  let headers ← Headers.ofEntries responseObj.headers
  let headers := headers.set "x-cache-date".toList now
  let responseObj := { responseObj with headers := headers.entries }
  if initiated then pure (responseObj, cache.set requestId responseObj)
  else .error "CacheManager instance not initiated. Use CacheManager.initInstance(options: CacheOptions)"

/-! ## The server (`server.js`): cache lookup and background tasks

The request handler and the two background closures are `async` functions. Between two
`await`s a function runs without interruption, so the server is a state machine whose
steps are the arrival of a request at the cache lookup and the resumption of a suspended
function. -/

/-- The `await` at which a function of the server is suspended. -/
inductive Awaiting where
  /-- `await r.route.handler(req, r.params)`: the origin handler has been called. -/
  | handler
  /-- `await convertToCacheableObject(routeData, ...)`. -/
  | encode (routeData : RouteData)
  /-- `await cacheResponseObject(requestId, resObj)`: the call has run and settled the
  promise as recorded. -/
  | write (settled : Except String Unit)
deriving DecidableEq, Repr

/-- The three suspended functions: the background revalidation of the hit path, the
background write-back of the miss path, and the request handler itself on the miss path
(with the encodings the client accepts). -/
inductive TaskKind where
  | refresh
  | writeBack
  | foreground (acceptable : List JsString)
deriving DecidableEq, Repr

/-- A suspended function. -/
structure Task where
  /-- The fingerprint of its request. -/
  key : JsString
  /-- Which function it is. -/
  kind : TaskKind
  /-- Where it is suspended. -/
  awaiting : Awaiting
deriving DecidableEq, Repr

/-- The state of a running server: the store, whether the singleton holds an instance,
the set `bgRequests`, the suspended functions, and the number of calls of an origin
handler so far. -/
structure Server where
  /-- The store (`options.cache`, which is the store of the singleton). -/
  cache : LRUCache
  /-- Whether `getCacheInstance()` finds an instance. -/
  initiated : Bool
  /-- `bgRequests`, in insertion order. -/
  bgRequests : List JsString
  /-- The suspended functions. -/
  tasks : List Task
  /-- How often an origin handler has been called. -/
  originCalls : Nat

/-- `bgRequests.add(requestId)`. -/
def setAdd (s : List JsString) (k : JsString) : List JsString :=
  if k ∈ s then s else s ++ [k]

/-- `bgRequests.delete(requestId)`. -/
def setDelete (s : List JsString) (k : JsString) : List JsString :=
  s.filter (fun x => x ≠ k)

/-- The `catch` and `finally` blocks of the background revalidation: the entry is deleted
from the store and the key from `bgRequests`. -/
def Server.refreshFailed (s : Server) (k : JsString) : Server :=
  { s with cache := s.cache.delete k, bgRequests := setDelete s.bgRequests k }

/-- A request that works with the cache reaches `cache.get(requestId)`, and runs up to its
next `await`. `threw` tells what the call of the origin handler does, where one is made:
it throws, or it returns (a value or a promise, on which the caller is suspended).

On a hit (a record with a non-empty body) the background revalidation starts: when the key
is in `bgRequests` it returns at once, and its `finally` block deletes the key; otherwise
it adds the key and calls the origin handler. When that call throws, the `catch` and
`finally` blocks of the revalidation run at once, before the listener goes on: the entry
and the key are deleted. Then the headers of the record, which is the stored object as
long as the store holds it, are replaced by `X-Cache: HIT` added to them (when
`new Headers` accepts them). On a miss the request handler calls the origin handler itself
and waits for it; when the call throws, the `catch` block of the listener answers and
nothing stays suspended. -/
def Server.request (s : Server) (k : JsString) (acceptable : List JsString)
    (threw : Bool) : Server :=
  match s.cache.get k with
  | (some data, cache) =>
    if data.body.length ≠ 0 then
      let s := { s with cache := cache }
      let s :=
        if k ∈ s.bgRequests then { s with bgRequests := setDelete s.bgRequests k }
        else if threw then
          Server.refreshFailed
            { s with bgRequests := setAdd s.bgRequests k, originCalls := s.originCalls + 1 } k
        else
          { s with bgRequests := setAdd s.bgRequests k,
                   tasks := s.tasks ++ [{ key := k, kind := .refresh, awaiting := .handler }],
                   originCalls := s.originCalls + 1 }
      match Headers.ofEntries data.headers with
      | .ok headers =>
        { s with cache := s.cache.mutate k (fun r =>
            { r with headers := (headers.set "X-Cache".toList "HIT".toList).entries }) }
      | .error _ => s
    else
      { s with cache := cache,
               tasks :=
                 if threw then s.tasks
                 else s.tasks ++
                   [{ key := k, kind := .foreground acceptable, awaiting := .handler }],
               originCalls := s.originCalls + 1 }
  | (none, cache) =>
    { s with cache := cache,
             tasks :=
               if threw then s.tasks
               else s.tasks ++
                 [{ key := k, kind := .foreground acceptable, awaiting := .handler }],
             originCalls := s.originCalls + 1 }

/-- The suspended function `i` resumes and runs up to its next `await` or its end.
`result` is what the origin handler delivered (read only at `Awaiting.handler`), `now` the
current time. -/
def Server.resume (z : Zlib) (s : Server) (i : Nat) (result : Except String RouteData)
    (now : JsString) : Server :=
  match s.tasks.get? i with
  | none => s
  | some t =>
    let rest := s.tasks.eraseIdx i
    let suspend := fun (a : Awaiting) => s.tasks.set i { t with awaiting := a }
    match t.kind, t.awaiting with
    | .refresh, .handler =>
      match result with
      | .ok routeData => { s with tasks := suspend (.encode routeData) }
      | .error _ => { s with tasks := rest }.refreshFailed t.key
    | .refresh, .encode routeData =>
      match convertToCacheableObject z routeData (some [BROTLI]) with
      | .ok resObj =>
        match cacheResponseObject now s.initiated s.cache t.key resObj with
        | .ok (_, cache) => { s with cache := cache, tasks := suspend (.write (.ok ())) }
        | .error e => { s with tasks := suspend (.write (.error e)) }
      | .error _ => { s with tasks := rest }.refreshFailed t.key
    | .refresh, .write settled =>
      match settled with
      | .ok _ => { s with tasks := rest, bgRequests := setDelete s.bgRequests t.key }
      | .error _ => { s with tasks := rest }.refreshFailed t.key
    | .writeBack, .encode routeData =>
      match convertToCacheableObject z routeData (some [BROTLI]) with
      | .ok resObj =>
        match cacheResponseObject now s.initiated s.cache t.key resObj with
        | .ok (_, cache) =>
          { s with cache := cache, tasks := rest, bgRequests := setDelete s.bgRequests t.key }
        | .error _ => { s with tasks := rest, bgRequests := setDelete s.bgRequests t.key }
      | .error _ => { s with tasks := rest, bgRequests := setDelete s.bgRequests t.key }
    | .writeBack, _ => { s with tasks := rest, bgRequests := setDelete s.bgRequests t.key }
    | .foreground _, .handler =>
      match result with
      | .ok routeData => { s with tasks := suspend (.encode routeData) }
      | .error _ => { s with tasks := rest }
    | .foreground acceptable, .encode routeData =>
      match convertToCacheableObject z routeData (some acceptable) with
      | .ok _ =>
        if t.key ∈ s.bgRequests then
          { s with tasks := rest, bgRequests := setDelete s.bgRequests t.key }
        else
          { s with tasks := rest ++
                     [{ key := t.key, kind := .writeBack, awaiting := .encode routeData }],
                   bgRequests := setAdd s.bgRequests t.key }
      | .error _ => { s with tasks := rest }
    | .foreground _, .write _ => { s with tasks := rest }

/-- The background revalidations in flight for a key. -/
def Server.refreshesInFlight (s : Server) (k : JsString) : List Task :=
  s.tasks.filter (fun t => t.key = k ∧ t.kind = TaskKind.refresh)

/-! ## The singleton (`cache.util.js`) -/

/-- Modelled from the spec: `cache.clear()`. -/
def LRUCache.clear (c : LRUCache) : LRUCache :=
  { c with entries := [] }

/-- Modelled from the spec: `cache.load(entries)`: the store is cleared and the entries are
inserted in order, each with the size it was dumped with, under the rules of `set`. -/
def LRUCache.load (c : LRUCache) (data : List DataArray) : LRUCache :=
  data.foldl (fun c item =>
    let others := c.entries.filter (fun e => e.key ≠ item.1)
    if c.options.maxSize < item.2.size then { c with entries := others }
    else
      { c with entries :=
          evictUntil (c.options.maxSize - item.2.size) others ++
            [{ key := item.1, value := item.2.value, size := item.2.size }] }) c.clear

/-- A `CacheManager` object: its field `cache`, a reference to the store its constructor
built, `none` once `destroy` has set it to `null`. (The field `filePath` is the same for
every object.) -/
structure CacheManager where
  /-- The field `cache`. -/
  cache : Option Nat

/-- The objects of the module `cache.util.js`: every `CacheManager` constructed so far and
every store, by reference (the position in the list), and the private static field
`#instance`. -/
structure ManagerState where
  /-- The `CacheManager` objects. -/
  managers : List CacheManager
  /-- The stores. -/
  stores : List LRUCache
  /-- `CacheManager.#instance`. -/
  instanceRef : Option Nat

/-- The module when it has just been loaded: `#instance = null`. -/
def ManagerState.initial : ManagerState :=
  { managers := [], stores := [], instanceRef := none }

/-- `new CacheManager(options)`: throws while `#instance` is set; otherwise builds a store
and an object that refers to it. The result is the reference to the new object. -/
def CacheManager.new (s : ManagerState) (options : CacheOptions) :
    Except String (Nat × ManagerState) :=
  if s.instanceRef.isSome then
    .error "CacheManager instance already created. Use CacheManager.getInstance()"
  else
    .ok (s.managers.length,
      { s with managers := s.managers ++ [{ cache := some s.stores.length }],
               stores := s.stores ++ [LRUCache.new options] })

/-- `CacheManager.initInstance(options)` up to its `await`: when `#instance` is set it
returns (`undefined`, here `none`) at once; otherwise it constructs an object and
registers it, and `loadCache` of that object is then pending. -/
def CacheManager.initInstance (s : ManagerState) (options : CacheOptions) :
    Except String (Option Nat × ManagerState) :=
  if s.instanceRef.isSome then .ok (none, s)
  else do
    let (ref, s1) ← CacheManager.new s options
    pure (some ref, { s1 with instanceRef := some ref })

/-- `CacheManager.getCacheInstance()`: throws while `#instance` is `null`, otherwise
returns the field `cache` of the instance. -/
def CacheManager.getCacheInstance (s : ManagerState) : Except String (Option Nat) :=
  match s.instanceRef with
  | none =>
    .error "CacheManager instance not initiated. Use CacheManager.initInstance(options: CacheOptions)"
  | some ref =>
    match s.managers.get? ref with
    | some m => .ok m.cache
    | none => .ok none

/-- Applying a store operation to the store behind a reference. -/
def ManagerState.updateStore (s : ManagerState) (store : Nat) (f : LRUCache → LRUCache) :
    ManagerState :=
  match s.stores.get? store with
  | some c => { s with stores := s.stores.set store (f c) }
  | none => s

/-- `manager.destroy()` for the object `ref`: its store is cleared, its field `cache` is
set to `null`, and `#instance` is set to `null`. -/
def CacheManager.destroy (s : ManagerState) (ref : Nat) : ManagerState :=
  let s1 :=
    match s.managers.get? ref with
    | some m =>
      match m.cache with
      | some store => s.updateStore store LRUCache.clear
      | none => s
    | none => s
  { s1 with managers := s1.managers.set ref { cache := none }, instanceRef := none }

/-- `manager.loadCache()` for the object `ref`, reading the files `fs`: a failure to read,
and a `cache` field that is `null` by now, are caught and logged; an empty result loads
nothing. -/
def CacheManager.loadCache (s : ManagerState) (ref : Nat) (fs : FileSystem)
    (filePath : JsString) : ManagerState :=
  match deserializeFromFile fs filePath with
  | .error _ => s
  | .ok data =>
    if data.length ≠ 0 then
      match s.managers.get? ref with
      | some m =>
        match m.cache with
        | some store => s.updateStore store (fun c => c.load data)
        | none => s
      | none => s
    else s

/-! ## Memoization per request object (`memoize.util.js`) -/

/-- What `requestMemoize(fn)` closes over: the `WeakMap` from request objects (by
reference) to results, together with a log of the invocations of `fn` made so far, each
with its request object and its outcome. -/
structure MemoState (β : Type) where
  /-- The `WeakMap`. -/
  cache : Nat → Option β
  /-- The invocations of the wrapped function, oldest first. -/
  invocations : List (Nat × Except String β)

/-- The state when `requestMemoize(fn)` returns: `new WeakMap()`, nothing invoked. -/
def MemoState.fresh {β : Type} : MemoState β :=
  { cache := fun _ => none, invocations := [] }

/-- One call `memoized(req, ...args)` of the function returned by `requestMemoize(fn)`.
The wrapped function is given the number of earlier invocations, so that it may answer
differently each time, and it may throw. A request found in the map gets the stored
result; otherwise `fn` is invoked, and its result is stored when it returns. -/
def requestMemoize {α β : Type} (fn : Nat → Nat → α → Except String β) (s : MemoState β)
    (req : Nat) (args : α) : Except String β × MemoState β :=
  match s.cache req with
  | some result => (.ok result, s)
  | none =>
    match fn s.invocations.length req args with
    | .ok result =>
      (.ok result,
        { cache := fun r => if r = req then some result else s.cache r,
          invocations := s.invocations ++ [(req, .ok result)] })
    | .error e => (.error e, { s with invocations := s.invocations ++ [(req, .error e)] })

/-! ## Routing (`router.util.js`) -/

/-- The path parameters a pattern extracts (`execRoute.pathname.groups`). -/
abbrev RouteParams := List (JsString × JsString)

/-- A compiled route (`CompiledRoute`): the pattern of its `URLPattern`, the two flags
`compileRoute` fills in, and its handler, by reference (`none` when the route has none). -/
structure CompiledRoute where
  /-- The pathname pattern of `route.path`. -/
  path : JsString
  /-- `route.cache`. -/
  cache : Bool
  /-- `route.isGraphQL`. -/
  isGraphQL : Bool
  /-- `route.handler`. -/
  handler : Option Nat
deriving DecidableEq, Repr

/-- `pattern.exec(url)?.pathname?.groups` of the package `urlpattern-polyfill`, for a
pattern given by its pathname: the groups when the URL matches, `none` when it does not. -/
abbrev PatternExec := JsString → JsString → Option RouteParams

/-- The `while` loop of `findMatchedRoute`: `i` counts down from the length of the list,
and the loop ends as soon as `match` is set. -/
def findMatchedRouteLoop (exec : PatternExec) (fullUrl : JsString)
    (compiledRoutes : List CompiledRoute) :
    Nat → Option (CompiledRoute × RouteParams) → Option (CompiledRoute × RouteParams)
  | 0, found => found
  | i + 1, found =>
    match found with
    | some m => some m
    | none =>
      match compiledRoutes.get? i with
      | none => none
      | some route =>
        match exec route.path fullUrl with
        | some params => findMatchedRouteLoop exec fullUrl compiledRoutes i (some (route, params))
        | none => findMatchedRouteLoop exec fullUrl compiledRoutes i none

/-- `findMatchedRoute(request, compiledRoutes)`, with the `getFullUrl` of
`request.util.js`; `none` is `undefined`. -/
def findMatchedRoute (host : Host) (exec : PatternExec) (request : Request)
    (compiledRoutes : List CompiledRoute) :
    Except String (Option (CompiledRoute × RouteParams)) := do
  let fullUrl ← getFullUrl host request
  pure (findMatchedRouteLoop exec fullUrl compiledRoutes compiledRoutes.length none)

/-! ## Responses (`response.util.js`, `cors.util.js`, `error.util.js`) -/

/-- A value caught by a `catch` clause: a `RouteError` with its three fields, any other
`Error` with its message, or a value that is not an `Error`. -/
inductive Thrown where
  | routeError (message : JsString) (statusCode : Int) (responseText : JsString)
  | error (message : JsString)
  | value
deriving DecidableEq, Repr

/-- The `Error` that the functions of this development throw, from its message. -/
def Thrown.ofMessage (message : String) : Thrown :=
  .error message.toList

/-- A `Response` built by the server, with the bytes of its body. -/
structure OutgoingResponse where
  /-- The body bytes. -/
  body : List Nat
  /-- The status. -/
  status : Int
  /-- The headers. -/
  headers : Headers
deriving DecidableEq, Repr

/-- The statuses that allow no body (Fetch standard: null body status). -/
def nullBodyStatus : List Int := [101, 103, 204, 205, 304]

/-- `new Response(body, { status, headers })` for a body that is not `null`, by the
constructor steps of the Fetch standard: a `RangeError` for a status outside 200 to 599, a
`TypeError` for a status that allows no body. -/
def newResponse (body : List Nat) (status : Int) (headers : Headers) :
    Except Thrown OutgoingResponse :=
  if status < 200 ∨ 599 < status then
    .error (.error "init.status must be in the range of 200 to 599, inclusive.".toList)
  else if status ∈ nullBodyStatus then
    .error (.error "Response with null body status cannot have body".toList)
  else .ok { body := body, status := status, headers := headers }

/-- One hexadecimal digit, lower case. -/
def lowerHexDigit (n : Nat) : Char :=
  if n < 10 then Char.ofNat (48 + n) else Char.ofNat (87 + n)

/-- The reverse solidus. -/
def reverseSolidus : Char := Char.ofNat 0x5C

/-- The quotation mark. -/
def quotationMark : Char := Char.ofNat 0x22

/-- `JSON.stringify` of one character of a string: quotation mark, reverse solidus and
control characters are escaped. -/
def jsonEscape (c : Char) : JsString :=
  if c.toNat = 0x08 then [reverseSolidus, 'b']
  else if c.toNat = 0x09 then [reverseSolidus, 't']
  else if c.toNat = 0x0A then [reverseSolidus, 'n']
  else if c.toNat = 0x0C then [reverseSolidus, 'f']
  else if c.toNat = 0x0D then [reverseSolidus, 'r']
  else if c.toNat = 0x22 then [reverseSolidus, quotationMark]
  else if c.toNat = 0x5C then [reverseSolidus, reverseSolidus]
  else if c.toNat < 0x20 then
    [reverseSolidus, 'u', '0', '0', lowerHexDigit (c.toNat / 16), lowerHexDigit (c.toNat % 16)]
  else [c]

/-- `JSON.stringify(s)` for a string `s`. -/
def jsonQuote (s : JsString) : JsString :=
  [quotationMark] ++ s.flatMap jsonEscape ++ [quotationMark]

/-- The values of the objects the server turns into JSON text. -/
inductive JsonValue where
  | string (s : JsString)
  | number (n : Int)
  | boolean (b : Bool)
deriving DecidableEq, Repr

/-- `JSON.stringify` of such a value. -/
def JsonValue.stringify : JsonValue → JsString
  | .string s => jsonQuote s
  | .number n => if n < 0 then '-' :: decimal n.natAbs else decimal n.natAbs
  | .boolean b => if b then "true".toList else "false".toList

/-- `JSON.stringify(object)` for an object with the given properties, in order. -/
def jsonStringify (properties : List (JsString × JsonValue)) : JsString :=
  [Char.ofNat 0x7B] ++
    join [','] (properties.map (fun p => jsonQuote p.1 ++ [':'] ++ p.2.stringify)) ++
    [Char.ofNat 0x7D]

/-- `setCORSHeaders(headers)` with the constant `corsConfig` (enabled, with credentials). -/
def setCORSHeaders (headers : Headers) : Headers :=
  let headers := headers.set "Access-Control-Allow-Origin".toList "*".toList
  let headers := headers.set "Access-Control-Allow-Methods".toList
    "GET, POST, PUT, DELETE, OPTIONS".toList
  let headers := headers.set "Access-Control-Allow-Headers".toList "*".toList
  headers.set "Access-Control-Allow-Credentials".toList "true".toList

/-- `jsonResponse(data, status, headers)` for an object `data`. -/
def jsonResponse (data : List (JsString × JsonValue)) (status : Int) (headers : Headers) :
    Except Thrown OutgoingResponse :=
  let contentType := headers.get "content-type".toList
  let headers :=
    if orElse contentType [] = [] then
      headers.set "content-type".toList "application/json".toList
    else headers
  let headers := setCORSHeaders headers
  let body := jsonStringify data
  newResponse (utf8Encode body) status headers

/-- `notFoundResponse()`. -/
def notFoundResponse : Except Thrown OutgoingResponse :=
  jsonResponse [("error".toList, .string "Route not found".toList),
    ("code".toList, .number 404)] 404 Headers.empty

/-- `errorResponse(error, defaultStatusCode)`. -/
def errorResponse (error : Thrown) (defaultStatusCode : Int) :
    Except Thrown OutgoingResponse :=
  let isRouteError :=
    match error with
    | .routeError _ _ _ => true
    | _ => false
  let statusCode :=
    match error with
    | .routeError _ statusCode _ => statusCode
    | _ => defaultStatusCode
  let message :=
    match error with
    | .routeError message _ _ => orElse (some message) "A routing error occurred".toList
    | .error message => message
    | .value => "An unexpected error occurred".toList
  let responseText :=
    match error with
    | .routeError _ _ (c :: cs) => [("responseText".toList, JsonValue.string (c :: cs))]
    | _ => []
  let errResponse :=
    [("error".toList, JsonValue.string
        (if isRouteError then "RouteError".toList else "ServerError".toList)),
     ("message".toList, JsonValue.string message),
     ("statusCode".toList, JsonValue.number statusCode)] ++ responseText
  newResponse (utf8Encode (jsonStringify errResponse)) statusCode
    (Headers.empty.set "Content-Type".toList "application/json".toList)

/-! ## The request listener (`server.js`) -/

/-- `s.includes(sub)`. -/
def includes : JsString → JsString → Bool
  | [], sub => sub.isEmpty
  | c :: cs, sub => sub.isPrefixOf (c :: cs) || includes cs sub

/-- Upper-casing of one ASCII character. -/
def asciiUpper (c : Char) : Char :=
  if 97 ≤ c.toNat ∧ c.toNat ≤ 122 then Char.ofNat (c.toNat - 32) else c

/-- `req.method.toUpperCase()` for the method of an incoming request, which the HTTP parser
delivers as an ASCII token: the upper-casing of ASCII letters. (For the strings a caller
passes to `fetchStale` the upper-casing is a function of the host, `Host.toUpperCase`.) -/
def toUpperCase (s : JsString) : JsString :=
  s.map asciiUpper

/-- What `JSON.parse` returns, as far as the listener looks at it: `null`, on which reading
a property throws, or another value, with the truthiness of each of its properties. -/
inductive Parsed where
  | null
  | value (truthy : JsString → Bool)

/-- What `run(routes, options)` closes over, and the platform functions it reaches:
the compiled routes, whether `options.cache` is given, `options.getRequestId`, the URL
parser and hash, `URLPattern`, zlib and `JSON.parse`. -/
structure RunOptions where
  /-- The compiled routes. -/
  routes : List CompiledRoute
  /-- Whether `options.cache` is given. -/
  cache : Bool
  /-- `options.getRequestId`, or the default. -/
  getRequestId : Request → Bool → Except String JsString
  /-- The URL parser, collation and hash. -/
  host : Host
  /-- `URLPattern`. -/
  exec : PatternExec
  /-- The compressors. -/
  zlib : Zlib
  /-- `JSON.parse`. -/
  jsonParse : JsString → Except String Parsed
  /-- What the call `r.route.handler(req, r.params)` throws before it returns, if it throws
  (a handler that is not an `async` function may): `none` when the call returns a value or
  a promise. -/
  handlerThrows : CompiledRoute → Request → RouteParams → Option Thrown

/-- `getFormData(request)`, as far as the listener depends on it: whether the promise is
fulfilled. For a method other than GET and HEAD the content type is read from the headers,
and reading it from a request without one throws. -/
def getFormData (request : Request) : Except String Unit :=
  if request.method = "GET".toList ∨ request.method = "HEAD".toList then .ok ()
  else do
    let headers ← Headers.ofEntries request.headers
    match headers.get "content-type".toList with
    | none => .error "TypeError: Cannot read properties of null"
    | some _ => .ok ()

/-- How far the listener has come with a request: it has written a response; it has ended
the response without a body (the answer to `OPTIONS`); it waits for the origin handler of
the matched route, having decided whether to work with the cache, the key and the
encodings the client accepts; or it has thrown outside its `try` block, and nothing is
written. -/
inductive Progress where
  | written (response : OutgoingResponse)
  | ended (status : Int) (headers : Headers)
  | awaitingHandler (route : CompiledRoute) (params : RouteParams) (workWithCache : Bool)
      (requestId : JsString) (acceptable : List JsString)
  | rejected (error : Thrown)
deriving DecidableEq, Repr

/-- `writeResponse(res, response)` outside the `try` block, where building the response
may throw. -/
def writeOutside (response : Except Thrown OutgoingResponse) : Progress :=
  match response with
  | .ok r => .written r
  | .error e => .rejected e

/-- The `catch` block of the listener. -/
def caught (ex : Thrown) : Progress :=
  match errorResponse ex 500 with
  | .ok errorRes =>
    .written { errorRes with
      headers := (setCORSHeaders errorRes.headers).set "X-Cache".toList "ERROR".toList }
  | .error e => .rejected e

/-- The end of the `try` block, from `if (!data?.body?.length)` on: the response made from
the record `data`. -/
def respond (data : ResponseCacheableObject) : Progress :=
  if data.body.length = 0 then
    match notFoundResponse with
    | .ok r => .written r
    | .error e => caught e
  else
    match Headers.ofEntries data.headers with
    | .error e => caught (.ofMessage e)
    | .ok responseHeaders =>
      let responseHeaders :=
        if orElse (responseHeaders.get "x-cache".toList) [] = [] then
          responseHeaders.set "X-Cache".toList "MISS".toList
        else responseHeaders
      let responseHeaders := setCORSHeaders responseHeaders
      match newResponse data.body data.status responseHeaders with
      | .ok r => .written r
      | .error e => caught e

/-- The `try` block on a hit: `data` is the record `cache.get` returned, with a non-empty
body. Its headers are replaced by `X-Cache: HIT` added to them, and the response is made
from it. -/
def serveHit (data : ResponseCacheableObject) : Progress :=
  match Headers.ofEntries data.headers with
  | .error e => caught (.ofMessage e)
  | .ok headers =>
    respond { data with headers := (headers.set "X-Cache".toList "HIT".toList).entries }

/-- The `try` block from the moment the origin handler settles, with `origin` what it
returned or threw: the result is converted for the encodings the client accepts and the
response is made from the record. -/
def serveOrigin (z : Zlib) (acceptable : List JsString) (origin : Except Thrown RouteData) :
    Progress :=
  match origin with
  | .error ex => caught ex
  | .ok routeData =>
    match convertToCacheableObject z routeData (some acceptable) with
    | .error e => caught (.ofMessage e)
    | .ok data => respond data

/-- `cacheRequest`: the request does not ask for `no-cache`. -/
def cacheRequest (requestHeaders : Headers) : Bool :=
  match requestHeaders.get "cache-control".toList with
  | none => true
  | some v => !(includes v "no-cache".toList)

/-- `workWithCache`, as first computed and then lowered for a GraphQL route whose body
has a truthy `mutate` or `mutation` property or cannot be parsed. -/
def workWithCache (o : RunOptions) (route : CompiledRoute) (req : Request)
    (requestHeaders : Headers) : Bool :=
  let workWithCache :=
    o.cache && cacheRequest requestHeaders && route.cache &&
      (decide (toUpperCase req.method ∈ ["GET".toList, "HEAD".toList, "OPTIONS".toList]) ||
        route.isGraphQL)
  if route.isGraphQL then
    let requestBody := getBodyAsText req
    if requestBody ≠ [] then
      match o.jsonParse requestBody with
      | .ok (.value truthy) =>
        if truthy "mutate".toList || truthy "mutation".toList then false else workWithCache
      | .ok .null => false
      | .error _ => false
    else workWithCache
  else workWithCache

/-- The listener has called the origin handler on the miss path: it waits for what the
handler returned, or, when the call threw, its `catch` block has written the response. -/
def awaitHandler (thrown : Option Thrown) (route : CompiledRoute) (params : RouteParams)
    (workWithCache : Bool) (requestId : JsString) (acceptable : List JsString) : Progress :=
  match thrown with
  | none => .awaitingHandler route params workWithCache requestId acceptable
  | some ex => caught ex

/-- `requestAcceptableEncodings`. -/
def requestAcceptableEncodings (requestHeaders : Headers) : List JsString :=
  (split ',' (orElse (requestHeaders.get "accept-encoding".toList) IDENTITY)).map trim

/-- The listener of `run`, for one request, up to the moment it has written a response or
waits for the origin handler. When it works with the cache, the state changes as
`Server.request` says, and a record with a non-empty body is served at once, also when the
call of the origin handler by the background revalidation throws (the revalidation catches
what it throws). -/
def Server.listener (o : RunOptions) (s : Server) (req : Request) : Progress × Server :=
  if includes req.url "/favicon.ico".toList then (writeOutside notFoundResponse, s)
  else if includes req.url "/healthcheck".toList then
    (writeOutside (jsonResponse [("success".toList, .boolean true),
      ("message".toList, .string "Health Check is good.".toList)] 200 Headers.empty), s)
  else if req.method = "OPTIONS".toList then (.ended 204 (setCORSHeaders Headers.empty), s)
  else
    match findMatchedRoute o.host o.exec req o.routes with
    | .error e => (.rejected (.ofMessage e), s)
    | .ok r =>
      match getFormData req with
      | .error e => (.rejected (.ofMessage e), s)
      | .ok _ =>
        match r with
        | none => (writeOutside notFoundResponse, s)
        | some (route, params) =>
          if route.handler.isNone then (writeOutside notFoundResponse, s)
          else
            match Headers.ofEntries req.headers with
            | .error e => (.rejected (.ofMessage e), s)
            | .ok requestHeaders =>
              let workWithCache := workWithCache o route req requestHeaders
              match o.getRequestId req route.isGraphQL with
              | .error e => (.rejected (.ofMessage e), s)
              | .ok requestId =>
                let acceptable := requestAcceptableEncodings requestHeaders
                let thrown := o.handlerThrows route req params
                if workWithCache then
                  match s.cache.peek requestId with
                  | some data =>
                    if data.body.length ≠ 0 then
                      (serveHit data, s.request requestId acceptable thrown.isSome)
                    else
                      (awaitHandler thrown route params true requestId acceptable,
                        s.request requestId acceptable thrown.isSome)
                  | none =>
                    (awaitHandler thrown route params true requestId acceptable,
                      s.request requestId acceptable thrown.isSome)
                else
                  (awaitHandler thrown route params false requestId acceptable,
                    { s with originCalls := s.originCalls + 1 })

/-- What the listener has written for a request once the origin handler, if the listener
waits for it, has settled with `origin`. -/
def Server.respondTo (o : RunOptions) (s : Server) (req : Request)
    (origin : Except Thrown RouteData) : Progress :=
  match (s.listener o req).1 with
  | .awaitingHandler _ _ _ _ acceptable => serveOrigin o.zlib acceptable origin
  | p => p

/-! ## Outbound stale-while-revalidate (`fetch.util.js`) -/

/-- `response.ok`: the status is in the range 200 to 299. -/
def Response.ok (r : Response) : Bool :=
  decide (200 ≤ r.status ∧ r.status ≤ 299)

/-- The fetch options (`RequestInit`) the functions look at: the method and the headers,
each of which may be absent. -/
structure RequestInit where
  /-- `options.method`. -/
  method : Option JsString
  /-- `options.headers`, as a sequence of pairs. -/
  headers : Option (List (JsString × JsString))

/-- What a background revalidation waits for: the network response, the conversion of that
response, or the promise of `cacheResponseObject`, which has settled as given. -/
inductive RefetchAwait where
  | fetch
  | encode (response : Response)
  | write (settled : Except String Unit)
deriving DecidableEq, Repr

/-- A call of `revalidateInBackground` that is suspended at an `await`. -/
structure Refetch where
  /-- The cache key. -/
  key : JsString
  /-- What it waits for. -/
  awaiting : RefetchAwait
deriving DecidableEq, Repr

/-- The state `fetchStale` works on: the singleton store and whether there is one, the set
`bgRequests` of `fetch.util.js`, the revalidations that are suspended, and the keys for
which a revalidation has called `fetch`, in order. -/
structure Outbound where
  /-- The store. -/
  cache : LRUCache
  /-- Whether `getCacheInstance()` finds an instance. -/
  initiated : Bool
  /-- `bgRequests`. -/
  bgRequests : List JsString
  /-- The suspended revalidations. -/
  refetches : List Refetch
  /-- The refetches issued so far. -/
  issued : List JsString

/-- `Object.values(ENCODINGS)`. -/
def allEncodings : List JsString := [BROTLI, GZIP, DEFLATE, IDENTITY]

/-- `options?.method ?? "GET"`. -/
def requestMethod (options : Option RequestInit) : JsString :=
  match options with
  | some o => o.method.getD "GET".toList
  | none => "GET".toList

/-- `options?.headers ?? {}`, as a sequence of pairs. -/
def requestHeadersInit (options : Option RequestInit) : List (JsString × JsString) :=
  match options with
  | some o => o.headers.getD []
  | none => []

/-- `revalidateInBackground(url, options, cacheKey)` up to its first `await`: nothing
happens for a method other than GET, HEAD and OPTIONS and for a key in `bgRequests`;
otherwise the key is added and `fetch` is called, unless `new Headers` rejects the
headers of the options, which is caught, and the key is deleted again. -/
def revalidateInBackground (host : Host) (s : Outbound) (options : Option RequestInit)
    (cacheKey : JsString) : Outbound :=
  if host.toUpperCase (requestMethod options) ∉
      ["GET".toList, "HEAD".toList, "OPTIONS".toList] then s
  else if cacheKey ∈ s.bgRequests then s
  else
    let s := { s with bgRequests := setAdd s.bgRequests cacheKey }
    match Headers.ofEntries (requestHeadersInit options) with
    | .ok _ =>
      { s with refetches := s.refetches ++ [{ key := cacheKey, awaiting := .fetch }],
               issued := s.issued ++ [cacheKey] }
    | .error _ => { s with bgRequests := setDelete s.bgRequests cacheKey }

/-- The suspended revalidation `i` resumes and runs up to its next `await` or its end.
`network` is what `fetch` settled with (read only at `RefetchAwait.fetch`), `now` the
current time. Whatever is thrown is caught and logged, and the key is deleted from
`bgRequests` at the end. -/
def Outbound.resume (z : Zlib) (s : Outbound) (i : Nat) (network : Except String Response)
    (now : JsString) : Outbound :=
  match s.refetches.get? i with
  | none => s
  | some t =>
    let ended : Outbound :=
      { s with refetches := s.refetches.eraseIdx i,
               bgRequests := setDelete s.bgRequests t.key }
    let suspend := fun (a : RefetchAwait) => s.refetches.set i { t with awaiting := a }
    match t.awaiting with
    | .fetch =>
      match network with
      | .ok response => { s with refetches := suspend (.encode response) }
      | .error _ => ended
    | .encode response =>
      match convertToCacheableObject z (.response response) (some allEncodings) with
      | .ok cacheableObject =>
        match cacheResponseObject now s.initiated s.cache t.key cacheableObject with
        | .ok (_, cache) => { s with cache := cache, refetches := suspend (.write (.ok ())) }
        | .error e => { s with refetches := suspend (.write (.error e)) }
      | .error _ => ended
    | .write _ => ended

/-- How far a call of `fetchStale` has come: it has returned a response made from the
cache; it waits for the network, with the cache key and whether to revalidate; or it has
thrown. -/
inductive FetchProgress where
  | returned (response : OutgoingResponse)
  | awaitingFetch (cacheKey : JsString) (shouldRevalidate : Bool)
  | rejected (error : Thrown)
deriving DecidableEq, Repr

/-- `fetchStale(uniqueKey, url, requestOptions, staleOptions)` up to the moment it returns
from the cache or waits for the network; `revalidate` is `staleOptions?.revalidate`. -/
def fetchStale (host : Host) (z : Zlib) (s : Outbound) (uniqueKey : JsString) (url : UrlArg)
    (requestOptions : Option RequestInit) (revalidate : Option Bool) :
    FetchProgress × Outbound :=
  let shouldRevalidate := revalidate.getD true
  match getUrlId host url uniqueKey with
  | .error e => (.rejected (.ofMessage e), s)
  | .ok urlId =>
    let cacheKey := "fetchStale:".toList ++ urlId
    if s.initiated = false then
      (.rejected (.ofMessage
        "CacheManager instance not initiated. Use CacheManager.initInstance(options: CacheOptions)"),
        s)
    else
      match s.cache.get cacheKey with
      | (some cachedData, cache) =>
        if cachedData.body.length ≠ 0 then
          let s := { s with cache := cache }
          let s :=
            if shouldRevalidate then revalidateInBackground host s requestOptions cacheKey
            else s
          match convertCacheableObject z cachedData (some [IDENTITY]) with
          | .error e => (.rejected (.ofMessage e), s)
          | .ok cde =>
            match Headers.ofEntries cde.headers with
            | .error e => (.rejected (.ofMessage e), s)
            | .ok cachedHeaders =>
              match newResponse cde.body cde.status cachedHeaders with
              | .ok r => (.returned r, s)
              | .error e => (.rejected e, s)
        else (.awaitingFetch cacheKey shouldRevalidate, { s with cache := cache })
      | (none, cache) => (.awaitingFetch cacheKey shouldRevalidate, { s with cache := cache })

/-- `fetchStale` from the moment the network has settled, on a miss: the network response
is returned as it is, and a revalidation starts when it is `ok`. -/
def fetchStaleSettled (host : Host) (s : Outbound) (requestOptions : Option RequestInit)
    (cacheKey : JsString) (shouldRevalidate : Bool) (network : Except Thrown Response) :
    Except Thrown Response × Outbound :=
  match network with
  | .error e => (.error e, s)
  | .ok response =>
    if response.ok && shouldRevalidate then
      (.ok response, revalidateInBackground host s requestOptions cacheKey)
    else (.ok response, s)

/-! ## Reference descriptions for the persistence layer -/

/-- What `deserializeFromFile` rebuilds from the bytes of one item. -/
def reread (item : DataArray) : DataArray :=
  (item.1,
    { value := { body := item.2.value.body, status := item.2.value.status,
                 headers := parseHeaders (headersString item.2.value.headers) },
      size := item.2.value.body.length + (utf8Encode (headersString item.2.value.headers)).length
        + 8 + (utf8Encode item.1).length + 4 })

/-- An item all of whose fields can be written: the three lengths fit an unsigned 32-bit
field and the status a signed one. -/
def Representable (item : DataArray) : Prop :=
  (utf8Encode item.1).length < 2 ^ 32 ∧
  (utf8Encode (headersString item.2.value.headers)).length < 2 ^ 32 ∧
  item.2.value.body.length < 2 ^ 32 ∧
  -(2 ^ 31) ≤ item.2.value.status ∧ item.2.value.status < 2 ^ 31

instance (item : DataArray) : Decidable (Representable item) := by
  unfold Representable
  infer_instance

/-- A header list that the text format can carry: at least one pair, no colon or line feed
in a name, no line feed in a value. -/
def HeadersCarried (headers : List (JsString × JsString)) : Prop :=
  headers ≠ [] ∧ ∀ h ∈ headers, ':' ∉ h.1 ∧ LF ∉ h.1 ∧ LF ∉ h.2

instance (headers : List (JsString × JsString)) : Decidable (HeadersCarried headers) := by
  unfold HeadersCarried
  infer_instance

/-- The key and record of a dumped entry, without the accounted size. -/
def keyAndRecord (item : DataArray) : JsString × ResponseCacheableObject :=
  (item.1, item.2.value)

/-- The record with every header value trimmed. -/
def trimHeaderValues (r : ResponseCacheableObject) : ResponseCacheableObject :=
  { r with headers := r.headers.map (fun h => (h.1, trim h.2)) }

/-- A file system without files. -/
def noFiles : FileSystem := fun _ => none

/-- Serialize to `path` on `fs`, then deserialize from `path`. -/
def roundTrip (fs : FileSystem) (entries : List DataArray) (path : JsString) :
    Except String (List DataArray) :=
  match serializeToFile fs (some entries) (some path) with
  | .ok fs1 => deserializeFromFile fs1 path
  | .error e => .error e

/-- Little-endian bytes of an unsigned 32-bit field, as the layout describes it. -/
def layoutU32 (n : Nat) : List Nat :=
  [n % 256, n / 256 % 256, n / 65536 % 256, n / 16777216 % 256]

/-- Little-endian bytes of a signed 32-bit field (two's complement), as the layout
describes it. -/
def layoutI32 (v : Int) : List Nat :=
  layoutU32 (if v < 0 then (v + 2 ^ 32).toNat else v.toNat)

/-- The header blob of the layout: `name:value` pairs joined by line feeds, in UTF-8. -/
def layoutHeadersBlob (headers : List (JsString × JsString)) : List Nat :=
  utf8Encode ([LF].intercalate (headers.map (fun h => h.1 ++ [':'] ++ h.2)))

/-- One record of the layout. -/
def layoutRecord (item : DataArray) : List Nat :=
  layoutU32 (utf8Encode item.1).length ++ utf8Encode item.1 ++
  layoutU32 (layoutHeadersBlob item.2.value.headers).length ++
  layoutHeadersBlob item.2.value.headers ++
  layoutI32 item.2.value.status ++
  layoutU32 item.2.value.body.length ++ item.2.value.body

/-- The length the layout gives one record: the fixed 16 bytes and the three variable
fields. -/
def layoutRecordLength (item : DataArray) : Nat :=
  16 + (utf8Encode item.1).length + (layoutHeadersBlob item.2.value.headers).length +
    item.2.value.body.length

/-- The entry of the storage tests: key `requestId1`, body `body1`, status 200 and one
header. -/
def mockDataArray : List DataArray :=
  [("requestId1".toList,
    { value := { body := utf8Encode "body1".toList, status := 200,
                 headers := [("Content-Type".toList, "text/plain".toList)] },
      size := 100 })]

/-- An entry one of whose header values starts with a space. -/
def paddedDataArray : List DataArray :=
  [("requestId1".toList,
    { value := { body := utf8Encode "body1".toList, status := 200,
                 headers := [("content-type".toList, " text/plain".toList)] },
      size := 100 })]

/-- The path used in the examples. -/
def cacheBin : JsString := "cache.bin".toList

/-! ## Reference descriptions for the codec -/

/-- The most preferred acceptable encoding: the first of `br`, `gzip`, `deflate`,
`identity` that occurs in the list, and `identity` when none of them does. -/
def firstPreferred (acceptable : List JsString) : JsString :=
  if BROTLI ∈ acceptable then BROTLI
  else if GZIP ∈ acceptable then GZIP
  else if DEFLATE ∈ acceptable then DEFLATE
  else IDENTITY

/-- A handler result whose `Response`, if it is one, holds a well-formed header list. -/
def RouteData.WellFormed : RouteData → Prop
  | .response r => r.headers.WellFormed
  | _ => True

instance (x : RouteData) : Decidable x.WellFormed := by
  cases x <;> unfold RouteData.WellFormed <;> infer_instance

/-- The text a handler result is compressed from. -/
def RouteData.bodyText : RouteData → JsString
  | .response r => r.text
  | .text s => s
  | .object json => json
  | .other => []

/-- A stand-in for zlib in the examples: every compressor puts a tag byte in front of its
input, every decompressor removes its tag and rejects anything else. -/
def tagZlib : Zlib where
  brotliCompress := fun b => 0x62 :: b
  brotliDecompress := fun b =>
    match b with
    | 0x62 :: r => .ok r
    | _ => .error "Z_DATA_ERROR"
  gzipCompress := fun b => 0x67 :: b
  gzipDecompress := fun b =>
    match b with
    | 0x67 :: r => .ok r
    | _ => .error "Z_DATA_ERROR"
  deflateCompress := fun b => 0x64 :: b
  deflateDecompress := fun b =>
    match b with
    | 0x64 :: r => .ok r
    | _ => .error "Z_DATA_ERROR"

/-- A record holding `hi` under gzip (of the stand-in). -/
def gzipRecord : ResponseCacheableObject :=
  { body := 0x67 :: utf8Encode "hi".toList, status := 200,
    headers := [("content-encoding".toList, GZIP), ("content-length".toList, "3".toList)] }

/-- A record holding `hi` under brotli (of the stand-in). -/
def brotliRecord : ResponseCacheableObject :=
  { body := 0x62 :: utf8Encode "hi".toList, status := 200,
    headers := [("content-encoding".toList, BROTLI), ("content-length".toList, "3".toList)] }

/-- The headers a handler result starts from: those of the `Response`, or a content type
for a string or an object. -/
def RouteData.baseHeaders : RouteData → Headers
  | .response r => r.headers
  | .text _ => Headers.empty.set "content-type".toList "text/plain".toList
  | .object _ => Headers.empty.set "content-type".toList "application/json".toList
  | .other => Headers.empty

/-- The status of the record made from a handler result. -/
def RouteData.recordStatus : RouteData → Int
  | .response r => r.status
  | _ => 200

/-- The bytes of `text` under one of the four encodings. -/
def encodeWith (z : Zlib) (text : JsString) (encoding : JsString) : List Nat :=
  if encoding = BROTLI then z.brotliCompress (utf8Encode text)
  else if encoding = GZIP then z.gzipCompress (utf8Encode text)
  else if encoding = DEFLATE then z.deflateCompress (utf8Encode text)
  else utf8Encode text

/-- A `Response` with a content type and a stale content encoding. -/
def sampleResponse : Response :=
  { text := "Hello, World!".toList, status := 201,
    headers := ⟨[("content-type".toList, "text/plain".toList),
                 ("content-encoding".toList, GZIP)]⟩ }

/-! ## Stand-ins for the host functions, for the examples -/

/-- XXH64 prime 1. -/
def xxPrime1 : Nat := 11400714785074694791
/-- XXH64 prime 2. -/
def xxPrime2 : Nat := 14029467366897019727
/-- XXH64 prime 3. -/
def xxPrime3 : Nat := 1609587929392839161
/-- XXH64 prime 4. -/
def xxPrime4 : Nat := 9650029242287828579
/-- XXH64 prime 5. -/
def xxPrime5 : Nat := 2870177450012600261

/-- Rotation to the left in 64 bits. -/
def rotl64 (x r : Nat) : Nat :=
  ((x <<< r) ||| (x >>> (64 - r))) % 2 ^ 64

/-- Little-endian number of at most `n` leading bytes. -/
def readLE (n : Nat) (bs : List Nat) : Nat :=
  (bs.take n).foldr (fun b acc => b + 256 * acc) 0

/-- One XXH64 round. -/
def xxRound (acc input : Nat) : Nat :=
  rotl64 ((acc + input * xxPrime2) % 2 ^ 64) 31 * xxPrime1 % 2 ^ 64

/-- Merging an accumulator into the hash. -/
def xxMergeRound (acc val : Nat) : Nat :=
  ((acc ^^^ xxRound 0 val) * xxPrime1 + xxPrime4) % 2 ^ 64

/-- The stripes of 32 bytes: the four accumulators afterwards and the bytes left over. -/
def xxStripes : Nat → List Nat → Nat × Nat × Nat × Nat → (Nat × Nat × Nat × Nat) × List Nat
  | 0, bs, v => (v, bs)
  | fuel + 1, bs, (v1, v2, v3, v4) =>
    if 32 ≤ bs.length then
      xxStripes fuel (bs.drop 32)
        (xxRound v1 (readLE 8 bs), xxRound v2 (readLE 8 (bs.drop 8)),
         xxRound v3 (readLE 8 (bs.drop 16)), xxRound v4 (readLE 8 (bs.drop 24)))
    else ((v1, v2, v3, v4), bs)

/-- The tail of fewer than 32 bytes: words of 8 bytes, one of 4, then single bytes. -/
def xxTail : Nat → List Nat → Nat → Nat
  | 0, _, h => h
  | fuel + 1, bs, h =>
    if 8 ≤ bs.length then
      xxTail fuel (bs.drop 8)
        ((rotl64 (h ^^^ xxRound 0 (readLE 8 bs)) 27 * xxPrime1 + xxPrime4) % 2 ^ 64)
    else if 4 ≤ bs.length then
      xxTail fuel (bs.drop 4)
        ((rotl64 (h ^^^ (readLE 4 bs * xxPrime1 % 2 ^ 64)) 23 * xxPrime2 + xxPrime3) % 2 ^ 64)
    else
      match bs with
      | [] => h
      | b :: rest =>
        xxTail fuel rest (rotl64 (h ^^^ (b * xxPrime5 % 2 ^ 64)) 11 * xxPrime1 % 2 ^ 64)

/-- The final mixing. -/
def xxAvalanche (h : Nat) : Nat :=
  let h := (h ^^^ (h >>> 33)) * xxPrime2 % 2 ^ 64
  let h := (h ^^^ (h >>> 29)) * xxPrime3 % 2 ^ 64
  h ^^^ (h >>> 32)

/-- Modelled from the spec: the hash function (the xxhash package is not part of the
sources), "a fast non-cryptographic 64-bit hash (order-sensitive, deterministic)": the
XXH64 algorithm on the UTF-8 bytes of the string. -/
def xxh64 (bs : List Nat) (seed : Nat) : Nat :=
  let len := bs.length
  let (h, rest) :=
    if 32 ≤ len then
      let ((v1, v2, v3, v4), rest) := xxStripes len bs
        ((seed + xxPrime1 + xxPrime2) % 2 ^ 64, (seed + xxPrime2) % 2 ^ 64, seed % 2 ^ 64,
         (seed + 2 ^ 64 - xxPrime1) % 2 ^ 64)
      let h := (rotl64 v1 1 + rotl64 v2 7 + rotl64 v3 12 + rotl64 v4 18) % 2 ^ 64
      (xxMergeRound (xxMergeRound (xxMergeRound (xxMergeRound h v1) v2) v3) v4, rest)
    else ((seed + xxPrime5) % 2 ^ 64, bs)
  xxAvalanche (xxTail (rest.length + 1) rest ((h + len) % 2 ^ 64))

/-- Modelled from the spec: the hash "rendered as a hex string". -/
def xxh64Hex (s : JsString) (seed : Nat) : JsString :=
  Nat.toDigits 16 (xxh64 (utf8Encode s) seed)

/-- A comparator for the examples: code-point order. -/
def codePointCompare (a b : JsString) : Int :=
  if a = b then 0 else if codePointLe a b then -1 else 1

/-- The text after the first `sep` of a string, if there is one. -/
def afterFirst (sep : Char) : JsString → Option JsString
  | [] => none
  | c :: cs => if c = sep then some cs else afterFirst sep cs

/-- The text before the first `sep` of a string (all of it when there is none). -/
def beforeFirst (sep : Char) (s : JsString) : JsString :=
  s.takeWhile (fun c => c ≠ sep)

/-- The pairs of a query string, without any decoding. -/
def readQuery (query : JsString) : List (JsString × JsString) :=
  if query.isEmpty then []
  else (split '&' query).map (fun kv =>
    (beforeFirst '=' kv, (afterFirst '=' kv).getD []))

/-- A small URL reader for the examples, far short of the URL standard: it accepts a path
starting with a slash against a base of the form `http://host` or `https://host`, and
rejects everything else. -/
def exampleNewURL (input : JsString) (base : Option JsString) : Except String URL :=
  match base, input with
  | some b, '/' :: rest =>
    let authority :=
      if "http://".toList.isPrefixOf b then b.drop 7
      else if "https://".toList.isPrefixOf b then b.drop 8
      else []
    if authority.isEmpty ∨ authority.any (fun c => c = '/' ∨ c = '?' ∨ c = '#' ∨ c = ' ') then
      .error "TypeError: Invalid URL"
    else
      .ok { href := b ++ '/' :: rest,
            pathname := beforeFirst '?' ('/' :: rest),
            searchParams := readQuery ((afterFirst '?' rest).getD []) }
  | _, _ => .error "TypeError: Invalid URL"

/-- The same reader, also reading back the `href` values it produces itself. -/
def exampleReparse (input : JsString) (base : Option JsString) : Except String URL :=
  match base with
  | some b => exampleNewURL input (some b)
  | none =>
    let rest :=
      if "http://".toList.isPrefixOf input then input.drop 7
      else if "https://".toList.isPrefixOf input then input.drop 8
      else []
    match afterFirst '/' rest with
    | none => .error "TypeError: Invalid URL"
    | some path =>
      exampleNewURL ('/' :: path) (some (input.take (input.length - path.length - 1)))

/-- The host of the examples; its upper-casing is that of ASCII letters, with which
`String.prototype.toUpperCase` agrees on ASCII text. -/
def exampleHost : Host :=
  { newURL := exampleReparse, localeCompare := codePointCompare, h64 := xxh64Hex,
    toUpperCase := toUpperCase }

/-- The host of the examples with a hash that returns its input, so that a key shows the
text that is hashed. -/
def traceHost : Host :=
  { newURL := exampleReparse, localeCompare := codePointCompare, h64 := fun s _ => s,
    toUpperCase := toUpperCase }

/-- A URL that repeats the name `a`, first with value 1. -/
def repeatedOneTwo : URL :=
  { href := "http://example.com/items?a=1&a=2".toList, pathname := "/items".toList,
    searchParams := [("a".toList, "1".toList), ("a".toList, "2".toList)] }

/-- The same URL with the two parameters in the other order. -/
def repeatedTwoOne : URL :=
  { href := "http://example.com/items?a=2&a=1".toList, pathname := "/items".toList,
    searchParams := [("a".toList, "2".toList), ("a".toList, "1".toList)] }

/-- The URL of the fingerprint test, `?a=1&c=3&b=2`. -/
def unsortedUrl : URL :=
  { href := "http://example.com/?a=1&c=3&b=2".toList, pathname := "/".toList,
    searchParams := [("a".toList, "1".toList), ("c".toList, "3".toList),
                     ("b".toList, "2".toList)] }

/-- The other URL of the fingerprint test, `?a=1&b=2&c=3`. -/
def sortedUrl : URL :=
  { href := "http://example.com/?a=1&b=2&c=3".toList, pathname := "/".toList,
    searchParams := [("a".toList, "1".toList), ("b".toList, "2".toList),
                     ("c".toList, "3".toList)] }

/-- The path and query parameters of the URL a request resolves to: `getFullUrl`, then
`new URL` as `getUrlId` applies it. -/
def requestUrl (host : Host) (req : Request) :
    Except String (JsString × List (JsString × JsString)) := do
  let fullUrl ← getFullUrl host req
  let urlObj ← host.newURL fullUrl none
  pure (urlObj.pathname, urlObj.searchParams)

/-- The headers of a request are valid header names and values, as the HTTP parser
delivers them. -/
def Request.WellFormed (req : Request) : Prop :=
  ∀ p ∈ req.headers, isHeaderName p.1 = true ∧ isHeaderValue (normalizeValue p.2) = true

instance (req : Request) : Decidable req.WellFormed := by
  unfold Request.WellFormed
  infer_instance

/-- The header pairs of a request under one name. -/
def Request.headersNamed (req : Request) (name : JsString) : List (JsString × JsString) :=
  req.headers.filter (fun p => lowerName p.1 = name)

/-- A request through a proxy, with a key and a token. -/
def proxiedRequest : Request :=
  { url := "/items?b=2&a=1".toList, method := "GET".toList,
    headers := [("host".toList, "internal:3000".toList),
                ("x-forwarded-host".toList, "shop.example".toList),
                ("x-forwarded-proto".toList, "https".toList),
                ("x-unique-id".toList, "tenant-1".toList),
                ("authorization".toList, "Bearer t".toList),
                ("accept-language".toList, "en".toList)],
    encrypted := false, body := [] }

/-- The same request sent directly, with other unrelated headers. -/
def directRequest : Request :=
  { url := "/items?b=2&a=1".toList, method := "GET".toList,
    headers := [("host".toList, "localhost".toList),
                ("user-agent".toList, "curl".toList),
                ("authorization".toList, "Bearer t".toList),
                ("x-unique-id".toList, "tenant-1".toList)],
    encrypted := false, body := [] }

/-- The request sent directly, with a `host` header that is no host name. -/
def spacedHostRequest : Request :=
  { directRequest with
    headers := [("host".toList, "shop example".toList),
                ("user-agent".toList, "curl".toList),
                ("authorization".toList, "Bearer t".toList),
                ("x-unique-id".toList, "tenant-1".toList)] }

/-- The URL part of a fingerprint, from the path and the query parameters. -/
def urlKey (host : Host) (pq : JsString × List (JsString × JsString)) : JsString :=
  "u:".toList ++ hash host ([] ++ pq.1 ++
    (if (urlSearchParamsToString (sortByName host pq.2)).isEmpty then []
     else '?' :: urlSearchParamsToString (sortByName host pq.2)))

/-! ## Reference descriptions and examples for the server -/

/-- Whether a settled result is a failure. -/
def failed {ε α : Type} (r : Except ε α) : Bool :=
  match r with
  | .ok _ => false
  | .error _ => true

/-- The resumption of the background revalidation `t` ends it with a failure: the origin
handler threw, the encoding threw, or the cache write threw. -/
def refreshFails (z : Zlib) (t : Task) (result : Except String RouteData) : Bool :=
  match t.awaiting with
  | .handler => failed result
  | .encode routeData => failed (convertToCacheableObject z routeData (some [BROTLI]))
  | .write settled => failed settled

/-- The store options of the examples: at most 2048 bytes, 50 bytes of overhead per
record. -/
def exampleOptions : CacheOptions :=
  { maxSize := 2048, sizeCalculation := fun r => r.body.length + 50, allowStale := true }

/-- Store options with room for 100 bytes. -/
def tinyOptions : CacheOptions :=
  { maxSize := 100, sizeCalculation := fun r => r.body.length + 50, allowStale := true }

/-- The key of the examples. -/
def exampleKey : JsString := "req:1f".toList

/-- A server whose store holds one record, with nothing in flight. -/
def warmServer : Server :=
  { cache := (LRUCache.new exampleOptions).set exampleKey brotliRecord, initiated := true,
    bgRequests := [], tasks := [], originCalls := 0 }

/-- The server after one hit for the key: a revalidation is waiting for the origin (in the
three hits the call of the origin handler returns a promise). -/
def afterFirstHit : Server := warmServer.request exampleKey [IDENTITY] false

/-- The server after a second hit for the key while that revalidation is waiting. -/
def afterSecondHit : Server := afterFirstHit.request exampleKey [IDENTITY] false

/-- The server after a third hit for the key while that revalidation is still waiting. -/
def afterThirdHit : Server := afterSecondHit.request exampleKey [IDENTITY] false
/-! ## More examples and reference descriptions -/

/-- A request that carries neither of the two identity headers. -/
def anonymousRequest : Request :=
  { url := "/items?a=1".toList, method := "GET".toList,
    headers := [("host".toList, "shop.example".toList),
                ("accept".toList, "text/html".toList)],
    encrypted := true, body := [] }

/-- A record holding the empty text under gzip (of the stand-in). -/
def emptyGzipRecord : ResponseCacheableObject :=
  { body := [0x67], status := 200,
    headers := [("content-encoding".toList, GZIP), ("content-length".toList, "1".toList),
                ("content-type".toList, "text/plain".toList)] }

/-- A record holding `hi` under gzip (of the stand-in), with a content type and a date. -/
def datedGzipRecord : ResponseCacheableObject :=
  { body := 0x67 :: utf8Encode "hi".toList, status := 203,
    headers := [("content-encoding".toList, GZIP), ("content-length".toList, "3".toList),
                ("content-type".toList, "text/plain".toList),
                ("x-cache-date".toList, "2024-01-01T00:00:00.000Z".toList)] }

/-- What the rest of the program may do with the module `cache.util.js`. -/
inductive ManagerCall where
  /-- `initInstance(options)`, up to its `await`. -/
  | initInstance (options : CacheOptions)
  /-- The pending `loadCache` of object `ref` runs, with the files as they are then. -/
  | loadCache (ref : Nat) (fs : FileSystem) (filePath : JsString)
  /-- `destroy()` on object `ref`. -/
  | destroy (ref : Nat)
  /-- `new CacheManager(options)`. -/
  | construct (options : CacheOptions)
  /-- `getCacheInstance()`. -/
  | getCacheInstance
  /-- A store operation (`set`, `get`, `delete`) through a reference to a store. -/
  | useStore (store : Nat) (f : LRUCache → LRUCache)

/-- The module after one call. -/
def ManagerState.call (s : ManagerState) : ManagerCall → ManagerState
  | .initInstance options =>
    match CacheManager.initInstance s options with
    | .ok (_, s1) => s1
    | .error _ => s
  | .loadCache ref fs filePath => CacheManager.loadCache s ref fs filePath
  | .destroy ref => CacheManager.destroy s ref
  | .construct options =>
    match CacheManager.new s options with
    | .ok (_, s1) => s1
    | .error _ => s
  | .getCacheInstance => s
  | .useStore store f => s.updateStore store f

/-- The module after a sequence of calls, from the freshly loaded module. -/
def ManagerState.after (calls : List ManagerCall) : ManagerState :=
  calls.foldl ManagerState.call ManagerState.initial

/-- Whether an instance is live after a sequence of calls, in the words of the
specification: `initInstance` has been called, and `destroy` has not been called since the
last call of `initInstance`. -/
def liveAfter (calls : List ManagerCall) : Bool :=
  calls.foldl (fun live c =>
    match c with
    | .initInstance _ => true
    | .destroy _ => false
    | _ => live) false

/-- Whether a call is `destroy`. -/
def ManagerCall.isDestroy : ManagerCall → Bool
  | .destroy _ => true
  | _ => false

/-- The state of a memoized function after a sequence of calls, each with a request object
and arguments. -/
def memoizedCalls {α β : Type} (fn : Nat → Nat → α → Except String β)
    (calls : List (Nat × α)) : MemoState β :=
  calls.foldl (fun s c => (requestMemoize fn s c.1 c.2).2) MemoState.fresh

/-- The invocations with the request object `req` that returned. -/
def returnedFor {β : Type} (req : Nat) (log : List (Nat × Except String β)) :
    List (Nat × Except String β) :=
  log.filter (fun i => decide (i.1 = req) && i.2.isOk)

/-- The map of a memoized function mirrors the log of invocations: a request is in the map
exactly when one invocation with it has returned, and the map holds what that invocation
returned. -/
def MemoState.Consistent {β : Type} (s : MemoState β) : Prop :=
  ∀ r, (∀ v, s.cache r = some v → returnedFor r s.invocations = [(r, .ok v)]) ∧
    (s.cache r = none → returnedFor r s.invocations = [])

/-- A wrapped function that always throws. -/
def throwingFn : Nat → Nat → Unit → Except String Nat :=
  fun _ _ _ => .error "invalid URL"

/-- The first route of a list that matches a URL, with its parameters, in the words of the
documentation of `findMatchedRoute`. -/
def firstMatch (exec : PatternExec) (fullUrl : JsString) (routes : List CompiledRoute) :
    Option (CompiledRoute × RouteParams) :=
  routes.findSome? (fun route => (exec route.path fullUrl).map (fun params => (route, params)))

/-- A stand-in for `URLPattern` in the examples: the pattern `*` matches every URL, any
other pattern matches the URLs that end with it; no parameters. -/
def suffixExec : PatternExec :=
  fun pattern url => if pattern = ['*'] ∨ pattern.isSuffixOf url = true then some [] else none

/-- A route for one item. -/
def itemRoute : CompiledRoute :=
  { path := "/items/7".toList, cache := true, isGraphQL := false, handler := some 0 }

/-- A route that matches everything. -/
def fallbackRoute : CompiledRoute :=
  { path := "*".toList, cache := false, isGraphQL := false, handler := some 1 }

/-- A request for the item. -/
def itemRequest : Request :=
  { url := "/items/7".toList, method := "GET".toList,
    headers := [("host".toList, "shop.example".toList)], encrypted := true, body := [] }

/-- The text of a JSON string literal that has no escapes, up to its closing quotation
mark, and what follows it. -/
def readUntilQuote : JsString → Option (JsString × JsString)
  | [] => none
  | c :: cs =>
    if c = quotationMark then some ([], cs)
    else (readUntilQuote cs).map (fun p => (c :: p.1, p.2))

/-- The members of a JSON object whose values are string literals without escapes, written
without white space, up to the closing brace that ends the text. -/
def readMembers : Nat → JsString → Option (List (JsString × JsString))
  | 0, _ => none
  | fuel + 1, text =>
    match text with
    | q :: rest =>
      if q = quotationMark then
        match readUntilQuote rest with
        | some (key, colon :: q2 :: rest2) =>
          if colon = ':' ∧ q2 = quotationMark then
            match readUntilQuote rest2 with
            | some (value, d :: rest3) =>
              if d = ',' then (readMembers fuel rest3).map (fun ms => (key, value) :: ms)
              else if d = Char.ofNat 0x7D ∧ rest3 = [] then some [(key, value)]
              else none
            | _ => none
          else none
        | _ => none
      else none
    | [] => none

/-- A stand-in for `JSON.parse` in the examples: it reads the objects `readMembers` reads
and throws on every other text; a property is truthy when it is a non-empty string. -/
def readFlatObject (text : JsString) : Except String Parsed :=
  match text with
  | [] => .error "SyntaxError: Unexpected end of JSON input"
  | b :: rest =>
    if b = Char.ofNat 0x7B then
      match readMembers text.length rest with
      | some members =>
        .ok (.value (fun name =>
          match members.lookup name with
          | some v => !v.isEmpty
          | none => false))
      | none => .error "SyntaxError: Unexpected token"
    else .error "SyntaxError: Unexpected token"

/-- A GraphQL route with caching. -/
def graphRoute : CompiledRoute :=
  { path := "/graphql".toList, cache := true, isGraphQL := true, handler := some 2 }

/-- The options of the examples: two cached routes, a cache, the default key function (with
the hash that shows its input), and the stand-ins for the platform. -/
def exampleRun : RunOptions :=
  { routes := [itemRoute, graphRoute], cache := true, getRequestId := getRequestId traceHost,
    host := traceHost, exec := suffixExec, zlib := tagZlib, jsonParse := readFlatObject,
    handlerThrows := fun _ _ _ => none }

/-- The standard GraphQL body of a mutation. -/
def mutationBody : JsString :=
  jsonStringify [("query".toList,
    .string "mutation \x7b addItem(id: 7) \x7b id \x7d \x7d".toList)]

/-- A GraphQL request that sends the mutation. -/
def mutationRequest : Request :=
  { url := "/graphql".toList, method := "POST".toList,
    headers := [("host".toList, "shop.example".toList),
                ("content-type".toList, "application/json".toList)],
    encrypted := true, body := mutationBody }

/-- A GraphQL request whose body has a property `mutation`. -/
def flaggedRequest : Request :=
  { mutationRequest with
    body := jsonStringify [("mutation".toList, .string "addItem".toList)] }

/-- An `OPTIONS` request for the item. -/
def optionsRequest : Request :=
  { itemRequest with method := "OPTIONS".toList }

/-- A server with an empty store and nothing in flight. -/
def coldServer : Server :=
  { cache := LRUCache.new exampleOptions, initiated := true, bgRequests := [], tasks := [],
    originCalls := 0 }

/-- The key of a GraphQL request under the options of the examples. -/
def mutationKeyOf (req : Request) : JsString :=
  match getRequestId traceHost req true with
  | .ok key => key
  | .error _ => []

/-- The key of the mutation request. -/
def mutationKey : JsString := mutationKeyOf mutationRequest

/-- What the origin answers to the mutation. -/
def mutationResult : RouteData :=
  .object (jsonStringify [("addItem".toList, .string "7".toList)])

/-- A request reaches the cache decision of the listener: it is not for the favicon or the
health check, not an `OPTIONS` request, a route with a handler matches it, its form data
and its headers can be read, and it has a key. -/
def ReachesCache (o : RunOptions) (req : Request) (route : CompiledRoute)
    (params : RouteParams) (requestHeaders : Headers) (requestId : JsString) : Prop :=
  includes req.url "/favicon.ico".toList = false ∧
  includes req.url "/healthcheck".toList = false ∧
  req.method ≠ "OPTIONS".toList ∧
  findMatchedRoute o.host o.exec req o.routes = .ok (some (route, params)) ∧
  getFormData req = .ok () ∧
  route.handler.isNone = false ∧
  Headers.ofEntries req.headers = .ok requestHeaders ∧
  o.getRequestId req route.isGraphQL = .ok requestId

instance (o : RunOptions) (req : Request) (route : CompiledRoute) (params : RouteParams)
    (requestHeaders : Headers) (requestId : JsString) :
    Decidable (ReachesCache o req route params requestHeaders requestId) := by
  unfold ReachesCache
  infer_instance

/-- A status that `new Response` accepts together with a body: 200 to 599, and none of the
statuses that allow no body. -/
def StatusWithBody (status : Int) : Prop :=
  200 ≤ status ∧ status ≤ 599 ∧ status ∉ nullBodyStatus

instance (status : Int) : Decidable (StatusWithBody status) := by
  unfold StatusWithBody
  infer_instance

/-- The server after the mutation request has been received by a server with an empty
store, the origin handler has answered, the listener has encoded the answer for the client,
and the write to the cache in the background has run. -/
def afterMutation : Server :=
  Server.resume tagZlib
    (Server.resume tagZlib
      (Server.resume tagZlib (coldServer.listener exampleRun mutationRequest).2 0
        (.ok mutationResult) "2024-01-01T00:00:00.000Z".toList)
      0 (.ok mutationResult) "2024-01-01T00:00:00.000Z".toList)
    0 (.ok mutationResult) "2024-01-01T00:00:00.000Z".toList

/-- The response written, if one has been written. -/
def Progress.response : Progress → Option OutgoingResponse
  | .written r => some r
  | _ => none

/-- The response `notFoundResponse()` builds. -/
def notFound : OutgoingResponse :=
  { body := utf8Encode (jsonStringify [("error".toList, JsonValue.string "Route not found".toList),
      ("code".toList, JsonValue.number 404)]),
    status := 404,
    headers := setCORSHeaders
      (Headers.empty.set "content-type".toList "application/json".toList) }

/-- The key of the request for the item under the options of the examples. -/
def itemKey : JsString := "req:u:/items/7:h:".toList

/-- A server whose store holds a brotli record under the key of the request for the
item. -/
def warmItemServer : Server :=
  { cache := (LRUCache.new exampleOptions).set itemKey brotliRecord, initiated := true,
    bgRequests := [], tasks := [], originCalls := 0 }

/-- A handler result without content: a `Response` with status 204 and no body. -/
def noContentResult : RouteData :=
  .response { text := [], status := 204, headers := ⟨[]⟩ }

/-- The server after the request for the item has been received by a server with an empty
store, the origin handler has answered with status 204, the listener has encoded the
answer for the client, and the write to the cache in the background has run. -/
def afterNoContent : Server :=
  Server.resume tagZlib
    (Server.resume tagZlib
      (Server.resume tagZlib (coldServer.listener exampleRun itemRequest).2 0
        (.ok noContentResult) "2024-01-01T00:00:00.000Z".toList)
      0 (.ok noContentResult) "2024-01-01T00:00:00.000Z".toList)
    0 (.ok noContentResult) "2024-01-01T00:00:00.000Z".toList

/-- The options of the examples with origin handlers that throw when they are called, as
the handler of `/error-cache` in the tests of the server does. -/
def throwingRun : RunOptions :=
  { exampleRun with
    handlerThrows := fun _ _ _ =>
      some (.error "Simulated server error on revalidation".toList) }

/-- What may happen to the outbound state: a call of `fetchStale` runs up to its return or
its `await`; a call that waits for the network resumes; a suspended revalidation
resumes. -/
inductive OutboundStep where
  | call (uniqueKey : JsString) (url : UrlArg) (requestOptions : Option RequestInit)
      (revalidate : Option Bool)
  | settled (requestOptions : Option RequestInit) (cacheKey : JsString)
      (shouldRevalidate : Bool) (network : Except Thrown Response)
  | resume (i : Nat) (network : Except String Response) (now : JsString)

/-- The outbound state after one step. -/
def Outbound.step (host : Host) (z : Zlib) (s : Outbound) : OutboundStep → Outbound
  | .call uniqueKey url requestOptions revalidate =>
    (fetchStale host z s uniqueKey url requestOptions revalidate).2
  | .settled requestOptions cacheKey shouldRevalidate network =>
    (fetchStaleSettled host s requestOptions cacheKey shouldRevalidate network).2
  | .resume i network now => s.resume z i network now

/-- The outbound state after a sequence of steps, in any interleaving. -/
def Outbound.after (host : Host) (z : Zlib) (s : Outbound) (steps : List OutboundStep) :
    Outbound :=
  steps.foldl (Outbound.step host z) s

/-- The revalidations in flight for a key. -/
def Outbound.inFlight (s : Outbound) (k : JsString) : List Refetch :=
  s.refetches.filter (fun t => t.key = k)

/-- Every key has at most one suspended revalidation, and the key of every suspended
revalidation is in `bgRequests`. -/
def Outbound.Guarded (s : Outbound) : Prop :=
  (s.refetches.map (fun t => t.key)).Nodup ∧ ∀ t ∈ s.refetches, t.key ∈ s.bgRequests

/-- An outbound state with an empty store and nothing in flight. -/
def coldOutbound : Outbound :=
  { cache := LRUCache.new exampleOptions, initiated := true, bgRequests := [], refetches := [],
    issued := [] }

/-- The cache key of the examples. -/
def feedKey : JsString := "fetchStale:u:site/feed".toList

/-- An interleaving of three calls of `fetchStale` for the same URL on a miss, whose
network responses arrive one after the other. -/
def threeCalls : List OutboundStep :=
  [.call "site".toList (.string "https://example.com/feed".toList) none none,
   .call "site".toList (.string "https://example.com/feed".toList) none none,
   .settled none feedKey true (.ok { text := "a".toList, status := 200, headers := ⟨[]⟩ }),
   .call "site".toList (.string "https://example.com/feed".toList) none none,
   .settled none feedKey true (.ok { text := "a".toList, status := 200, headers := ⟨[]⟩ }),
   .settled none feedKey true (.ok { text := "a".toList, status := 200, headers := ⟨[]⟩ })]

/-- The resumption of the revalidation `t` ends it with a failure: the refetch was
rejected, the conversion threw, or the promise of the cache write was rejected. -/
def refetchFails (z : Zlib) (t : Refetch) (network : Except String Response) : Bool :=
  match t.awaiting with
  | .fetch => failed network
  | .encode response =>
    failed (convertToCacheableObject z (.response response) (some allEncodings))
  | .write settled => failed settled

/-- A suspended revalidation ends when it resumes: its refetch was rejected, the
conversion threw, or it was waiting for the cache write, its last `await`. -/
def refetchEnds (z : Zlib) (t : Refetch) (network : Except String Response) : Bool :=
  match t.awaiting with
  | .fetch => failed network
  | .encode response =>
    failed (convertToCacheableObject z (.response response) (some allEncodings))
  | .write _ => true

/-- The number of the `await` a revalidation is suspended at: the refetch, the conversion,
the cache write. -/
def RefetchAwait.stage : RefetchAwait → Nat
  | .fetch => 0
  | .encode _ => 1
  | .write _ => 2

/-- Fetch options whose headers `new Headers` rejects: a header name with a space. -/
def spacedNameOptions : RequestInit :=
  { method := none, headers := some [("bad name".toList, "x".toList)] }

/-- An outbound state whose store holds a record under the key of the examples, with a
revalidation for it waiting for the network. -/
def warmOutbound : Outbound :=
  { cache := (LRUCache.new exampleOptions).set feedKey gzipRecord, initiated := true,
    bgRequests := [feedKey], refetches := [{ key := feedKey, awaiting := .fetch }],
    issued := [feedKey] }

/-- An upstream response with status 200 and an empty body. -/
def emptyUpstream : Response :=
  { text := [], status := 200, headers := ⟨[]⟩ }

/-- A record holding the empty text under brotli (of the stand-in), as a revalidation
stores it for an upstream response without content. -/
def emptyBrotliRecord : ResponseCacheableObject :=
  { body := [0x62], status := 200,
    headers := [("content-encoding".toList, BROTLI), ("content-length".toList, "1".toList)] }

/-- An outbound state whose store holds, under the key of the examples, the given
record, with nothing in flight. -/
def outboundWith (record : ResponseCacheableObject) : Outbound :=
  { cache := (LRUCache.new exampleOptions).set feedKey record, initiated := true,
    bgRequests := [], refetches := [], issued := [] }

/-- A network response with status 404 and a body. -/
def goneUpstream : Response :=
  { text := "gone".toList, status := 404,
    headers := ⟨[("content-type".toList, "text/plain".toList)]⟩ }

/-- An outbound state whose store holds a successful record under the key of the
examples, with a revalidation for it that has received the 404 response. -/
def refreshingOutbound : Outbound :=
  { cache := (LRUCache.new exampleOptions).set feedKey gzipRecord, initiated := true,
    bgRequests := [feedKey],
    refetches := [{ key := feedKey, awaiting := .encode goneUpstream }],
    issued := [feedKey] }

/-- The time of the examples. -/
def exampleNow : JsString := "2024-01-01T00:00:00.000Z".toList

/-- The outbound state after that revalidation has stored the response and has ended. -/
def refreshedOutbound : Outbound :=
  (refreshingOutbound.resume tagZlib 0 (.ok goneUpstream) exampleNow).resume tagZlib 0
    (.ok goneUpstream) exampleNow

/-! ## Lemmas: UTF-8 -/

theorem utf8DecodeFrom_lead_inr (b : Nat) (bs : List Nat) (p : Utf8Pending)
    (h : utf8Lead b = .inr p) : utf8DecodeFrom none (b :: bs) = utf8DecodeFrom (some p) bs := by
  simp only [utf8DecodeFrom, h]

theorem utf8DecodeFrom_lead_inl (b : Nat) (bs : List Nat) (c : Char)
    (h : utf8Lead b = .inl c) : utf8DecodeFrom none (b :: bs) = c :: utf8DecodeFrom none bs := by
  simp only [utf8DecodeFrom, h]

theorem utf8DecodeFrom_last (p : Utf8Pending) (b : Nat) (bs : List Nat)
    (hl : p.lower ≤ b) (hu : b ≤ p.upper) (hn : p.needed ≤ 1) :
    utf8DecodeFrom (some p) (b :: bs) =
      Char.ofNat (p.codePoint * 64 + b % 64) :: utf8DecodeFrom none bs := by
  rw [utf8DecodeFrom, if_neg (by omega), if_pos hn]

theorem utf8DecodeFrom_more (p : Utf8Pending) (b : Nat) (bs : List Nat)
    (hl : p.lower ≤ b) (hu : b ≤ p.upper) (hn : 1 < p.needed) :
    utf8DecodeFrom (some p) (b :: bs) =
      utf8DecodeFrom (some ⟨p.codePoint * 64 + b % 64, p.needed - 1, 0x80, 0xBF⟩) bs := by
  rw [utf8DecodeFrom, if_neg (by omega), if_neg (by omega)]

/-- Decoding the bytes of one character, followed by anything, gives that character back. -/
theorem utf8DecodeFrom_encodeChar (c : Char) (rest : List Nat) :
    utf8DecodeFrom none (utf8EncodeChar c ++ rest) = c :: utf8DecodeFrom none rest := by
  have hv : c.toNat < 0xD800 ∨ (0xDFFF < c.toNat ∧ c.toNat < 0x110000) := c.valid
  have hc : Char.ofNat c.toNat = c := Char.ofNat_toNat c
  unfold utf8EncodeChar
  simp only []
  generalize c.toNat = n at hv hc ⊢
  by_cases h1 : n < 0x80
  · rw [if_pos h1, List.singleton_append, utf8DecodeFrom_lead_inl n rest c]
    rw [utf8Lead, if_pos (by omega), hc]
  · rw [if_neg h1]
    by_cases h2 : n < 0x800
    · rw [if_pos h2]
      simp only [List.cons_append, List.nil_append]
      rw [utf8DecodeFrom_lead_inr _ _ ⟨(0xC0 + n / 64) % 32, 1, 0x80, 0xBF⟩
        (by rw [utf8Lead, if_neg (by omega), if_pos (by omega)])]
      rw [utf8DecodeFrom_last _ _ _ (by simp only []; omega) (by simp only []; omega)
        (by simp only []; omega)]
      have : (192 + n / 64) % 32 * 64 + (128 + n % 64) % 64 = n := by omega
      simp only [this, hc]
    · rw [if_neg h2]
      by_cases h3 : n < 0x10000
      · rw [if_pos h3]
        simp only [List.cons_append, List.nil_append]
        rw [utf8DecodeFrom_lead_inr _ _
          ⟨(0xE0 + n / 4096) % 16, 2, if 0xE0 + n / 4096 = 0xE0 then 0xA0 else 0x80,
            if 0xE0 + n / 4096 = 0xED then 0x9F else 0xBF⟩
          (by rw [utf8Lead, if_neg (by omega), if_neg (by omega), if_pos (by omega)])]
        rw [utf8DecodeFrom_more _ _ _ (by simp only []; split <;> omega)
          (by simp only []; split <;> omega) (by simp only []; omega)]
        rw [utf8DecodeFrom_last _ _ _ (by simp only []; omega) (by simp only []; omega)
          (by simp only []; omega)]
        have : ((224 + n / 4096) % 16 * 64 + (128 + n / 64 % 64) % 64) * 64 +
            (128 + n % 64) % 64 = n := by
          omega
        simp only [this, hc]
      · rw [if_neg h3]
        simp only [List.cons_append, List.nil_append]
        rw [utf8DecodeFrom_lead_inr _ _
          ⟨(0xF0 + n / 262144) % 8, 3, if 0xF0 + n / 262144 = 0xF0 then 0x90 else 0x80,
            if 0xF0 + n / 262144 = 0xF4 then 0x8F else 0xBF⟩
          (by rw [utf8Lead, if_neg (by omega), if_neg (by omega), if_neg (by omega),
            if_pos (by omega)])]
        rw [utf8DecodeFrom_more _ _ _ (by simp only []; split <;> omega)
          (by simp only []; split <;> omega) (by simp only []; omega)]
        rw [utf8DecodeFrom_more _ _ _ (by simp only []; omega) (by simp only []; omega)
          (by simp only []; omega)]
        rw [utf8DecodeFrom_last _ _ _ (by simp only []; omega) (by simp only []; omega)
          (by simp only []; omega)]
        have : (((240 + n / 262144) % 8 * 64 + (128 + n / 4096 % 64) % 64) * 64 +
            (128 + n / 64 % 64) % 64) * 64 + (128 + n % 64) % 64 = n := by
          omega
        simp only [this, hc]

/-- Decoding inverts encoding. -/
theorem utf8Decode_utf8Encode (s : JsString) : utf8Decode (utf8Encode s) = s := by
  unfold utf8Decode utf8Encode
  induction s with
  | nil => rfl
  | cons c cs ih => rw [List.flatMap_cons, utf8DecodeFrom_encodeChar, ih]

/-! ## Lemmas: `split` and `join` -/

theorem split_ne_nil (sep : Char) (s : JsString) : split sep s ≠ [] := by
  cases s with
  | nil => simp [split]
  | cons c cs =>
    unfold split
    split
    · simp
    · split <;> simp

theorem split_of_not_mem (sep : Char) (s : JsString) (h : sep ∉ s) : split sep s = [s] := by
  induction s with
  | nil => rfl
  | cons c cs ih =>
    have hc : c ≠ sep := fun e => h (by simp [e])
    have hcs : sep ∉ cs := fun e => h (by simp [e])
    rw [split, if_neg hc, ih hcs]

theorem split_append_sep (sep : Char) (a b : JsString) (h : sep ∉ a) :
    split sep (a ++ sep :: b) = a :: split sep b := by
  induction a with
  | nil => simp [split]
  | cons c cs ih =>
    have hc : c ≠ sep := fun e => h (by simp [e])
    have hcs : sep ∉ cs := fun e => h (by simp [e])
    rw [List.cons_append, split, if_neg hc, ih hcs]

theorem join_singleton (sep : JsString) (a : JsString) : join sep [a] = a := by
  simp [join, List.intercalate]

theorem join_cons_cons (sep : JsString) (a b : JsString) (l : List JsString) :
    join sep (a :: b :: l) = a ++ sep ++ join sep (b :: l) := by
  simp [join, List.intercalate]

/-- Joining the pieces of a split with the separator gives the string back. -/
theorem join_split (sep : Char) (s : JsString) : join [sep] (split sep s) = s := by
  induction s with
  | nil => simp [split, join, List.intercalate]
  | cons c cs ih =>
    unfold split
    by_cases hc : c = sep
    · rw [if_pos hc]
      cases hs : split sep cs with
      | nil => exact absurd hs (split_ne_nil sep cs)
      | cons p ps =>
        rw [join_cons_cons, ← hs, ih, hc]
        rfl
    · rw [if_neg hc]
      cases hs : split sep cs with
      | nil => exact absurd hs (split_ne_nil sep cs)
      | cons p ps =>
        rw [hs] at ih
        simp only []
        cases ps with
        | nil =>
          rw [join_singleton] at ih ⊢
          rw [ih]
        | cons q qs =>
          rw [join_cons_cons] at ih ⊢
          rw [← ih]
          simp

/-- Splitting a join of separator-free pieces gives the pieces back. -/
theorem split_join (sep : Char) (parts : List JsString) (hne : parts ≠ [])
    (h : ∀ p ∈ parts, sep ∉ p) : split sep (join [sep] parts) = parts := by
  induction parts with
  | nil => exact absurd rfl hne
  | cons a l ih =>
    cases l with
    | nil =>
      rw [join_singleton]
      exact split_of_not_mem sep a (h a (by simp))
    | cons b l =>
      rw [join_cons_cons, List.append_assoc, List.singleton_append,
        split_append_sep sep a _ (h a (by simp)),
        ih (by simp) (fun p hp => h p (List.mem_cons_of_mem _ hp))]

theorem headersString_eq (hs : List (JsString × JsString)) :
    headersString hs = join [LF] (hs.map (fun h => h.1 ++ ':' :: h.2)) := by
  unfold headersString
  congr 1
  induction hs with
  | nil => rfl
  | cons h t ih =>
    simp only [List.map_cons]
    rw [List.filter_cons_of_pos (by simp [join, List.intercalate]), ih]
    simp [join, List.intercalate]

theorem parseHeaders_headersString (hs : List (JsString × JsString)) (hne : hs ≠ [])
    (hwf : ∀ h ∈ hs, ':' ∉ h.1 ∧ LF ∉ h.1 ∧ LF ∉ h.2) :
    parseHeaders (headersString hs) = hs.map (fun h => (h.1, trim h.2)) := by
  rw [headersString_eq, parseHeaders, split_join LF _ (by simpa using hne)]
  · rw [List.map_map]
    apply List.map_congr_left
    intro h hh
    simp only [Function.comp]
    rw [split_append_sep ':' h.1 h.2 (hwf h hh).1]
    simp only [join_split]
  · intro p hp
    rw [List.mem_map] at hp
    obtain ⟨h, hh, rfl⟩ := hp
    have := hwf h hh
    have hlf : LF ≠ ':' := by decide
    simp only [List.mem_append, List.mem_cons, not_or]
    exact ⟨this.2.1, hlf, this.2.2⟩

/-! ## Lemmas: buffers -/

theorem readUInt32LE_of_drop (data : List Nat) (offset b0 b1 b2 b3 : Nat) (tail : List Nat)
    (h : data.drop offset = b0 :: b1 :: b2 :: b3 :: tail) :
    readUInt32LE data offset = .ok (b0 + 256 * b1 + 65536 * b2 + 16777216 * b3) := by
  have hlen : offset + 4 ≤ data.length := by
    have := congrArg List.length h
    simp only [List.length_drop, List.length_cons] at this
    omega
  have hget : ∀ i, data.getD (offset + i) 0 = (b0 :: b1 :: b2 :: b3 :: tail).getD i 0 := by
    intro i
    rw [← h, List.getD_eq_getElem?_getD, List.getD_eq_getElem?_getD, List.getElem?_drop]
  rw [readUInt32LE, if_pos hlen]
  have h0 := hget 0
  have h1 := hget 1
  have h2 := hget 2
  have h3 := hget 3
  simp only [Nat.add_zero] at h0
  rw [h0, h1, h2, h3]
  rfl

theorem writeUInt32LE_inv (n : Nat) (w : List Nat) (h : writeUInt32LE n = .ok w) :
    n < 2 ^ 32 ∧ w = [n % 256, n / 256 % 256, n / 65536 % 256, n / 16777216 % 256] := by
  unfold writeUInt32LE at h
  split at h
  · rename_i hlt
    exact ⟨hlt, (Except.ok.inj h).symm⟩
  · cases h

theorem writeInt32LE_inv (v : Int) (w : List Nat) (h : writeInt32LE v = .ok w) :
    (-(2 ^ 31) ≤ v ∧ v < 2 ^ 31) ∧
      w = [(v % 2 ^ 32).toNat % 256, (v % 2 ^ 32).toNat / 256 % 256,
        (v % 2 ^ 32).toNat / 65536 % 256, (v % 2 ^ 32).toNat / 16777216 % 256] := by
  unfold writeInt32LE at h
  split at h
  · rename_i hlt
    exact ⟨hlt, (Except.ok.inj h).symm⟩
  · cases h

theorem readUInt32LE_write (data : List Nat) (offset n : Nat) (w tail : List Nat)
    (hw : writeUInt32LE n = .ok w) (h : data.drop offset = w ++ tail) :
    readUInt32LE data offset = .ok n := by
  obtain ⟨hn, rfl⟩ := writeUInt32LE_inv n w hw
  rw [readUInt32LE_of_drop data offset _ _ _ _ tail h]
  congr 1
  omega

theorem readInt32LE_write (data : List Nat) (offset : Nat) (v : Int) (w tail : List Nat)
    (hw : writeInt32LE v = .ok w) (h : data.drop offset = w ++ tail) :
    readInt32LE data offset = .ok v := by
  obtain ⟨hv, rfl⟩ := writeInt32LE_inv v w hw
  rw [readInt32LE, readUInt32LE_of_drop data offset _ _ _ _ tail h]
  simp only [bind, Except.bind, pure, Except.pure]
  congr 1
  have hu : ((v % 2 ^ 32).toNat : Int) = v % 2 ^ 32 := Int.toNat_of_nonneg (Int.emod_nonneg _ (by norm_num))
  generalize (v % 2 ^ 32).toNat = u at hu ⊢
  have e : u % 256 + 256 * (u / 256 % 256) + 65536 * (u / 65536 % 256) +
      16777216 * (u / 16777216 % 256) = u % 4294967296 := by omega
  rw [e]
  have hlt : u < 4294967296 := by omega
  rw [Nat.mod_eq_of_lt hlt]
  split <;> omega

/-! ## Lemmas: the persistence loop -/

theorem subarray_of_drop (data : List Nat) (offset n : Nat) (a tail : List Nat)
    (h : data.drop offset = a ++ tail) (hn : a.length = n) :
    subarray data offset (offset + n) = a := by
  rw [subarray, h, Nat.add_sub_cancel_left, ← hn, List.take_left']
  rfl

theorem drop_add_of_drop (data : List Nat) (offset : Nat) (a tail : List Nat)
    (h : data.drop offset = a ++ tail) : data.drop (offset + a.length) = tail := by
  rw [← List.drop_drop, h, List.drop_left]

theorem serializeItem_inv (item : DataArray) (w : List Nat) (h : serializeItem item = .ok w) :
    ∃ k4 h4 s4 b4,
      writeUInt32LE (utf8Encode item.1).length = .ok k4 ∧
      writeUInt32LE (utf8Encode (headersString item.2.value.headers)).length = .ok h4 ∧
      writeInt32LE item.2.value.status = .ok s4 ∧
      writeUInt32LE item.2.value.body.length = .ok b4 ∧
      w = k4 ++ utf8Encode item.1 ++ h4 ++ utf8Encode (headersString item.2.value.headers) ++
        s4 ++ b4 ++ item.2.value.body := by
  simp only [serializeItem] at h
  cases hk : writeUInt32LE (utf8Encode item.1).length with
  | error e => rw [hk] at h; cases h
  | ok k4 =>
    cases hh : writeUInt32LE (utf8Encode (headersString item.2.value.headers)).length with
    | error e => rw [hk, hh] at h; cases h
    | ok h4 =>
      cases hs : writeInt32LE item.2.value.status with
      | error e => rw [hk, hh, hs] at h; cases h
      | ok s4 =>
        cases hb : writeUInt32LE item.2.value.body.length with
        | error e => rw [hk, hh, hs, hb] at h; cases h
        | ok b4 =>
          rw [hk, hh, hs, hb] at h
          exact ⟨k4, h4, s4, b4, rfl, rfl, rfl, rfl, (Except.ok.inj h).symm⟩

theorem length_of_writeUInt32LE (n : Nat) (w : List Nat) (h : writeUInt32LE n = .ok w) :
    w.length = 4 := by
  obtain ⟨_, rfl⟩ := writeUInt32LE_inv n w h
  rfl

theorem length_of_writeInt32LE (v : Int) (w : List Nat) (h : writeInt32LE v = .ok w) :
    w.length = 4 := by
  obtain ⟨_, rfl⟩ := writeInt32LE_inv v w h
  rfl

theorem deserializeLoop_step (data : List Nat) (fuel offset : Nat) (acc : List DataArray)
    (item : DataArray) (w tail : List Nat) (hser : serializeItem item = .ok w)
    (hdrop : data.drop offset = w ++ tail) :
    deserializeLoop data (fuel + 1) offset acc =
      deserializeLoop data fuel (offset + w.length) (acc ++ [reread item]) := by
  obtain ⟨k4, h4, s4, b4, hk, hh, hs, hb, rfl⟩ := serializeItem_inv item w hser
  have lk := length_of_writeUInt32LE _ _ hk
  have lh := length_of_writeUInt32LE _ _ hh
  have ls := length_of_writeInt32LE _ _ hs
  have lb := length_of_writeUInt32LE _ _ hb
  simp only [List.append_assoc] at hdrop
  have hlt : offset < data.length := by
    have := congrArg List.length hdrop
    simp only [List.length_drop, List.length_append] at this
    omega
  have d1 := drop_add_of_drop _ _ _ _ hdrop
  rw [lk] at d1
  have d2 := drop_add_of_drop _ _ _ _ d1
  have d3 := drop_add_of_drop _ _ _ _ d2
  rw [lh] at d3
  have d4 := drop_add_of_drop _ _ _ _ d3
  have d5 := drop_add_of_drop _ _ _ _ d4
  rw [ls] at d5
  have d6 := drop_add_of_drop _ _ _ _ d5
  rw [lb] at d6
  rw [deserializeLoop, if_pos hlt]
  rw [readUInt32LE_write _ _ _ _ _ hk hdrop]
  simp only [bind, Except.bind]
  rw [readUInt32LE_write _ _ _ _ _ hh d2]
  simp only []
  rw [readInt32LE_write _ _ _ _ _ hs d4]
  simp only []
  rw [readUInt32LE_write _ _ _ _ _ hb d5]
  simp only []
  rw [subarray_of_drop _ _ _ _ _ d1 rfl, subarray_of_drop _ _ _ _ _ d3 rfl,
    subarray_of_drop _ _ _ _ _ d6 rfl, utf8Decode_utf8Encode, utf8Decode_utf8Encode]
  simp only [List.length_append, lk, lh, ls, lb, reread]
  congr 1
  omega

theorem serializeItems_cons_inv (item : DataArray) (rest : List DataArray) (bytes : List Nat)
    (h : serializeItems (item :: rest) = .ok bytes) :
    ∃ w bs, serializeItem item = .ok w ∧ serializeItems rest = .ok bs ∧ bytes = w ++ bs := by
  simp only [serializeItems, bind, Except.bind] at h
  cases hw : serializeItem item with
  | error e => rw [hw] at h; cases h
  | ok w =>
    cases hb : serializeItems rest with
    | error e => rw [hw, hb] at h; cases h
    | ok bs =>
      rw [hw, hb] at h
      exact ⟨w, bs, rfl, rfl, (Except.ok.inj h).symm⟩

theorem deserializeLoop_serializeItems (data : List Nat) (items : List DataArray) :
    ∀ (bytes : List Nat) (fuel offset : Nat) (acc : List DataArray),
      serializeItems items = .ok bytes → data.drop offset = bytes → items.length ≤ fuel →
      deserializeLoop data fuel offset acc = .ok (acc ++ items.map reread) := by
  induction items with
  | nil =>
    intro bytes fuel offset acc hser hdrop _
    have hb : bytes = [] := (Except.ok.inj hser).symm
    subst hb
    have hlen : ¬ offset < data.length := by
      have := congrArg List.length hdrop
      simp only [List.length_drop, List.length_nil] at this
      omega
    cases fuel with
    | zero => simp [deserializeLoop]
    | succ f => rw [deserializeLoop, if_neg hlen]; simp
  | cons item rest ih =>
    intro bytes fuel offset acc hser hdrop hfuel
    obtain ⟨w, bs, hw, hbs, rfl⟩ := serializeItems_cons_inv item rest bytes hser
    cases fuel with
    | zero => simp at hfuel
    | succ f =>
      rw [deserializeLoop_step data f offset acc item w bs hw hdrop,
        ih bs f (offset + w.length) (acc ++ [reread item]) hbs
          (drop_add_of_drop _ _ _ _ hdrop) (by simpa using hfuel)]
      simp

theorem length_serializeItems (items : List DataArray) :
    ∀ bytes, serializeItems items = .ok bytes → items.length ≤ bytes.length := by
  induction items with
  | nil => intro bytes _; simp
  | cons item rest ih =>
    intro bytes h
    obtain ⟨w, bs, hw, hbs, rfl⟩ := serializeItems_cons_inv item rest bytes h
    obtain ⟨k4, h4, s4, b4, hk, _, _, _, rfl⟩ := serializeItem_inv item w hw
    have := ih bs hbs
    have lk := length_of_writeUInt32LE _ _ hk
    simp only [List.length_append, List.length_cons]
    omega

theorem layoutHeadersBlob_eq (headers : List (JsString × JsString)) :
    layoutHeadersBlob headers = utf8Encode (headersString headers) := by
  rw [layoutHeadersBlob, headersString_eq, join]
  congr 2
  apply List.map_congr_left
  intro h _
  simp

theorem layoutI32_eq (v : Int) (h1 : -(2 ^ 31) ≤ v) (h2 : v < 2 ^ 31) :
    layoutI32 v = layoutU32 (v % 2 ^ 32).toNat := by
  unfold layoutI32
  congr 1
  split
  · congr 1
    omega
  · congr 1
    omega

/-- The bytes written for a representable item are the record of the layout. -/
theorem serializeItem_ok (item : DataArray) (h : Representable item) :
    serializeItem item = .ok (layoutRecord item) := by
  obtain ⟨h1, h2, h3, h4, h5⟩ := h
  simp only [serializeItem, writeUInt32LE, writeInt32LE, if_pos h1, if_pos h2, if_pos h3,
    if_pos (And.intro h4 h5), bind, Except.bind, pure, Except.pure, layoutRecord,
    layoutHeadersBlob_eq, layoutI32_eq _ h4 h5, layoutU32]

theorem serializeItems_ok (items : List DataArray) (h : ∀ e ∈ items, Representable e) :
    serializeItems items = .ok (items.flatMap layoutRecord) := by
  induction items with
  | nil => rfl
  | cons item rest ih =>
    simp only [serializeItems, serializeItem_ok item (h item (by simp)),
      ih (fun e he => h e (List.mem_cons_of_mem _ he)), bind, Except.bind, pure, Except.pure,
      List.flatMap_cons]

theorem roundTrip_eq (fs : FileSystem) (entries : List DataArray) (path : JsString)
    (hne : entries ≠ []) (hpath : path ≠ []) (hrep : ∀ e ∈ entries, Representable e) :
    roundTrip fs entries path = .ok (entries.map reread) := by
  have hb := serializeItems_ok entries hrep
  generalize (entries.flatMap layoutRecord) = bytes at hb
  cases entries with
  | nil => exact absurd rfl hne
  | cons e es =>
    cases path with
    | nil => exact absurd rfl hpath
    | cons c cs =>
      simp only [roundTrip, serializeToFile, hb, deserializeFromFile, writeFile, if_true]
      rw [deserializeLoop_serializeItems bytes (e :: es) bytes (bytes.length + 1) 0 [] hb rfl
        (Nat.le_succ_of_le (length_serializeItems _ _ hb))]
      rfl

/-- The loop never runs out of fuel: once the fuel exceeds the bytes left, more fuel does
not change the result (every iteration that goes on moves the offset forward). -/
theorem deserializeLoop_fuel (data : List Nat) :
    ∀ (fuel offset : Nat) (acc : List DataArray), data.length < offset + fuel →
      deserializeLoop data (fuel + 1) offset acc = deserializeLoop data fuel offset acc := by
  intro fuel
  induction fuel with
  | zero =>
    intro offset acc h
    have hlt : ¬ offset < data.length := by omega
    simp only [deserializeLoop, if_neg hlt]
  | succ f ih =>
    intro offset acc h
    conv => lhs; rw [deserializeLoop]
    conv => rhs; rw [deserializeLoop]
    by_cases hlt : offset < data.length
    · rw [if_pos hlt, if_pos hlt]
      cases h1 : readUInt32LE data offset with
      | error e => rfl
      | ok n1 =>
        simp only [bind, Except.bind]
        cases h2 : readUInt32LE data (offset + 4 + n1) with
        | error e => rfl
        | ok n2 =>
          simp only []
          cases h3 : readInt32LE data (offset + 4 + n1 + 4 + n2) with
          | error e => rfl
          | ok st =>
            simp only []
            cases h4 : readUInt32LE data (offset + 4 + n1 + 4 + n2 + 4) with
            | error e => rfl
            | ok n3 =>
              simp only []
              exact ih _ _ (by omega)
    · rw [if_neg hlt, if_neg hlt]

/-! ## Persistence: round trip and layout -/

/-- C1 (as amended): writing a non-empty sequence of representable entries whose header
lists the text format can carry, and reading the file back, succeeds and returns as many
entries, in order, each with the same key, status, body bytes and header names, and with
every header value trimmed of surrounding white space. -/
theorem roundTrip_trims_header_values (fs : FileSystem) (entries : List DataArray)
    (path : JsString) (hne : entries ≠ []) (hpath : path ≠ [])
    (hrep : ∀ e ∈ entries, Representable e)
    (hhdr : ∀ e ∈ entries, HeadersCarried e.2.value.headers) :
    ∃ out, roundTrip fs entries path = .ok out ∧ out.length = entries.length ∧
      out.map keyAndRecord = entries.map (fun e => (e.1, trimHeaderValues e.2.value)) := by
  refine ⟨entries.map reread, roundTrip_eq fs entries path hne hpath hrep, by simp, ?_⟩
  rw [List.map_map]
  apply List.map_congr_left
  intro e he
  obtain ⟨h1, h2⟩ := hhdr e he
  simp only [Function.comp, keyAndRecord, reread, trimHeaderValues,
    parseHeaders_headersString _ h1 h2]

/-- Witness for C1: the entry of the storage tests. -/
theorem roundTrip_trims_header_values_witness :
    ∃ out, roundTrip noFiles mockDataArray cacheBin = .ok out ∧
      out.length = mockDataArray.length ∧
      out.map keyAndRecord =
        mockDataArray.map (fun e => (e.1, trimHeaderValues e.2.value)) :=
  roundTrip_trims_header_values noFiles mockDataArray cacheBin (by decide) (by decide)
    (by decide) (by decide)

/-- C1 (counterexample): an entry whose header value starts with a space is read back with
a different header value, so the round trip does not give equal header pairs. -/
theorem roundTrip_changes_padded_value :
    ∃ out, roundTrip noFiles paddedDataArray cacheBin = .ok out ∧
      out.map keyAndRecord ≠ paddedDataArray.map keyAndRecord :=
  ⟨[("requestId1".toList,
      { value := { body := utf8Encode "body1".toList, status := 200,
                   headers := [("content-type".toList, "text/plain".toList)] },
        size := 51 })], by rfl, by decide⟩

/-- C10: for a non-empty sequence of representable entries and a non-empty file name,
`serializeToFile` succeeds and the file then holds the records of the layout, one per
entry in input order with nothing between them; its length is the sum over the entries
of 16 plus the key, header-blob and body lengths. No other file changes. -/
theorem serializeToFile_layout (fs : FileSystem) (data : List DataArray) (path : JsString)
    (hne : data ≠ []) (hpath : path ≠ []) (hrep : ∀ e ∈ data, Representable e) :
    ∃ fs1, serializeToFile fs (some data) (some path) = .ok fs1 ∧
      fs1 path = some (data.flatMap layoutRecord) ∧
      (data.flatMap layoutRecord).length = (data.map layoutRecordLength).sum ∧
      ∀ p, p ≠ path → fs1 p = fs p := by
  have hb := serializeItems_ok data hrep
  have hlen : ∀ l : List DataArray,
      (l.flatMap layoutRecord).length = (l.map layoutRecordLength).sum := by
    intro l
    induction l with
    | nil => rfl
    | cons e es ih =>
      simp only [List.flatMap_cons, List.length_append, List.map_cons, List.sum_cons, ih]
      simp only [layoutRecord, layoutRecordLength, layoutU32, layoutI32, List.length_append,
        List.length_cons, List.length_nil]
      omega
  cases data with
  | nil => exact absurd rfl hne
  | cons e es =>
    cases path with
    | nil => exact absurd rfl hpath
    | cons c cs =>
      refine ⟨writeFile fs (c :: cs) ((e :: es).flatMap layoutRecord), ?_, ?_, hlen _, ?_⟩
      · simp only [serializeToFile, hb]
      · simp only [writeFile, if_true]
      · intro p hp
        simp only [writeFile, if_neg hp]

/-- Witness for C10: the entry of the storage tests. -/
theorem serializeToFile_layout_witness :
    ∃ fs1, serializeToFile noFiles (some mockDataArray) (some cacheBin) = .ok fs1 ∧
      fs1 cacheBin = some (mockDataArray.flatMap layoutRecord) ∧
      (mockDataArray.flatMap layoutRecord).length = (mockDataArray.map layoutRecordLength).sum ∧
      ∀ p, p ≠ cacheBin → fs1 p = noFiles p :=
  serializeToFile_layout noFiles mockDataArray cacheBin (by decide) (by decide) (by decide)

/-- The bytes of the entry of the storage tests, field by field. -/
theorem layout_of_mockDataArray :
    mockDataArray.flatMap layoutRecord =
      [10, 0, 0, 0] ++ utf8Encode "requestId1".toList ++
      [23, 0, 0, 0] ++ utf8Encode "Content-Type:text/plain".toList ++
      [200, 0, 0, 0] ++ [5, 0, 0, 0] ++ utf8Encode "body1".toList := by
  decide

/-! ## Lemmas: `Headers` -/

theorem toNat_ofNat_of_lt (n : Nat) (h : n < 0xD800) : (Char.ofNat n).toNat = n := by
  have hv : n.isValidChar := Or.inl h
  simp only [Char.ofNat, dif_pos hv, Char.ofNatAux, Char.toNat]
  simp only [UInt32.toNat]
  show (BitVec.ofNatLt n _).toNat = n
  rfl

theorem asciiLower_idem (c : Char) : asciiLower (asciiLower c) = asciiLower c := by
  unfold asciiLower
  by_cases h : 65 ≤ c.toNat ∧ c.toNat ≤ 90
  · rw [if_pos h]
    have := toNat_ofNat_of_lt (c.toNat + 32) (by omega)
    rw [if_neg (by rw [this]; omega)]
  · rw [if_neg h, if_neg h]

theorem lowerName_idem (s : JsString) : lowerName (lowerName s) = lowerName s := by
  unfold lowerName
  rw [List.map_map]
  apply List.map_congr_left
  intro c _
  exact asciiLower_idem c

theorem isHeaderValue_normalizeValue (v : JsString) (h : isHeaderValue v = true) :
    isHeaderValue (normalizeValue v) = true := by
  unfold isHeaderValue normalizeValue at *
  rw [List.all_eq_true] at h ⊢
  intro x hx
  rw [List.mem_reverse] at hx
  have h1 := (List.dropWhile_sublist isHttpWhitespace).subset hx
  rw [List.mem_reverse] at h1
  exact h x ((List.dropWhile_sublist isHttpWhitespace).subset h1)

theorem isTokenChar_asciiLower (c : Char) (h : isTokenChar c = true) :
    isTokenChar (asciiLower c) = true := by
  unfold asciiLower
  by_cases hc : 65 ≤ c.toNat ∧ c.toNat ≤ 90
  · rw [if_pos hc]
    have := toNat_ofNat_of_lt (c.toNat + 32) (by omega)
    simp only [isTokenChar, this]
    have h1 : 97 ≤ c.toNat + 32 := by omega
    have h2 : c.toNat + 32 ≤ 122 := by omega
    simp [h1, h2]
  · rw [if_neg hc]
    exact h

theorem isHeaderName_lowerName (n : JsString) (h : isHeaderName n = true) :
    isHeaderName (lowerName n) = true := by
  unfold isHeaderName lowerName at *
  rw [Bool.and_eq_true] at h ⊢
  obtain ⟨h1, h2⟩ := h
  constructor
  · cases n with
    | nil => simp at h1
    | cons a l => simp
  · rw [List.all_eq_true] at h2 ⊢
    intro x hx
    rw [List.mem_map] at hx
    obtain ⟨c, hc, rfl⟩ := hx
    exact isTokenChar_asciiLower c (h2 c hc)

theorem digitChar_toNat (m : Nat) (h : m < 10) :
    48 ≤ (Nat.digitChar m).toNat ∧ (Nat.digitChar m).toNat ≤ 57 := by
  interval_cases m <;> decide

theorem toDigitsCore_digits (fuel : Nat) :
    ∀ (n : Nat) (ds : List Char), (∀ c ∈ ds, 48 ≤ c.toNat ∧ c.toNat ≤ 57) →
      ∀ c ∈ Nat.toDigitsCore 10 fuel n ds, 48 ≤ c.toNat ∧ c.toNat ≤ 57 := by
  induction fuel with
  | zero => intro n ds h c hc; exact h c hc
  | succ f ih =>
    intro n ds h c hc
    simp only [Nat.toDigitsCore] at hc
    have hd := digitChar_toNat (n % 10) (Nat.mod_lt _ (by decide))
    have h2 : ∀ c ∈ Nat.digitChar (n % 10) :: ds, 48 ≤ c.toNat ∧ c.toNat ≤ 57 := by
      intro c hc
      rcases List.mem_cons.mp hc with rfl | hc
      · exact hd
      · exact h c hc
    split at hc
    · exact h2 c hc
    · exact ih _ _ h2 c hc

theorem isHeaderValue_decimal (n : Nat) : isHeaderValue (decimal n) = true := by
  unfold isHeaderValue decimal Nat.toDigits
  rw [List.all_eq_true]
  intro c hc
  have := toDigitsCore_digits (n + 1) n [] (by simp) c hc
  simp only [Bool.and_eq_true, decide_eq_true_eq, ne_eq]
  omega

theorem mem_setFirst (n v : JsString) (l : List (JsString × JsString)) :
    ∀ p ∈ setFirst n v l, p = (n, v) ∨ p ∈ l := by
  induction l with
  | nil => intro p hp; simp [setFirst] at hp
  | cons a l ih =>
    intro p hp
    unfold setFirst at hp
    split at hp
    · rcases List.mem_cons.mp hp with rfl | hp
      · exact Or.inl rfl
      · exact Or.inr (List.mem_cons_of_mem _ ((List.filter_sublist l).subset hp))
    · rcases List.mem_cons.mp hp with rfl | hp
      · exact Or.inr (by simp)
      · rcases ih p hp with h | h
        · exact Or.inl h
        · exact Or.inr (List.mem_cons_of_mem _ h)

theorem mem_set (h : Headers) (n v : JsString) :
    ∀ p ∈ (h.set n v).list, p = (lowerName n, normalizeValue v) ∨ p ∈ h.list := by
  intro p hp
  unfold Headers.set at hp
  simp only [] at hp
  split at hp
  · exact mem_setFirst _ _ _ p hp
  · rcases List.mem_append.mp hp with hp | hp
    · exact Or.inr hp
    · exact Or.inl (by simpa using hp)

/-- Setting a valid header keeps the header list well formed. -/
theorem wellFormed_set (h : Headers) (n v : JsString) (hw : h.WellFormed)
    (hn : isHeaderName n = true) (hv : isHeaderValue v = true) : (h.set n v).WellFormed := by
  intro p hp
  rcases mem_set h n v p hp with rfl | hp
  · exact ⟨isHeaderName_lowerName n hn, lowerName_idem n, isHeaderValue_normalizeValue v hv⟩
  · exact hw p hp

theorem filter_setFirst_self (n v : JsString) (l : List (JsString × JsString))
    (h : l.any (fun p => p.1 = n) = true) :
    (setFirst n v l).filter (fun p => p.1 = n) = [(n, v)] := by
  induction l with
  | nil => simp at h
  | cons a l ih =>
    unfold setFirst
    by_cases ha : a.1 = n
    · rw [if_pos ha, List.filter_cons_of_pos (by simp)]
      congr 1
      rw [List.filter_filter]
      apply List.filter_eq_nil_iff.mpr
      intro x _
      simp
    · rw [if_neg ha, List.filter_cons_of_neg (by simpa using ha)]
      apply ih
      simpa [ha] using h

theorem filter_setFirst_other (n v m : JsString) (hm : m ≠ n) (l : List (JsString × JsString)) :
    (setFirst n v l).filter (fun p => p.1 = m) = l.filter (fun p => p.1 = m) := by
  induction l with
  | nil => rfl
  | cons a l ih =>
    unfold setFirst
    by_cases ha : a.1 = n
    · rw [if_pos ha, List.filter_cons_of_neg (by simpa using fun e => hm e.symm),
        List.filter_cons_of_neg (by simpa [ha] using fun e => hm e.symm), List.filter_filter]
      apply List.filter_congr
      intro x _
      by_cases hx : x.1 = m
      · simp [hx, hm]
      · simp [hx]
    · rw [if_neg ha]
      by_cases hb : a.1 = m
      · rw [List.filter_cons_of_pos (by simpa using hb), List.filter_cons_of_pos (by simpa using hb), ih]
      · rw [List.filter_cons_of_neg (by simpa using hb), List.filter_cons_of_neg (by simpa using hb), ih]

/-- After `set`, the name carries exactly the value set. -/
theorem valuesOf_set_self (h : Headers) (n v : JsString) :
    (h.set n v).valuesOf (lowerName n) = [normalizeValue v] := by
  unfold Headers.set Headers.valuesOf
  simp only []
  by_cases ha : h.list.any (fun p => p.1 = lowerName n) = true
  · rw [if_pos ha]
    simp only []
    rw [filter_setFirst_self _ _ _ ha]
    rfl
  · rw [if_neg ha]
    simp only []
    rw [List.filter_append]
    have : h.list.filter (fun p => p.1 = lowerName n) = [] := by
      apply List.filter_eq_nil_iff.mpr
      intro x hx hc
      apply ha
      rw [List.any_eq_true]
      exact ⟨x, hx, hc⟩
    rw [this]
    simp

/-- `set` leaves the values of every other name alone. -/
theorem valuesOf_set_other (h : Headers) (n v m : JsString) (hm : m ≠ lowerName n) :
    (h.set n v).valuesOf m = h.valuesOf m := by
  unfold Headers.set Headers.valuesOf
  simp only []
  by_cases ha : h.list.any (fun p => p.1 = lowerName n) = true
  · rw [if_pos ha]
    simp only []
    rw [filter_setFirst_other _ _ _ hm]
  · rw [if_neg ha]
    simp only []
    rw [List.filter_append]
    have : [(lowerName n, normalizeValue v)].filter (fun p => decide (p.1 = m)) = [] := by
      rw [List.filter_cons_of_neg (by simpa using fun e => hm e.symm)]
      rfl
    rw [this, List.append_nil]

theorem fill_ok (l : List (JsString × JsString)) :
    ∀ h : Headers,
      (∀ p ∈ l, isHeaderName p.1 = true ∧ isHeaderValue (normalizeValue p.2) = true) →
      Headers.fill h l =
        .ok ⟨h.list ++ l.map (fun p => (lowerName p.1, normalizeValue p.2))⟩ := by
  induction l with
  | nil => intro h _; simp [Headers.fill]
  | cons a l ih =>
    intro h hl
    obtain ⟨h1, h2⟩ := hl a (by simp)
    obtain ⟨n, v⟩ := a
    simp only [Headers.fill, Headers.append, h1, h2, Bool.and_self, if_true, bind, Except.bind]
    rw [ih _ (fun p hp => hl p (List.mem_cons_of_mem _ hp))]
    simp

theorem mem_sortedNames (h : Headers) (n : JsString) :
    n ∈ h.sortedNames ↔ n ∈ h.list.map (fun p => p.1) := by
  unfold Headers.sortedNames
  rw [(List.perm_insertionSort _ _).mem_iff, List.mem_dedup]

theorem nodup_sortedNames (h : Headers) : h.sortedNames.Nodup := by
  unfold Headers.sortedNames
  rw [(List.perm_insertionSort _ _).nodup_iff]
  exact List.nodup_dedup _

theorem filter_flatMap_named (f : JsString → List (JsString × JsString))
    (hf : ∀ m, ∀ p ∈ f m, p.1 = m) (n : JsString) (ns : List JsString) (hnd : ns.Nodup)
    (hn : n ∈ ns) : (ns.flatMap f).filter (fun p => p.1 = n) = f n := by
  induction ns with
  | nil => simp at hn
  | cons a t ih =>
    rw [List.nodup_cons] at hnd
    rw [List.flatMap_cons, List.filter_append]
    by_cases ha : a = n
    · subst ha
      have h1 : (f a).filter (fun p => decide (p.1 = a)) = f a := by
        apply List.filter_eq_self.mpr
        intro p hp
        simpa using hf a p hp
      have h2 : (t.flatMap f).filter (fun p => decide (p.1 = a)) = [] := by
        apply List.filter_eq_nil_iff.mpr
        intro p hp hc
        rw [List.mem_flatMap] at hp
        obtain ⟨m, hm, hpm⟩ := hp
        have := hf m p hpm
        have hc : p.1 = a := by simpa using hc
        rw [hc] at this
        exact hnd.1 (this ▸ hm)
      rw [h1, h2, List.append_nil]
    · have h1 : (f a).filter (fun p => decide (p.1 = n)) = [] := by
        apply List.filter_eq_nil_iff.mpr
        intro p hp hc
        have := hf a p hp
        have hc : p.1 = n := by simpa using hc
        exact ha (this.symm.trans hc)
      rw [h1, List.nil_append]
      apply ih hnd.2
      rcases List.mem_cons.mp hn with e | e
      · exact absurd e.symm ha
      · exact e

theorem entries_name (h : Headers) (m : JsString) :
    ∀ p ∈ (if m = setCookie then (h.valuesOf m).map (fun v => (m, v))
      else [(m, join [',', ' '] (h.valuesOf m))]), p.1 = m := by
  intro p hp
  split at hp
  · rw [List.mem_map] at hp
    obtain ⟨v, _, rfl⟩ := hp
    rfl
  · rw [List.mem_singleton] at hp
    rw [hp]

/-- The pairs `entries` yields for a name other than `set-cookie` that occurs in the list:
one pair, with the combined value. -/
theorem filter_entries (h : Headers) (n : JsString) (hn : n ∈ h.list.map (fun p => p.1))
    (hc : n ≠ setCookie) :
    h.entries.filter (fun p => p.1 = n) = [(n, join [',', ' '] (h.valuesOf n))] := by
  unfold Headers.entries
  rw [filter_flatMap_named _ (entries_name h) n _ (nodup_sortedNames h)
    ((mem_sortedNames h n).mpr hn), if_neg hc]

theorem mem_entries_name (h : Headers) (p : JsString × JsString) (hp : p ∈ h.entries) :
    p.1 ∈ h.list.map (fun q => q.1) := by
  unfold Headers.entries at hp
  rw [List.mem_flatMap] at hp
  obtain ⟨m, hm, hpm⟩ := hp
  rw [entries_name h m p hpm]
  exact (mem_sortedNames h m).mp hm

theorem mem_valuesOf (h : Headers) (n v : JsString) (hv : v ∈ h.valuesOf n) :
    (n, v) ∈ h.list := by
  unfold Headers.valuesOf at hv
  rw [List.mem_map] at hv
  obtain ⟨p, hp, rfl⟩ := hv
  rw [List.mem_filter] at hp
  have : p.1 = n := by simpa using hp.2
  rw [← this]
  exact hp.1

theorem isHeaderValue_join (vs : List JsString) (h : ∀ v ∈ vs, isHeaderValue v = true) :
    isHeaderValue (join [',', ' '] vs) = true := by
  unfold isHeaderValue join at *
  rw [List.all_eq_true]
  intro c hc
  induction vs with
  | nil => simp [List.intercalate] at hc
  | cons a t ih =>
    cases t with
    | nil =>
      have := h a (by simp)
      rw [List.all_eq_true] at this
      exact this c (by simpa [List.intercalate] using hc)
    | cons b t =>
      have e : [',', ' '].intercalate (a :: b :: t) =
          a ++ [',', ' '] ++ [',', ' '].intercalate (b :: t) := by
        simp [List.intercalate]
      rw [e, List.mem_append, List.mem_append] at hc
      rcases hc with (hc | hc) | hc
      · have := h a (by simp)
        rw [List.all_eq_true] at this
        exact this c hc
      · rcases List.mem_cons.mp hc with rfl | hc
        · decide
        · rcases List.mem_cons.mp hc with rfl | hc
          · decide
          · simp at hc
      · exact ih (fun v hv => h v (List.mem_cons_of_mem _ hv)) hc

/-- The pairs `entries` yields for a well-formed header list are accepted by
`new Headers`. -/
theorem entries_accepted (h : Headers) (hw : h.WellFormed) :
    ∀ p ∈ h.entries, isHeaderName p.1 = true ∧ isHeaderValue (normalizeValue p.2) = true ∧
      lowerName p.1 = p.1 := by
  intro p hp
  have hname := mem_entries_name h p hp
  rw [List.mem_map] at hname
  obtain ⟨q, hq, hqp⟩ := hname
  have hq3 := hw q hq
  rw [hqp] at hq3
  refine ⟨hq3.1, isHeaderValue_normalizeValue _ ?_, hq3.2.1⟩
  unfold Headers.entries at hp
  rw [List.mem_flatMap] at hp
  obtain ⟨m, _, hpm⟩ := hp
  have hvs : ∀ v ∈ h.valuesOf m, isHeaderValue v = true :=
    fun v hv => (hw _ (mem_valuesOf h m v hv)).2.2
  split at hpm
  · rw [List.mem_map] at hpm
    obtain ⟨v, hv, rfl⟩ := hpm
    exact hvs v hv
  · rw [List.mem_singleton] at hpm
    rw [hpm]
    exact isHeaderValue_join _ hvs

theorem filter_map_lower (l : List (JsString × JsString)) (n : JsString)
    (hl : ∀ p ∈ l, lowerName p.1 = p.1) :
    (l.map (fun p => (lowerName p.1, normalizeValue p.2))).filter (fun p => p.1 = n) =
      (l.filter (fun p => p.1 = n)).map (fun p => (lowerName p.1, normalizeValue p.2)) := by
  induction l with
  | nil => rfl
  | cons a t ih =>
    have ha := hl a (by simp)
    have iht := ih (fun p hp => hl p (List.mem_cons_of_mem _ hp))
    rw [List.map_cons]
    by_cases hn : a.1 = n
    · rw [List.filter_cons_of_pos (by simpa [ha] using hn),
        List.filter_cons_of_pos (by simpa using hn), List.map_cons, iht]
    · rw [List.filter_cons_of_neg (by simpa [ha] using hn),
        List.filter_cons_of_neg (by simpa using hn), iht]

/-- Rebuilding a `Headers` object from the entries of a well-formed one succeeds, and a
name other than `set-cookie` that occurred then carries its combined value, normalized. -/
theorem ofEntries_entries (h : Headers) (hw : h.WellFormed) :
    ∃ h2, Headers.ofEntries h.entries = .ok h2 ∧
      ∀ n, lowerName n = n → n ≠ setCookie → n ∈ h.list.map (fun p => p.1) →
        h2.get n = some (normalizeValue (join [',', ' '] (h.valuesOf n))) := by
  have hacc := entries_accepted h hw
  refine ⟨_, fill_ok h.entries Headers.empty (fun p hp => ⟨(hacc p hp).1, (hacc p hp).2.1⟩), ?_⟩
  intro n hlow hc hn
  have e : (Headers.mk (Headers.empty.list ++
      h.entries.map (fun p => (lowerName p.1, normalizeValue p.2)))).valuesOf n =
      [normalizeValue (join [',', ' '] (h.valuesOf n))] := by
    simp only [Headers.valuesOf, Headers.empty, List.nil_append]
    rw [filter_map_lower _ _ (fun p hp => (hacc p hp).2.2), filter_entries h n hn hc]
    rfl
  simp only [Headers.get, hlow, e, join_singleton]

/-! ## Lemmas: encodings -/

theorem find_preferred (acceptable : List JsString) :
    (preferredEncodings.find? (fun enc => acceptable.contains enc)).getD IDENTITY =
      firstPreferred acceptable := by
  unfold preferredEncodings firstPreferred
  by_cases h1 : BROTLI ∈ acceptable
  · simp [List.find?, h1]
  · by_cases h2 : GZIP ∈ acceptable
    · simp [List.find?, h1, h2]
    · by_cases h3 : DEFLATE ∈ acceptable
      · simp [List.find?, h1, h2, h3]
      · by_cases h4 : IDENTITY ∈ acceptable
        · simp [List.find?, h1, h2, h3, h4]
        · simp [List.find?, h1, h2, h3, h4]

theorem firstPreferred_mem (acceptable : List JsString) :
    firstPreferred acceptable ∈ preferredEncodings := by
  unfold firstPreferred preferredEncodings
  split
  · simp
  · split
    · simp
    · split <;> simp

theorem firstPreferred_congr (a b : List JsString) (h : ∀ e, e ∈ a ↔ e ∈ b) :
    firstPreferred a = firstPreferred b := by
  unfold firstPreferred
  simp only [h]

theorem fill_wellFormed (l : List (JsString × JsString)) :
    ∀ h h2 : Headers, h.WellFormed → Headers.fill h l = .ok h2 → h2.WellFormed := by
  induction l with
  | nil =>
    intro h h2 hw he
    simp only [Headers.fill] at he
    cases he
    exact hw
  | cons a t ih =>
    intro h h2 hw he
    obtain ⟨n, v⟩ := a
    simp only [Headers.fill, Headers.append, bind, Except.bind] at he
    by_cases hc : (isHeaderName n && isHeaderValue (normalizeValue v)) = true
    · rw [if_pos hc] at he
      simp only [] at he
      rw [Bool.and_eq_true] at hc
      apply ih _ h2 _ he
      intro p hp
      rcases List.mem_append.mp hp with hp | hp
      · exact hw p hp
      · rw [List.mem_singleton] at hp
        rw [hp]
        exact ⟨isHeaderName_lowerName n hc.1, lowerName_idem n, hc.2⟩
    · rw [if_neg hc] at he
      cases he

theorem ofEntries_wellFormed (l : List (JsString × JsString)) (h : Headers)
    (he : Headers.ofEntries l = .ok h) : h.WellFormed :=
  fill_wellFormed l Headers.empty h (by intro p hp; simp [Headers.empty] at hp) he

/-- The header list built by the two `set` calls at the end of both conversion functions:
its entries are accepted by `new Headers`, and the rebuilt object states the encoding. -/
theorem encoding_after_set (h0 : Headers) (hw : h0.WellFormed) (e : JsString)
    (he : e ∈ preferredEncodings) (n : Nat) :
    currentEncoding
      { body := [], status := 0,
        headers := ((h0.set "content-encoding".toList e).set "content-length".toList
          (decimal n)).entries } = .ok (some e) := by
  have hev : isHeaderValue e = true := by
    simp only [preferredEncodings, List.mem_cons, List.mem_singleton, List.not_mem_nil,
      or_false] at he
    rcases he with rfl | rfl | rfl | rfl <;> decide
  have hen : normalizeValue (normalizeValue e) = e := by
    simp only [preferredEncodings, List.mem_cons, List.mem_singleton, List.not_mem_nil,
      or_false] at he
    rcases he with rfl | rfl | rfl | rfl <;> decide
  have hw1 := wellFormed_set h0 "content-encoding".toList e hw (by decide) hev
  have hw2 := wellFormed_set _ "content-length".toList (decimal n) hw1 (by decide)
    (isHeaderValue_decimal n)
  have hvals : ((h0.set "content-encoding".toList e).set "content-length".toList
      (decimal n)).valuesOf "content-encoding".toList = [normalizeValue e] := by
    rw [valuesOf_set_other _ _ _ _ (by decide)]
    exact valuesOf_set_self h0 "content-encoding".toList e
  obtain ⟨h2, hok, hget⟩ := ofEntries_entries _ hw2
  have hmem : "content-encoding".toList ∈
      ((h0.set "content-encoding".toList e).set "content-length".toList
        (decimal n)).list.map (fun p => p.1) := by
    have := mem_valuesOf _ "content-encoding".toList (normalizeValue e)
      (by rw [hvals]; simp)
    exact List.mem_map.mpr ⟨_, this, rfl⟩
  have := hget "content-encoding".toList (by decide) (by decide) hmem
  rw [hvals, join_singleton, hen] at this
  simp only [currentEncoding, hok, bind, Except.bind, pure, Except.pure, this]

theorem compressData_preferred (z : Zlib) (text e : JsString) (he : e ∈ preferredEncodings) :
    compressData z text e = .ok (encodeWith z text e) := by
  simp only [preferredEncodings, List.mem_cons, List.mem_singleton, List.not_mem_nil,
    or_false] at he
  rcases he with rfl | rfl | rfl | rfl <;> rfl

theorem wellFormed_baseHeaders (x : RouteData) (hx : x.WellFormed) :
    x.baseHeaders.WellFormed := by
  cases x with
  | response r => exact hx
  | text s =>
    show (Headers.empty.set "content-type".toList "text/plain".toList).WellFormed
    decide
  | object j =>
    show (Headers.empty.set "content-type".toList "application/json".toList).WellFormed
    decide
  | other =>
    show Headers.empty.WellFormed
    decide

/-- What `convertToCacheableObject` returns for a non-empty list. -/
theorem convertToCacheableObject_eq (z : Zlib) (x : RouteData) (acceptable : List JsString)
    (hne : acceptable ≠ []) :
    convertToCacheableObject z x (some acceptable) =
      .ok { body := encodeWith z x.bodyText (firstPreferred acceptable),
            status := x.recordStatus,
            headers := ((x.baseHeaders.set "content-encoding".toList
              (firstPreferred acceptable)).set "content-length".toList
                (decimal (encodeWith z x.bodyText (firstPreferred acceptable)).length)).entries } := by
  cases acceptable with
  | nil => exact absurd rfl hne
  | cons e es =>
    have hc := fun t => compressData_preferred z t _ (firstPreferred_mem (e :: es))
    cases x <;>
      simp only [convertToCacheableObject, find_preferred, compressResponse, compressString, hc,
        bind, Except.bind, pure, Except.pure, RouteData.bodyText, RouteData.recordStatus,
        RouteData.baseHeaders]

theorem currentEncoding_congr (a b : ResponseCacheableObject) (h : a.headers = b.headers) :
    currentEncoding a = currentEncoding b := by
  unfold currentEncoding
  rw [h]

/-- The guard of `convertCacheableObject`: a record that states the expected encoding is
returned as it is. -/
theorem convertCacheableObject_of_current (z : Zlib) (r : ResponseCacheableObject)
    (acceptable : List JsString) (hne : acceptable ≠ [])
    (hcur : currentEncoding r = .ok (some (firstPreferred acceptable))) :
    convertCacheableObject z r (some acceptable) = .ok r := by
  cases acceptable with
  | nil => exact absurd rfl hne
  | cons e es =>
    unfold currentEncoding at hcur
    unfold convertCacheableObject
    cases ho : Headers.ofEntries r.headers with
    | error err => rw [ho] at hcur; cases hcur
    | ok h =>
      rw [ho] at hcur
      simp only [bind, Except.bind, pure, Except.pure] at hcur ⊢
      have hg := Except.ok.inj hcur
      simp only [find_preferred, hg, if_true]

/-- Whatever record `convertCacheableObject` returns states the expected encoding. -/
theorem convertCacheableObject_encoding (z : Zlib) (r r2 : ResponseCacheableObject)
    (acceptable : List JsString)
    (hok : convertCacheableObject z r (some acceptable) = .ok r2) :
    currentEncoding r2 = .ok (some (firstPreferred acceptable)) := by
  cases acceptable with
  | nil =>
    unfold convertCacheableObject at hok
    cases ho : Headers.ofEntries r.headers with
    | error err => rw [ho] at hok; cases hok
    | ok h => rw [ho] at hok; cases hok
  | cons e es =>
    unfold convertCacheableObject at hok
    cases ho : Headers.ofEntries r.headers with
    | error err => rw [ho] at hok; cases hok
    | ok h =>
      rw [ho] at hok
      simp only [bind, Except.bind, pure, Except.pure, find_preferred] at hok
      by_cases hg : h.get "content-encoding".toList = some (firstPreferred (e :: es))
      · rw [if_pos hg] at hok
        cases hok
        simp only [currentEncoding, ho, bind, Except.bind, pure, Except.pure, hg]
      · rw [if_neg hg] at hok
        cases hd : decompressCurrent z r.body (h.get "content-encoding".toList) with
        | error err => rw [hd] at hok; cases hok
        | ok d =>
          rw [hd] at hok
          simp only [] at hok
          cases hcz : compressExpected z d (firstPreferred (e :: es)) with
          | error err => rw [hcz] at hok; cases hok
          | ok c =>
            rw [hcz] at hok
            simp only [] at hok
            split at hok
            · cases hok
            · cases hok
              exact (currentEncoding_congr _ _ rfl).trans
                (encoding_after_set h (ofEntries_wellFormed _ _ ho) _ (firstPreferred_mem _)
                  c.length)

theorem ne_nil_of_mem_iff (a b : List JsString) (hne : a ≠ []) (h : ∀ e, e ∈ a ↔ e ∈ b) :
    b ≠ [] := by
  cases a with
  | nil => exact absurd rfl hne
  | cons x xs =>
    intro hb
    have := (h x).mp (by simp)
    rw [hb] at this
    simp at this

theorem convertCacheableObject_congr (z : Zlib) (r : ResponseCacheableObject)
    (a b : List JsString) (hne : a ≠ []) (h : ∀ e, e ∈ a ↔ e ∈ b) :
    convertCacheableObject z r (some b) = convertCacheableObject z r (some a) := by
  have hb := ne_nil_of_mem_iff a b hne h
  have hf := firstPreferred_congr a b h
  cases a with
  | nil => exact absurd rfl hne
  | cons x xs =>
    cases b with
    | nil => exact absurd rfl hb
    | cons y ys =>
      simp only [convertCacheableObject, find_preferred, hf]

/-! ## Encoding selection and reconciliation -/

/-- C7 (as amended): a record whose stated content encoding is the most preferred
acceptable one (the first of br, gzip, deflate, identity in the list, identity when none
is) is returned unchanged by `convertCacheableObject`. -/
theorem convertCacheableObject_unchanged_when_preferred (z : Zlib)
    (r : ResponseCacheableObject) (acceptable : List JsString) (hne : acceptable ≠ [])
    (hcur : currentEncoding r = .ok (some (firstPreferred acceptable))) :
    convertCacheableObject z r (some acceptable) = .ok r :=
  convertCacheableObject_of_current z r acceptable hne hcur

/-- Witness for C7: a brotli record, with gzip and brotli acceptable. -/
theorem convertCacheableObject_unchanged_when_preferred_witness :
    convertCacheableObject tagZlib brotliRecord (some [GZIP, BROTLI]) = .ok brotliRecord :=
  convertCacheableObject_unchanged_when_preferred tagZlib brotliRecord [GZIP, BROTLI]
    (by decide) (by decide)

/-- C7 (counterexample): a gzip record is not returned unchanged although gzip is in the
acceptable list, because the list also holds brotli: the body is recompressed and the
headers are rewritten. -/
theorem convertCacheableObject_recompresses_acceptable :
    currentEncoding gzipRecord = .ok (some GZIP) ∧ GZIP ∈ [GZIP, BROTLI] ∧
      convertCacheableObject tagZlib gzipRecord (some [GZIP, BROTLI]) = .ok brotliRecord ∧
      brotliRecord ≠ gzipRecord := by
  decide

/-- C8: for every handler result (string, object, other JSON value, or `Response` with a
well-formed header list) and every non-empty list, `convertToCacheableObject` returns a
record and `convertCacheableObject` with the same list returns that very record. -/
theorem convert_then_reconcile_same (z : Zlib) (x : RouteData) (acceptable : List JsString)
    (hne : acceptable ≠ []) (hx : x.WellFormed) :
    ∃ r, convertToCacheableObject z x (some acceptable) = .ok r ∧
      convertCacheableObject z r (some acceptable) = .ok r := by
  refine ⟨_, convertToCacheableObject_eq z x acceptable hne, ?_⟩
  apply convertCacheableObject_of_current z _ acceptable hne
  exact (currentEncoding_congr _ _ rfl).trans
    (encoding_after_set x.baseHeaders (wellFormed_baseHeaders x hx) _
      (firstPreferred_mem _) _)

/-- Witness for C8: a `Response` that already carries a content encoding, with gzip and
deflate acceptable. -/
theorem convert_then_reconcile_same_witness :
    ∃ r, convertToCacheableObject tagZlib (.response sampleResponse) (some [DEFLATE, GZIP])
        = .ok r ∧
      convertCacheableObject tagZlib r (some [DEFLATE, GZIP]) = .ok r :=
  convert_then_reconcile_same tagZlib (.response sampleResponse) [DEFLATE, GZIP]
    (by decide) (by decide)

/-- C9: for a non-empty list, the record `convertToCacheableObject` returns states, and is
compressed under, the first of br, gzip, deflate, identity that occurs in the list
(identity when none does); every record `convertCacheableObject` returns states that
encoding; and both functions give the same result for any list with the same members, in
whatever order. -/
theorem encoding_preference (z : Zlib) (x : RouteData) (r : ResponseCacheableObject)
    (acceptable : List JsString) (hne : acceptable ≠ []) (hx : x.WellFormed) :
    (∃ r1, convertToCacheableObject z x (some acceptable) = .ok r1 ∧
      currentEncoding r1 = .ok (some (firstPreferred acceptable)) ∧
      r1.body = encodeWith z x.bodyText (firstPreferred acceptable)) ∧
    (∀ r2, convertCacheableObject z r (some acceptable) = .ok r2 →
      currentEncoding r2 = .ok (some (firstPreferred acceptable))) ∧
    (∀ other, (∀ e, e ∈ acceptable ↔ e ∈ other) →
      convertToCacheableObject z x (some other) =
        convertToCacheableObject z x (some acceptable) ∧
      convertCacheableObject z r (some other) = convertCacheableObject z r (some acceptable)) ∧
    (BROTLI ∉ acceptable → GZIP ∉ acceptable → DEFLATE ∉ acceptable →
      firstPreferred acceptable = IDENTITY) := by
  refine ⟨⟨_, convertToCacheableObject_eq z x acceptable hne, ?_, rfl⟩, ?_, ?_, ?_⟩
  · exact (currentEncoding_congr _ _ rfl).trans
      (encoding_after_set x.baseHeaders (wellFormed_baseHeaders x hx) _
        (firstPreferred_mem _) _)
  · intro r2 h2
    exact convertCacheableObject_encoding z r r2 acceptable h2
  · intro other hm
    refine ⟨?_, convertCacheableObject_congr z r acceptable other hne hm⟩
    rw [convertToCacheableObject_eq z x other (ne_nil_of_mem_iff acceptable other hne hm),
      convertToCacheableObject_eq z x acceptable hne, firstPreferred_congr acceptable other hm]
  · intro h1 h2 h3
    simp only [firstPreferred, h1, h2, h3, if_false]

/-- Witness for C9: a string, a gzip record, and the list deflate, gzip. -/
theorem encoding_preference_witness :
    (∃ r1, convertToCacheableObject tagZlib (.text "hi".toList) (some [DEFLATE, GZIP]) = .ok r1 ∧
      currentEncoding r1 = .ok (some (firstPreferred [DEFLATE, GZIP])) ∧
      r1.body = encodeWith tagZlib (RouteData.text "hi".toList).bodyText
        (firstPreferred [DEFLATE, GZIP])) ∧
    (∀ r2, convertCacheableObject tagZlib brotliRecord (some [DEFLATE, GZIP]) = .ok r2 →
      currentEncoding r2 = .ok (some (firstPreferred [DEFLATE, GZIP]))) ∧
    (∀ other, (∀ e, e ∈ [DEFLATE, GZIP] ↔ e ∈ other) →
      convertToCacheableObject tagZlib (.text "hi".toList) (some other) =
        convertToCacheableObject tagZlib (.text "hi".toList) (some [DEFLATE, GZIP]) ∧
      convertCacheableObject tagZlib brotliRecord (some other) =
        convertCacheableObject tagZlib brotliRecord (some [DEFLATE, GZIP])) ∧
    (BROTLI ∉ [DEFLATE, GZIP] → GZIP ∉ [DEFLATE, GZIP] → DEFLATE ∉ [DEFLATE, GZIP] →
      firstPreferred [DEFLATE, GZIP] = IDENTITY) :=
  encoding_preference tagZlib (.text "hi".toList) brotliRecord [DEFLATE, GZIP]
    (by decide) (by decide)

/-! ## Lemmas: stable sorting -/

section StableSort

variable {α : Type} (r : α → α → Prop) [DecidableRel r]

theorem filter_orderedInsert (htrans : ∀ a b c, r a b → r b c → r a c) (x a : α)
    (l : List α) :
    (l.orderedInsert r a).filter (fun y => decide (r x y ∧ r y x)) =
      if r x a ∧ r a x then a :: l.filter (fun y => decide (r x y ∧ r y x))
      else l.filter (fun y => decide (r x y ∧ r y x)) := by
  induction l with
  | nil =>
    by_cases h : r x a ∧ r a x
    · simp [List.orderedInsert, h]
    · simp [List.orderedInsert, h]
  | cons b l ih =>
    rw [List.orderedInsert]
    by_cases hab : r a b
    · rw [if_pos hab]
      by_cases h : r x a ∧ r a x
      · rw [if_pos h, List.filter_cons_of_pos (by simpa using h)]
      · rw [if_neg h, List.filter_cons_of_neg (by simpa using h)]
    · rw [if_neg hab]
      by_cases hb : r x b ∧ r b x
      · have hna : ¬ (r x a ∧ r a x) := fun ha => hab (htrans a x b ha.2 hb.1)
        rw [List.filter_cons_of_pos (by simpa using hb), ih, if_neg hna, if_neg hna,
          List.filter_cons_of_pos (by simpa using hb)]
      · rw [List.filter_cons_of_neg (by simpa using hb), ih,
          List.filter_cons_of_neg (by simpa using hb)]

/-- Insertion sort is stable: it keeps the order within every class of equivalent
elements. -/
theorem filter_insertionSort (htrans : ∀ a b c, r a b → r b c → r a c) (x : α) (l : List α) :
    (l.insertionSort r).filter (fun y => decide (r x y ∧ r y x)) =
      l.filter (fun y => decide (r x y ∧ r y x)) := by
  induction l with
  | nil => rfl
  | cons a l ih =>
    rw [List.insertionSort, filter_orderedInsert r htrans, ih]
    by_cases h : r x a ∧ r a x
    · rw [if_pos h, List.filter_cons_of_pos (by simpa using h)]
    · rw [if_neg h, List.filter_cons_of_neg (by simpa using h)]

/-- Two sorted lists with the same elements in the same order within every class of
equivalent elements are equal. -/
theorem eq_of_sorted_of_filter_eq (htotal : ∀ a b, r a b ∨ r b a) :
    ∀ (s1 s2 : List α), s1.Sorted r → s2.Sorted r →
      (∀ x, s1.filter (fun y => decide (r x y ∧ r y x)) =
        s2.filter (fun y => decide (r x y ∧ r y x))) → s1 = s2 := by
  have hrefl : ∀ a, r a a := fun a => (htotal a a).elim id id
  intro s1
  induction s1 with
  | nil =>
    intro s2 _ _ hf
    cases s2 with
    | nil => rfl
    | cons b t =>
      have := hf b
      rw [List.filter_cons_of_pos (by simpa using hrefl b)] at this
      simp at this
  | cons a t1 ih =>
    intro s2 hs1 hs2 hf
    cases s2 with
    | nil =>
      have := hf a
      rw [List.filter_cons_of_pos (by simpa using hrefl a)] at this
      simp at this
    | cons b t2 =>
      have hs1c := List.sorted_cons.mp hs1
      have hs2c := List.sorted_cons.mp hs2
      have hfa := hf a
      rw [List.filter_cons_of_pos (by simpa using hrefl a)] at hfa
      have ha2 : a ∈ b :: t2 := by
        have : a ∈ (b :: t2).filter (fun y => decide (r a y ∧ r y a)) := by
          rw [← hfa]; simp
        exact (List.mem_filter.mp this).1
      have hfb := hf b
      rw [List.filter_cons_of_pos (a := b) (by simpa using hrefl b)] at hfb
      have hb1 : b ∈ a :: t1 := by
        have : b ∈ (a :: t1).filter (fun y => decide (r b y ∧ r y b)) := by
          rw [hfb]; simp
        exact (List.mem_filter.mp this).1
      have hab : r a b := by
        rcases List.mem_cons.mp hb1 with e | e
        · rw [e]; exact hrefl a
        · exact hs1c.1 b e
      have hba : r b a := by
        rcases List.mem_cons.mp ha2 with e | e
        · rw [e]; exact hrefl b
        · exact hs2c.1 a e
      rw [List.filter_cons_of_pos (a := b) (by simpa using And.intro hab hba)] at hfa
      have e : a = b := (List.cons.inj hfa).1
      subst e
      congr 1
      apply ih t2 hs1c.2 hs2c.2
      intro x
      have := hf x
      by_cases hx : r x a ∧ r a x
      · rw [List.filter_cons_of_pos (by simpa using hx),
          List.filter_cons_of_pos (by simpa using hx)] at this
        exact (List.cons.inj this).2
      · rw [List.filter_cons_of_neg (by simpa using hx),
          List.filter_cons_of_neg (by simpa using hx)] at this
        exact this

/-- The result of a stable sort depends only on the order within the classes. -/
theorem insertionSort_eq_of_filter_eq (htotal : ∀ a b, r a b ∨ r b a)
    (htrans : ∀ a b c, r a b → r b c → r a c) (l1 l2 : List α)
    (hf : ∀ x, l1.filter (fun y => decide (r x y ∧ r y x)) =
      l2.filter (fun y => decide (r x y ∧ r y x))) :
    l1.insertionSort r = l2.insertionSort r := by
  haveI : IsTotal α r := ⟨htotal⟩
  haveI : IsTrans α r := ⟨htrans⟩
  apply eq_of_sorted_of_filter_eq r htotal _ _ (List.sorted_insertionSort r l1)
    (List.sorted_insertionSort r l2)
  intro x
  rw [filter_insertionSort r htrans, filter_insertionSort r htrans, hf x]

/-- Two permutations of one another in which equivalent elements are equal have the same
order within every class. -/
theorem filter_eq_of_perm (htrans : ∀ a b c, r a b → r b c → r a c) (l1 l2 : List α)
    (hperm : l1.Perm l2) (hd : ∀ p ∈ l1, ∀ q ∈ l1, r p q → r q p → p = q) (x : α) :
    l1.filter (fun y => decide (r x y ∧ r y x)) =
      l2.filter (fun y => decide (r x y ∧ r y x)) := by
  have hp := hperm.filter (fun y => decide (r x y ∧ r y x))
  generalize hf1 : l1.filter (fun y => decide (r x y ∧ r y x)) = f1 at hp
  generalize hf2 : l2.filter (fun y => decide (r x y ∧ r y x)) = f2 at hp
  have hall : ∀ p ∈ f1, ∀ q ∈ f1, p = q := by
    intro p hp1 q hq1
    rw [← hf1, List.mem_filter] at hp1 hq1
    have h1 : r x p ∧ r p x := by simpa using hp1.2
    have h2 : r x q ∧ r q x := by simpa using hq1.2
    exact hd p hp1.1 q hq1.1 (htrans p x q h1.2 h2.1) (htrans q x p h2.2 h1.1)
  cases f1 with
  | nil => exact (List.Perm.nil_eq hp)
  | cons c t =>
    have e1 : c :: t = List.replicate (c :: t).length c :=
      List.eq_replicate_iff.mpr ⟨rfl, fun b hb => hall b hb c (by simp)⟩
    have e2 : f2 = List.replicate f2.length c :=
      List.eq_replicate_iff.mpr ⟨rfl, fun b hb => hall b (hp.mem_iff.mpr hb) c (by simp)⟩
    rw [e1, e2, hp.length_eq]

end StableSort

/-! ## Lemmas: fingerprints -/

theorem codePointLe_refl (a : JsString) : codePointLe a a = true := by
  induction a with
  | nil => rfl
  | cons c cs ih => simp [codePointLe, ih]

theorem codePointLe_total (a : JsString) :
    ∀ b, codePointLe a b = true ∨ codePointLe b a = true := by
  induction a with
  | nil => intro b; exact Or.inl (by simp [codePointLe])
  | cons c cs ih =>
    intro b
    cases b with
    | nil => exact Or.inr (by simp [codePointLe])
    | cons d ds =>
      simp only [codePointLe, Bool.or_eq_true, Bool.and_eq_true, decide_eq_true_eq]
      rcases Nat.lt_trichotomy c.toNat d.toNat with h | h | h
      · exact Or.inl (Or.inl h)
      · rcases ih ds with h2 | h2
        · exact Or.inl (Or.inr ⟨h, h2⟩)
        · exact Or.inr (Or.inr ⟨h.symm, h2⟩)
      · exact Or.inr (Or.inl h)

theorem codePointLe_trans (a : JsString) :
    ∀ b c, codePointLe a b = true → codePointLe b c = true → codePointLe a c = true := by
  induction a with
  | nil => intro b c _ _; simp [codePointLe]
  | cons x xs ih =>
    intro b c hab hbc
    cases b with
    | nil => simp [codePointLe] at hab
    | cons y ys =>
      cases c with
      | nil => simp [codePointLe] at hbc
      | cons w ws =>
        simp only [codePointLe, Bool.or_eq_true, Bool.and_eq_true, decide_eq_true_eq]
          at hab hbc ⊢
        rcases hab with h1 | ⟨h1, h1l⟩
        · rcases hbc with h2 | ⟨h2, _⟩
          · exact Or.inl (by omega)
          · exact Or.inl (by omega)
        · rcases hbc with h2 | ⟨h2, h2l⟩
          · exact Or.inl (by omega)
          · exact Or.inr ⟨by omega, ih ys ws h1l h2l⟩

theorem codePointCompare_le (a b : JsString) :
    codePointCompare a b ≤ 0 ↔ codePointLe a b = true := by
  unfold codePointCompare
  by_cases h : a = b
  · rw [if_pos h, h]
    simp [codePointLe_refl]
  · rw [if_neg h]
    by_cases h2 : codePointLe a b = true
    · simp [h2]
    · simp [h2]

theorem codePointCompare_total (a b : JsString) :
    codePointCompare a b ≤ 0 ∨ codePointCompare b a ≤ 0 := by
  rw [codePointCompare_le, codePointCompare_le]
  exact codePointLe_total a b

theorem codePointCompare_trans (a b c : JsString) (h1 : codePointCompare a b ≤ 0)
    (h2 : codePointCompare b c ≤ 0) : codePointCompare a c ≤ 0 := by
  rw [codePointCompare_le] at *
  exact codePointLe_trans a b c h1 h2

/-- The sorted parameter list does not depend on the order of the parameters, as long as
parameters with equivalent names are equal. -/
theorem sortByName_perm (host : Host) (l1 l2 : List (JsString × JsString))
    (htotal : ∀ a b, host.localeCompare a b ≤ 0 ∨ host.localeCompare b a ≤ 0)
    (htrans : ∀ a b c, host.localeCompare a b ≤ 0 → host.localeCompare b c ≤ 0 →
      host.localeCompare a c ≤ 0)
    (hperm : l1.Perm l2)
    (hrep : ∀ p ∈ l1, ∀ q ∈ l1, host.localeCompare p.1 q.1 ≤ 0 →
      host.localeCompare q.1 p.1 ≤ 0 → p = q) :
    sortByName host l1 = sortByName host l2 := by
  unfold sortByName
  exact insertionSort_eq_of_filter_eq
    (fun (a b : JsString × JsString) => host.localeCompare a.1 b.1 ≤ 0)
    (fun a b => htotal a.1 b.1) (fun a b c => htrans a.1 b.1 c.1) l1 l2
    (fun x => filter_eq_of_perm
      (fun (a b : JsString × JsString) => host.localeCompare a.1 b.1 ≤ 0)
      (fun a b c => htrans a.1 b.1 c.1) l1 l2 hperm hrep x)

theorem fill_list (l : List (JsString × JsString)) :
    ∀ h h2 : Headers, Headers.fill h l = .ok h2 →
      h2.list = h.list ++ l.map (fun p => (lowerName p.1, normalizeValue p.2)) := by
  induction l with
  | nil =>
    intro h h2 he
    simp only [Headers.fill] at he
    cases he
    simp
  | cons a t ih =>
    intro h h2 he
    obtain ⟨n, v⟩ := a
    simp only [Headers.fill, Headers.append, bind, Except.bind] at he
    by_cases hc : (isHeaderName n && isHeaderValue (normalizeValue v)) = true
    · rw [if_pos hc] at he
      simp only [] at he
      rw [ih _ h2 he]
      simp
    · rw [if_neg hc] at he
      cases he

/-- The values `new Headers(list)` holds under a name come from the pairs of that name. -/
theorem valuesOf_ofEntries (l : List (JsString × JsString)) (h : Headers)
    (he : Headers.ofEntries l = .ok h) (n : JsString) :
    h.valuesOf n =
      (l.filter (fun p => lowerName p.1 = n)).map (fun p => normalizeValue p.2) := by
  have hl := fill_list l Headers.empty h he
  simp only [Headers.empty, List.nil_append] at hl
  unfold Headers.valuesOf
  rw [hl, List.filter_map, List.map_map]
  rfl

/-- The header part of the fingerprint reads only the two named headers. -/
theorem getHeadersId_congr (host : Host) (r1 r2 : Request) (hw1 : r1.WellFormed)
    (hw2 : r2.WellFormed)
    (hu : r1.headersNamed "x-unique-id".toList = r2.headersNamed "x-unique-id".toList)
    (ha : r1.headersNamed "authorization".toList = r2.headersNamed "authorization".toList) :
    getHeadersId host r1 = getHeadersId host r2 ∧ ∃ id, getHeadersId host r1 = .ok id := by
  have o1 := fill_ok r1.headers Headers.empty hw1
  have o2 := fill_ok r2.headers Headers.empty hw2
  have v1 := fun n => valuesOf_ofEntries r1.headers _ o1 n
  have v2 := fun n => valuesOf_ofEntries r2.headers _ o2 n
  unfold Request.headersNamed at hu ha
  have e1 : (Headers.mk (Headers.empty.list ++ r1.headers.map
      (fun p => (lowerName p.1, normalizeValue p.2)))).get "x-unique-id".toList =
      (Headers.mk (Headers.empty.list ++ r2.headers.map
      (fun p => (lowerName p.1, normalizeValue p.2)))).get "x-unique-id".toList := by
    unfold Headers.get
    rw [v1, v2]
    have : lowerName "x-unique-id".toList = "x-unique-id".toList := by decide
    rw [this, hu]
  have e2 : (Headers.mk (Headers.empty.list ++ r1.headers.map
      (fun p => (lowerName p.1, normalizeValue p.2)))).get "authorization".toList =
      (Headers.mk (Headers.empty.list ++ r2.headers.map
      (fun p => (lowerName p.1, normalizeValue p.2)))).get "authorization".toList := by
    unfold Headers.get
    rw [v1, v2]
    have : lowerName "authorization".toList = "authorization".toList := by decide
    rw [this, ha]
  unfold getHeadersId Headers.ofEntries
  rw [o1, o2]
  simp only [bind, Except.bind, pure, Except.pure, e1, e2]
  exact ⟨trivial, _, rfl⟩

theorem getRequestId_eq (host : Host) (req : Request) (useBodyText : Bool) :
    getRequestId host req useBodyText =
      match requestUrl host req with
      | .error e => .error e
      | .ok pq =>
        match getHeadersId host req with
        | .error e => .error e
        | .ok headersId =>
          .ok ("req:".toList ++ hash host (join [':']
            ([urlKey host pq, if useBodyText then getBodyId host req else [], headersId].filter
              (fun s => !s.isEmpty)))) := by
  unfold getRequestId requestUrl
  cases hf : getFullUrl host req with
  | error e => rfl
  | ok fullUrl =>
    simp only [bind, Except.bind, getUrlId, newURLOf]
    cases hu : host.newURL fullUrl none with
    | error e => rfl
    | ok urlObj =>
      simp only [pure, Except.pure]
      cases hh : getHeadersId host req with
      | error e => rfl
      | ok headersId => rfl

/-! ## Fingerprints -/

/-- C4 (as amended): for a comparator that is a total preorder, two URLs with the same path
whose query parameters are permutations of one another, and in which any two parameters
with equivalent names are the same pair (so no name is repeated with different values),
get the same key from `getUrlId`. -/
theorem getUrlId_order_independent (host : Host) (u1 u2 : URL) (urlPrefix : JsString)
    (htotal : ∀ a b, host.localeCompare a b ≤ 0 ∨ host.localeCompare b a ≤ 0)
    (htrans : ∀ a b c, host.localeCompare a b ≤ 0 → host.localeCompare b c ≤ 0 →
      host.localeCompare a c ≤ 0)
    (hpath : u1.pathname = u2.pathname)
    (hperm : u1.searchParams.Perm u2.searchParams)
    (hrep : ∀ p ∈ u1.searchParams, ∀ q ∈ u1.searchParams, host.localeCompare p.1 q.1 ≤ 0 →
      host.localeCompare q.1 p.1 ≤ 0 → p = q) :
    ∃ key, getUrlId host (.url u1) urlPrefix = .ok key ∧
      getUrlId host (.url u2) urlPrefix = .ok key := by
  refine ⟨_, rfl, ?_⟩
  simp only [getUrlId, newURLOf, bind, Except.bind, pure, Except.pure, hpath,
    sortByName_perm host _ _ htotal htrans hperm hrep]

/-- Witness for C4: the two URLs of the fingerprint test. -/
theorem getUrlId_order_independent_witness :
    ∃ key, getUrlId exampleHost (.url unsortedUrl) [] = .ok key ∧
      getUrlId exampleHost (.url sortedUrl) [] = .ok key :=
  getUrlId_order_independent exampleHost unsortedUrl sortedUrl []
    codePointCompare_total codePointCompare_trans (by decide) (by decide) (by decide)

/-- C4 (counterexample): two URLs that differ only in the order of their two parameters,
both named `a`, are hashed from different texts (shown by the hash that returns its
input) and get different keys. -/
theorem getUrlId_repeated_name_order :
    repeatedOneTwo.pathname = repeatedTwoOne.pathname ∧
      repeatedOneTwo.searchParams.Perm repeatedTwoOne.searchParams ∧
      getUrlId traceHost (.url repeatedOneTwo) [] = .ok "u:/items?a=1&a=2".toList ∧
      getUrlId traceHost (.url repeatedTwoOne) [] = .ok "u:/items?a=2&a=1".toList ∧
      getUrlId exampleHost (.url repeatedOneTwo) [] ≠
        getUrlId exampleHost (.url repeatedTwoOne) [] := by
  decide

/-- C5 (amended): two requests with well-formed headers whose URLs resolve (`getFullUrl`,
then `new URL`) to the same path and query, which have the same body text and carry the
same `x-unique-id` and `authorization` headers, get the same key from `getRequestId`,
whatever their other headers are. The headers `getFullUrl` reads decide whether there is a
key at all: for a request whose URL does not resolve `getRequestId` throws what the URL
parser throws. -/
theorem getRequestId_reads_two_headers (host : Host) (r1 r2 : Request) (useBodyText : Bool)
    (pq : JsString × List (JsString × JsString))
    (hw1 : r1.WellFormed) (hw2 : r2.WellFormed)
    (hu : r1.headersNamed "x-unique-id".toList = r2.headersNamed "x-unique-id".toList)
    (ha : r1.headersNamed "authorization".toList = r2.headersNamed "authorization".toList)
    (hbody : getBodyAsText r1 = getBodyAsText r2)
    (h1 : requestUrl host r1 = .ok pq) (h2 : requestUrl host r2 = .ok pq) :
    (∃ key, getRequestId host r1 useBodyText = .ok key ∧
      getRequestId host r2 useBodyText = .ok key) ∧
    (∀ (r : Request) (e : String), requestUrl host r = .error e →
      getRequestId host r useBodyText = .error e) := by
  obtain ⟨hh, id, hid⟩ := getHeadersId_congr host r1 r2 hw1 hw2 hu ha
  have hb : getBodyId host r1 = getBodyId host r2 := by
    unfold getBodyId
    rw [hbody]
  have e1 : getRequestId host r1 useBodyText =
      .ok ("req:".toList ++ hash host (join [':']
        ([urlKey host pq, if useBodyText then getBodyId host r1 else [], id].filter
          (fun s => !s.isEmpty)))) := by
    rw [getRequestId_eq, h1, hid]
  have e2 : getRequestId host r2 useBodyText =
      .ok ("req:".toList ++ hash host (join [':']
        ([urlKey host pq, if useBodyText then getBodyId host r1 else [], id].filter
          (fun s => !s.isEmpty)))) := by
    rw [getRequestId_eq, h2, ← hh, hid, hb]
  refine ⟨⟨_, e1, e2⟩, ?_⟩
  intro r e he
  rw [getRequestId_eq, he]

/-- Witness for C5: a request through a proxy and the same request sent directly. -/
theorem getRequestId_reads_two_headers_witness :
    (∃ key, getRequestId exampleHost proxiedRequest false = .ok key ∧
      getRequestId exampleHost directRequest false = .ok key) ∧
    (∀ (r : Request) (e : String), requestUrl exampleHost r = .error e →
      getRequestId exampleHost r false = .error e) :=
  getRequestId_reads_two_headers exampleHost proxiedRequest directRequest false
    ("/items".toList, [("b".toList, "2".toList), ("a".toList, "1".toList)])
    (by decide) (by decide) (by decide) (by decide) (by decide) (by decide) (by decide)

/-- C5 (counterexample): two requests with the same request target, method, body,
`x-unique-id` and `authorization` that differ only in the value of the `host` header. One
gets a key (shown with the hash that returns its input); for the other `getRequestId`
throws, because `getFullUrl` builds the URL from the `host` header and the URL parser
rejects a host with a space. -/
theorem getRequestId_depends_on_host_header :
    directRequest.url = spacedHostRequest.url ∧
    directRequest.method = spacedHostRequest.method ∧
    directRequest.body = spacedHostRequest.body ∧
    directRequest.headers.filter (fun p => p.1 ≠ "host".toList) =
      spacedHostRequest.headers.filter (fun p => p.1 ≠ "host".toList) ∧
    directRequest.WellFormed ∧ spacedHostRequest.WellFormed ∧
    getRequestId traceHost directRequest false =
      .ok "req:u:/items?a=1&b=2:h:tenant-1:Bearer t".toList ∧
    getRequestId traceHost spacedHostRequest false = .error "TypeError: Invalid URL" := by
  decide

/-! ## The size bound of the store -/

theorem totalSize_evictUntil (budget : Nat) (l : List StoreEntry) :
    totalSize (evictUntil budget l) ≤ budget := by
  induction l with
  | nil => simp [evictUntil, totalSize]
  | cons e rest ih =>
    unfold evictUntil
    split
    · assumption
    · exact ih

theorem totalSize_append (a b : List StoreEntry) :
    totalSize (a ++ b) = totalSize a + totalSize b := by
  simp [totalSize]

theorem totalSize_filter_le (p : StoreEntry → Bool) (l : List StoreEntry) :
    totalSize (l.filter p) ≤ totalSize l := by
  induction l with
  | nil => simp
  | cons e rest ih =>
    by_cases h : p e = true
    · rw [List.filter_cons_of_pos h]
      simp only [totalSize, List.map_cons, List.sum_cons] at ih ⊢
      omega
    · rw [List.filter_cons_of_neg h]
      simp only [totalSize, List.map_cons, List.sum_cons] at ih ⊢
      omega

theorem options_set (c : LRUCache) (k : JsString) (v : ResponseCacheableObject) :
    (c.set k v).options = c.options := by
  unfold LRUCache.set
  simp only []
  split <;> rfl

theorem calculatedSize_set (c : LRUCache) (k : JsString) (v : ResponseCacheableObject)
    (h : c.calculatedSize ≤ c.options.maxSize) :
    (c.set k v).calculatedSize ≤ (c.set k v).options.maxSize := by
  rw [options_set]
  unfold LRUCache.set LRUCache.calculatedSize at *
  simp only []
  split
  · exact Nat.le_trans (totalSize_filter_le _ _) h
  · rename_i hs
    simp only [totalSize_append]
    have := totalSize_evictUntil (c.options.maxSize - c.options.sizeCalculation v)
      (c.entries.filter (fun e => e.key ≠ k))
    simp only [totalSize, List.map_cons, List.map_nil, List.sum_cons, List.sum_nil] at this ⊢
    omega

theorem setAll_bound (calls : List (JsString × ResponseCacheableObject)) :
    ∀ c : LRUCache, c.calculatedSize ≤ c.options.maxSize →
      (c.setAll calls).calculatedSize ≤ c.options.maxSize ∧
        (c.setAll calls).options = c.options := by
  induction calls with
  | nil => intro c h; exact ⟨h, rfl⟩
  | cons kv rest ih =>
    intro c h
    have h1 := calculatedSize_set c kv.1 kv.2 h
    have := ih (c.set kv.1 kv.2) h1
    rw [options_set] at this
    exact this

theorem peek_set_oversized (c : LRUCache) (k : JsString) (v : ResponseCacheableObject)
    (h : c.options.maxSize < c.options.sizeCalculation v) : (c.set k v).peek k = none := by
  unfold LRUCache.set LRUCache.peek
  simp only [if_pos h]
  rw [Option.map_eq_none', List.find?_eq_none]
  intro e he
  have := (List.mem_filter.mp he).2
  simpa using this

/-- C6: after every sequence of `set` calls on the store built with options
`{maxSize, sizeCalculation, allowStale}`, the total accounted size of the entries held is
at most `maxSize`, and a `set` of a record whose accounted size alone exceeds `maxSize`
leaves nothing stored under its key and keeps the bound. -/
theorem store_size_bound (options : CacheOptions)
    (calls : List (JsString × ResponseCacheableObject)) (key : JsString)
    (value : ResponseCacheableObject) :
    ((LRUCache.new options).setAll calls).calculatedSize ≤ options.maxSize ∧
      (options.maxSize < options.sizeCalculation value →
        (((LRUCache.new options).setAll calls).set key value).peek key = none ∧
        (((LRUCache.new options).setAll calls).set key value).calculatedSize
          ≤ options.maxSize) := by
  have h0 : (LRUCache.new options).calculatedSize ≤ (LRUCache.new options).options.maxSize := by
    simp [LRUCache.new, LRUCache.calculatedSize, totalSize]
  obtain ⟨hb, ho⟩ := setAll_bound calls (LRUCache.new options) h0
  refine ⟨hb, ?_⟩
  intro hbig
  have hopt : ((LRUCache.new options).setAll calls).options = options := ho
  refine ⟨peek_set_oversized _ key value (by rw [hopt]; exact hbig), ?_⟩
  have := calculatedSize_set ((LRUCache.new options).setAll calls) key value
    (by rw [hopt]; exact hb)
  rw [options_set, hopt] at this
  exact this

/-- An example of eviction: with room for 100 bytes, three records of 52 bytes (2 of body
and 50 of overhead) leave only the last one in the store, and a record of 101 bytes is
not stored. -/
theorem store_evicts_least_recent :
    (((LRUCache.new tinyOptions).setAll
      [("a".toList, { body := [0, 0], status := 200, headers := [] }),
       ("b".toList, { body := [1, 1], status := 200, headers := [] }),
       ("c".toList, { body := [2, 2], status := 200, headers := [] })]).entries.map
        (fun e => (e.key, e.size))) = [("c".toList, 52)] ∧
    (((LRUCache.new tinyOptions).set "a".toList
        { body := [0, 0], status := 200, headers := [] }).set "d".toList
        { body := List.replicate 51 7, status := 200, headers := [] }).entries.map
        (fun e => (e.key, e.size)) = [("a".toList, 52)] := by
  decide

/-! ## The server: dedup set and fail-safe deletion -/

theorem peek_delete (c : LRUCache) (k : JsString) : (c.delete k).peek k = none := by
  unfold LRUCache.delete LRUCache.peek
  simp only []
  rw [Option.map_eq_none', List.find?_eq_none]
  intro e he
  have := (List.mem_filter.mp he).2
  simpa using this

theorem not_mem_setDelete (s : List JsString) (k : JsString) : k ∉ setDelete s k := by
  unfold setDelete
  intro h
  have := (List.mem_filter.mp h).2
  simp at this

theorem request_of_peek_none (s : Server) (k : JsString) (acceptable : List JsString)
    (h : s.cache.peek k = none) :
    (s.request k acceptable false).tasks =
        s.tasks ++ [{ key := k, kind := .foreground acceptable, awaiting := .handler }] ∧
      (s.request k acceptable false).originCalls = s.originCalls + 1 := by
  unfold LRUCache.peek at h
  rw [Option.map_eq_none'] at h
  unfold Server.request LRUCache.get
  rw [h]
  exact ⟨rfl, rfl⟩

theorem refreshFailed_spec (s : Server) (k : JsString) :
    (s.refreshFailed k).cache.peek k = none ∧ k ∉ (s.refreshFailed k).bgRequests ∧
      (s.refreshFailed k).tasks = s.tasks ∧ (s.refreshFailed k).originCalls = s.originCalls :=
  ⟨peek_delete _ _, not_mem_setDelete _ _, rfl, rfl⟩

theorem resume_refresh_fails (z : Zlib) (s : Server) (i : Nat) (t : Task)
    (result : Except String RouteData) (now : JsString)
    (ht : s.tasks.get? i = some t) (hk : t.kind = .refresh)
    (hf : refreshFails z t result = true) :
    Server.resume z s i result now =
      Server.refreshFailed { s with tasks := s.tasks.eraseIdx i } t.key := by
  unfold Server.resume
  rw [ht]
  simp only []
  obtain ⟨key, kind, awaiting⟩ := t
  simp only at hk
  subst hk
  unfold refreshFails at hf
  cases awaiting with
  | handler =>
    cases result with
    | ok d => simp [failed] at hf
    | error e => rfl
  | encode d =>
    simp only at hf ⊢
    cases hc : convertToCacheableObject z d (some [BROTLI]) with
    | ok r => rw [hc] at hf; simp [failed] at hf
    | error e => rfl
  | write settled =>
    cases settled with
    | ok u => simp [failed] at hf
    | error e => rfl

/-- C3: when the resumption of a background revalidation for a key ends it with a failure
(the origin handler threw, or the encoding or the cache write did), the store afterwards
holds no entry for the key, the key is not in `bgRequests`, the revalidation is gone, and
the next request for the key calls the origin handler itself and waits for what it
returns. -/
theorem refresh_failure_deletes (z : Zlib) (s : Server) (i : Nat) (t : Task)
    (result : Except String RouteData) (now : JsString) (acceptable : List JsString)
    (ht : s.tasks.get? i = some t) (hk : t.kind = .refresh)
    (hf : refreshFails z t result = true) :
    (Server.resume z s i result now).cache.peek t.key = none ∧
      t.key ∉ (Server.resume z s i result now).bgRequests ∧
      (Server.resume z s i result now).tasks = s.tasks.eraseIdx i ∧
      ((Server.resume z s i result now).request t.key acceptable false).tasks =
        s.tasks.eraseIdx i ++
          [{ key := t.key, kind := .foreground acceptable, awaiting := .handler }] ∧
      ((Server.resume z s i result now).request t.key acceptable false).originCalls =
        s.originCalls + 1 := by
  rw [resume_refresh_fails z s i t result now ht hk hf]
  obtain ⟨h1, h2, h3, h4⟩ := refreshFailed_spec { s with tasks := s.tasks.eraseIdx i } t.key
  obtain ⟨h5, h6⟩ := request_of_peek_none _ t.key acceptable h1
  refine ⟨h1, h2, h3, ?_, ?_⟩
  · rw [h5, h3]
  · rw [h6, h4]

/-- Witness for C3: the origin handler of the revalidation started by the first hit
throws. -/
theorem refresh_failure_deletes_witness :
    (Server.resume tagZlib afterFirstHit 0 (.error "Simulated server error on revalidation")
        []).cache.peek exampleKey = none ∧
      exampleKey ∉ (Server.resume tagZlib afterFirstHit 0
        (.error "Simulated server error on revalidation") []).bgRequests ∧
      (Server.resume tagZlib afterFirstHit 0
        (.error "Simulated server error on revalidation") []).tasks =
          afterFirstHit.tasks.eraseIdx 0 ∧
      ((Server.resume tagZlib afterFirstHit 0
        (.error "Simulated server error on revalidation") []).request exampleKey
          [IDENTITY] false).tasks =
        afterFirstHit.tasks.eraseIdx 0 ++
          [{ key := exampleKey, kind := .foreground [IDENTITY], awaiting := .handler }] ∧
      ((Server.resume tagZlib afterFirstHit 0
        (.error "Simulated server error on revalidation") []).request exampleKey
          [IDENTITY] false).originCalls = afterFirstHit.originCalls + 1 :=
  refresh_failure_deletes tagZlib afterFirstHit 0
    { key := exampleKey, kind := .refresh, awaiting := .handler }
    (.error "Simulated server error on revalidation") [] [IDENTITY] (by decide) (by decide)
    (by decide)

/-- C2 (the code at the failing input): a second hit for a key whose revalidation is
waiting starts no revalidation but removes the key from `bgRequests`, and a third hit then
starts a second revalidation, so two are in flight for the key and the origin handler has
been called twice. -/
theorem third_hit_starts_second_refresh :
    (afterFirstHit.refreshesInFlight exampleKey).length = 1 ∧
      exampleKey ∈ afterFirstHit.bgRequests ∧
      (afterSecondHit.refreshesInFlight exampleKey).length = 1 ∧
      exampleKey ∉ afterSecondHit.bgRequests ∧
      (afterThirdHit.refreshesInFlight exampleKey).length = 2 ∧
      afterThirdHit.originCalls = 2 := by
  decide

/-- A hit for a key that is in `bgRequests` starts nothing and takes the key out of
`bgRequests`, whatever is still in flight for it. -/
theorem hit_while_key_present (s : Server) (k : JsString) (acceptable : List JsString)
    (data : ResponseCacheableObject) (hpeek : s.cache.peek k = some data)
    (hbody : data.body.length ≠ 0) (hin : k ∈ s.bgRequests) (threw : Bool) :
    k ∉ (s.request k acceptable threw).bgRequests ∧
      (s.request k acceptable threw).tasks = s.tasks ∧
      (s.request k acceptable threw).originCalls = s.originCalls := by
  unfold LRUCache.peek at hpeek
  rw [Option.map_eq_some'] at hpeek
  obtain ⟨e, he, hv⟩ := hpeek
  unfold Server.request LRUCache.get
  rw [he]
  simp only [hv, hbody, ne_eq, not_false_eq_true, if_true, hin]
  cases Headers.ofEntries data.headers with
  | ok h => exact ⟨not_mem_setDelete _ _, rfl, rfl⟩
  | error err => exact ⟨not_mem_setDelete _ _, rfl, rfl⟩

/-- A hit for a key that is not in `bgRequests` starts a revalidation: the key is added and
the origin handler is called (here its call returns). -/
theorem hit_while_key_absent (s : Server) (k : JsString) (acceptable : List JsString)
    (data : ResponseCacheableObject) (hpeek : s.cache.peek k = some data)
    (hbody : data.body.length ≠ 0) (hout : k ∉ s.bgRequests) :
    k ∈ (s.request k acceptable false).bgRequests ∧
      (s.request k acceptable false).tasks =
        s.tasks ++ [{ key := k, kind := .refresh, awaiting := .handler }] ∧
      (s.request k acceptable false).originCalls = s.originCalls + 1 := by
  unfold LRUCache.peek at hpeek
  rw [Option.map_eq_some'] at hpeek
  obtain ⟨e, he, hv⟩ := hpeek
  have hadd : k ∈ setAdd s.bgRequests k := by
    unfold setAdd
    rw [if_neg hout]
    simp
  unfold Server.request LRUCache.get
  rw [he]
  simp only [hv, hbody, ne_eq, not_false_eq_true, if_true, hout, if_false]
  cases Headers.ofEntries data.headers with
  | ok h => exact ⟨hadd, rfl, rfl⟩
  | error err => exact ⟨hadd, rfl, rfl⟩
/-! ## Argument checks -/

/-- C12: `serializeToFile` rejects exactly when the entries are `null`/`undefined` or empty, or
the file name is `null`/`undefined` or empty: with the message `data is required` for missing
entries, whatever the file name, and `filename is required` for a missing file name with
entries present. A rejection carries no file system, so nothing has been written; otherwise
the call fulfils. -/
theorem serializeToFile_rejects_missing_arguments (fs : FileSystem)
    (data : Option (List DataArray)) (filename : Option JsString) :
    ((data = none ∨ data = some []) →
        serializeToFile fs data filename = .error "data is required") ∧
      ((filename = none ∨ filename = some []) → ¬ (data = none ∨ data = some []) →
        serializeToFile fs data filename = .error "filename is required") ∧
      ((∃ message, serializeToFile fs data filename = .error message) ↔
        (data = none ∨ data = some [] ∨ filename = none ∨ filename = some [])) := by
  rcases data with _ | _ | ⟨item, rest⟩
  · simp [serializeToFile]
  · simp [serializeToFile]
  · rcases filename with _ | _ | ⟨c, cs⟩
    · simp [serializeToFile]
    · simp [serializeToFile]
    · have : ∀ message, serializeToFile fs (some (item :: rest)) (some (c :: cs)) ≠
          .error message := by
        intro message
        simp only [serializeToFile]
        split <;> simp
      simp [this]

/-- C13: `convertToCacheableObject` throws the encoding-list error exactly when the list of
acceptable encodings is `null` or empty, for every handler result; the outcome is then the
same whatever the compressors are, so none of them has been run. -/
theorem convertToCacheableObject_requires_encodings (z : Zlib) (data : RouteData)
    (acceptableEncodings : Option (List JsString)) :
    (convertToCacheableObject z data acceptableEncodings =
        .error "Please provide array of acceptable encodings" ↔
      (acceptableEncodings = none ∨ acceptableEncodings = some [])) ∧
    ((acceptableEncodings = none ∨ acceptableEncodings = some []) →
      ∀ z2 : Zlib, convertToCacheableObject z2 data acceptableEncodings =
        .error "Please provide array of acceptable encodings") := by
  rcases acceptableEncodings with _ | _ | ⟨e, es⟩
  · simp [convertToCacheableObject]
  · simp [convertToCacheableObject]
  · rw [convertToCacheableObject_eq z data (e :: es) (by simp)]
    simp
/-! ## More about the two conversion functions -/

theorem dropWhile_of_all_not (p : Char → Bool) (l : List Char)
    (h : ∀ c ∈ l, p c = false) : l.dropWhile p = l := by
  cases l with
  | nil => rfl
  | cons a t => simp [List.dropWhile, h a (by simp)]

theorem normalizeValue_of_no_whitespace (v : JsString)
    (h : ∀ c ∈ v, isHttpWhitespace c = false) : normalizeValue v = v := by
  unfold normalizeValue
  rw [dropWhile_of_all_not _ v h, dropWhile_of_all_not _ v.reverse
    (fun c hc => h c (List.mem_reverse.mp hc)), List.reverse_reverse]

theorem normalizeValue_decimal (n : Nat) : normalizeValue (decimal n) = decimal n := by
  apply normalizeValue_of_no_whitespace
  intro c hc
  unfold decimal Nat.toDigits at hc
  have := toDigitsCore_digits (n + 1) n [] (by simp) c hc
  unfold isHttpWhitespace
  simp only [Bool.or_eq_false_iff, decide_eq_false_iff_not]
  omega

theorem normalizeValue_preferred (e : JsString) (he : e ∈ preferredEncodings) :
    normalizeValue e = e := by
  simp only [preferredEncodings, List.mem_cons, List.mem_singleton, List.not_mem_nil,
    or_false] at he
  rcases he with rfl | rfl | rfl | rfl <;> decide

theorem mem_names_set (h : Headers) (n v : JsString) :
    lowerName n ∈ (h.set n v).list.map (fun p => p.1) := by
  have := valuesOf_set_self h n v
  have hm : normalizeValue v ∈ (h.set n v).valuesOf (lowerName n) := by rw [this]; simp
  exact List.mem_map.mpr ⟨_, mem_valuesOf _ _ _ hm, rfl⟩

theorem mem_names_set_of_mem (h : Headers) (n v m : JsString)
    (hm : m ∈ h.list.map (fun p => p.1)) : m ∈ (h.set n v).list.map (fun p => p.1) := by
  by_cases e : m = lowerName n
  · rw [e]; exact mem_names_set h n v
  · rw [List.mem_map] at hm
    obtain ⟨p, hp, rfl⟩ := hm
    have hv : p.2 ∈ h.valuesOf p.1 := by
      unfold Headers.valuesOf
      exact List.mem_map.mpr ⟨p, List.mem_filter.mpr ⟨hp, by simp⟩, rfl⟩
    rw [← valuesOf_set_other h n v p.1 e] at hv
    exact List.mem_map.mpr ⟨_, mem_valuesOf _ _ _ hv, rfl⟩
theorem filter_lower_entries (h : Headers) (hw : h.WellFormed) (n : JsString) :
    h.entries.filter (fun p => lowerName p.1 = n) = h.entries.filter (fun p => p.1 = n) := by
  apply List.filter_congr
  intro p hp
  rw [(entries_accepted h hw p hp).2.2]

/-- The two headers both conversion functions set last: the entries of the result hold
exactly one header of each name, with the given values. -/
theorem entries_after_set (h0 : Headers) (hw : h0.WellFormed) (e : JsString)
    (he : e ∈ preferredEncodings) (n : Nat) :
    ((h0.set "content-encoding".toList e).set "content-length".toList
        (decimal n)).entries.filter (fun p => lowerName p.1 = "content-encoding".toList) =
      [("content-encoding".toList, e)] ∧
    ((h0.set "content-encoding".toList e).set "content-length".toList
        (decimal n)).entries.filter (fun p => lowerName p.1 = "content-length".toList) =
      [("content-length".toList, decimal n)] := by
  have hev : isHeaderValue e = true := by
    simp only [preferredEncodings, List.mem_cons, List.mem_singleton, List.not_mem_nil,
      or_false] at he
    rcases he with rfl | rfl | rfl | rfl <;> decide
  have hw1 := wellFormed_set h0 "content-encoding".toList e hw (by decide) hev
  have hw2 := wellFormed_set _ "content-length".toList (decimal n) hw1 (by decide)
    (isHeaderValue_decimal n)
  have l1 : lowerName "content-encoding".toList = "content-encoding".toList := by decide
  have l2 : lowerName "content-length".toList = "content-length".toList := by decide
  have m1 := mem_names_set h0 "content-encoding".toList e
  have m2 := mem_names_set (h0.set "content-encoding".toList e) "content-length".toList
    (decimal n)
  rw [l1] at m1
  rw [l2] at m2
  constructor
  · rw [filter_lower_entries _ hw2, filter_entries _ _
      (mem_names_set_of_mem _ _ _ _ m1) (by decide)]
    rw [valuesOf_set_other _ _ _ _ (by decide)]
    have := valuesOf_set_self h0 "content-encoding".toList e
    rw [l1] at this
    rw [this, join_singleton, normalizeValue_preferred e he]
  · rw [filter_lower_entries _ hw2, filter_entries _ _ m2 (by decide)]
    have := valuesOf_set_self (h0.set "content-encoding".toList e) "content-length".toList
      (decimal n)
    rw [l2] at this
    rw [this, join_singleton, normalizeValue_decimal]

/-- C14: for every handler result (a `Response` holding a header list as a `Headers` object
holds it) and every non-empty list of acceptable encodings, `convertToCacheableObject`
returns a record with exactly one `content-encoding` header, the selected encoding, exactly
one `content-length` header, the decimal byte length of the returned body, and the status
of the `Response`, or 200 for any other result. -/
theorem convertToCacheableObject_sets_headers (z : Zlib) (x : RouteData)
    (acceptable : List JsString) (hx : x.WellFormed) (hne : acceptable ≠ []) :
    ∃ r, convertToCacheableObject z x (some acceptable) = .ok r ∧
      r.headers.filter (fun p => lowerName p.1 = "content-encoding".toList) =
        [("content-encoding".toList, firstPreferred acceptable)] ∧
      r.headers.filter (fun p => lowerName p.1 = "content-length".toList) =
        [("content-length".toList, decimal r.body.length)] ∧
      r.status = (match x with
        | .response resp => resp.status
        | _ => 200) := by
  refine ⟨_, convertToCacheableObject_eq z x acceptable hne, ?_, ?_, ?_⟩
  · exact (entries_after_set _ (wellFormed_baseHeaders x hx) _ (firstPreferred_mem _) _).1
  · exact (entries_after_set _ (wellFormed_baseHeaders x hx) _ (firstPreferred_mem _) _).2
  · cases x <;> rfl

/-- Witness for C14: a `Response` that states gzip and no length, converted for a client
that accepts brotli. -/
theorem convertToCacheableObject_sets_headers_witness :
    ∃ r, convertToCacheableObject tagZlib (.response sampleResponse) (some [GZIP, BROTLI]) =
        .ok r ∧
      r.headers.filter (fun p => lowerName p.1 = "content-encoding".toList) =
        [("content-encoding".toList, firstPreferred [GZIP, BROTLI])] ∧
      r.headers.filter (fun p => lowerName p.1 = "content-length".toList) =
        [("content-length".toList, decimal r.body.length)] ∧
      r.status = (match RouteData.response sampleResponse with
        | .response resp => resp.status
        | _ => 200) :=
  convertToCacheableObject_sets_headers tagZlib (.response sampleResponse) [GZIP, BROTLI]
    (by decide) (by decide)
theorem fill_append (l m : List (JsString × JsString)) :
    ∀ h : Headers, Headers.fill h (l ++ m) =
      (Headers.fill h l).bind (fun h1 => Headers.fill h1 m) := by
  induction l with
  | nil => intro h; rfl
  | cons a t ih =>
    intro h
    obtain ⟨n, v⟩ := a
    simp only [List.cons_append, Headers.fill, bind]
    cases h.append n v with
    | error e => rfl
    | ok h1 => exact ih h1

theorem fill_shift (m : List (JsString × JsString)) :
    ∀ h : Headers, Headers.fill h m =
      (Headers.fill Headers.empty m).map (fun h2 => ⟨h.list ++ h2.list⟩) := by
  induction m using List.reverseRecOn with
  | nil => intro h; simp [Headers.fill, Except.map, Headers.empty]
  | append_singleton t a ih =>
    intro h
    obtain ⟨n, v⟩ := a
    rw [fill_append, fill_append, ih h]
    cases Headers.fill Headers.empty t with
    | error e => rfl
    | ok h2 =>
      simp only [Except.map, Except.bind, Headers.fill, Headers.append, bind]
      by_cases c : (isHeaderName n && isHeaderValue (normalizeValue v)) = true
      · simp only [if_pos c, List.append_assoc]
      · simp only [if_neg c]
theorem compressExpected_preferred (z : Zlib) (text e : JsString)
    (he : e ∈ preferredEncodings) :
    compressExpected z (some text) e = .ok (encodeWith z text e) := by
  simp only [preferredEncodings, List.mem_cons, List.mem_singleton, List.not_mem_nil,
    or_false] at he
  rcases he with rfl | rfl | rfl | rfl <;> rfl

theorem filter_entries_of_not_mem (h : Headers) (n : JsString)
    (hn : n ∉ h.list.map (fun p => p.1)) :
    h.entries.filter (fun p => p.1 = n) = [] := by
  rw [List.filter_eq_nil_iff]
  intro p hp
  have := mem_entries_name h p hp
  intro e
  simp only [decide_eq_true_eq] at e
  rw [e] at this
  exact hn this

theorem mem_names_iff_valuesOf (h : Headers) (n : JsString) :
    n ∈ h.list.map (fun p => p.1) ↔ h.valuesOf n ≠ [] := by
  unfold Headers.valuesOf
  constructor
  · intro hn
    rw [List.mem_map] at hn
    obtain ⟨p, hp, rfl⟩ := hn
    intro e
    have : p ∈ h.list.filter (fun q => q.1 = p.1) := List.mem_filter.mpr ⟨hp, by simp⟩
    rw [List.map_eq_nil_iff] at e
    rw [e] at this
    simp at this
  · intro hv
    rw [ne_eq, List.map_eq_nil_iff] at hv
    obtain ⟨p, hp⟩ := List.exists_mem_of_ne_nil _ hv
    rw [List.mem_filter] at hp
    exact List.mem_map.mpr ⟨p, hp.1, by simpa using hp.2⟩

/-- The pairs of one name among the entries of a `Headers` object are determined by the
values the object holds under that name. -/
theorem filter_entries_congr (h1 h2 : Headers) (n : JsString)
    (hv : h1.valuesOf n = h2.valuesOf n) :
    h1.entries.filter (fun p => p.1 = n) = h2.entries.filter (fun p => p.1 = n) := by
  by_cases hn : n ∈ h1.list.map (fun p => p.1)
  · have hn2 : n ∈ h2.list.map (fun p => p.1) := by
      rw [mem_names_iff_valuesOf, ← hv, ← mem_names_iff_valuesOf]
      exact hn
    unfold Headers.entries
    rw [filter_flatMap_named _ (entries_name h1) n _ (nodup_sortedNames h1)
      ((mem_sortedNames h1 n).mpr hn),
      filter_flatMap_named _ (entries_name h2) n _ (nodup_sortedNames h2)
      ((mem_sortedNames h2 n).mpr hn2), hv]
  · have hn2 : n ∉ h2.list.map (fun p => p.1) := by
      rw [mem_names_iff_valuesOf, ← hv, ← mem_names_iff_valuesOf]
      exact hn
    rw [filter_entries_of_not_mem h1 n hn, filter_entries_of_not_mem h2 n hn2]

theorem decompressCurrent_encodeWith (z : Zlib) (text e : JsString)
    (hb : ∀ b, z.brotliDecompress (z.brotliCompress b) = .ok b)
    (hg : ∀ b, z.gzipDecompress (z.gzipCompress b) = .ok b)
    (hd : ∀ b, z.deflateDecompress (z.deflateCompress b) = .ok b)
    (he : e = BROTLI ∨ e = GZIP ∨ e = DEFLATE) :
    decompressCurrent z (encodeWith z text e) (some e) = .ok (some text) := by
  rcases he with rfl | rfl | rfl
  · show (do let b ← z.brotliDecompress (z.brotliCompress (utf8Encode text))
             pure (some (utf8Decode b)) : Except String (Option JsString)) = _
    rw [hb]
    simp only [bind, Except.bind, pure, Except.pure, utf8Decode_utf8Encode]
  · show (do let b ← z.gzipDecompress (z.gzipCompress (utf8Encode text))
             pure (some (utf8Decode b)) : Except String (Option JsString)) = _
    rw [hg]
    simp only [bind, Except.bind, pure, Except.pure, utf8Decode_utf8Encode]
  · show (do let b ← z.deflateDecompress (z.deflateCompress (utf8Encode text))
             pure (some (utf8Decode b)) : Except String (Option JsString)) = _
    rw [hd]
    simp only [bind, Except.bind, pure, Except.pure, utf8Decode_utf8Encode]
/-- The path of `convertCacheableObject` that re-encodes: the record states an encoding
other than the expected one and its body decodes to `text`. -/
theorem convertCacheableObject_reencode (z : Zlib) (r : ResponseCacheableObject)
    (acceptable : List JsString) (h : Headers) (c text : JsString)
    (hne : acceptable ≠ []) (ho : Headers.ofEntries r.headers = .ok h)
    (hc : h.get "content-encoding".toList = some c)
    (hec : firstPreferred acceptable ≠ c)
    (hdec : decompressCurrent z r.body (some c) = .ok (some text)) :
    convertCacheableObject z r (some acceptable) =
      if (encodeWith z text (firstPreferred acceptable)).length = 0 then
        .error "No expected encoding found"
      else
        .ok { body := encodeWith z text (firstPreferred acceptable), status := r.status,
              headers := ((h.set "content-encoding".toList (firstPreferred acceptable)).set
                "content-length".toList
                (decimal (encodeWith z text (firstPreferred acceptable)).length)).entries } := by
  cases acceptable with
  | nil => exact absurd rfl hne
  | cons e es =>
    unfold convertCacheableObject
    rw [ho]
    simp only [bind, Except.bind, pure, Except.pure, find_preferred, hc]
    rw [if_neg (by intro e2; exact hec (Option.some.inj e2).symm), hdec]
    simp only []
    rw [compressExpected_preferred z text _ (firstPreferred_mem _)]
/-- Re-encoding preserves content, provided the re-encoded body is not empty. Take a
record whose header list a `Headers` object accepts (as `h`), which states
the encoding `c`, and whose body decodes to `text` under `c`; a non-empty list of
acceptable encodings whose selected encoding `e` differs from `c`; and decompressors that
invert their compressors. If `text` encodes to no bytes under `e`, `convertCacheableObject`
throws `No expected encoding found`. Otherwise it returns a record with the same status,
the body `text` encoded under `e`, exactly one `content-encoding` header, `e`, exactly one
`content-length` header, the decimal length of the new body, and under every other name
the pairs of `h`. The new body decodes back to `text` under `e` with the decoder
`convertCacheableObject` itself applies to a record under `e`; for `identity` that is
`TextDecoder`, which drops a byte order mark at the start, so there `text` is to start
with another character. -/
theorem convertCacheableObject_reencodes (z : Zlib) (r : ResponseCacheableObject)
    (acceptable : List JsString) (h : Headers) (c text : JsString)
    (hne : acceptable ≠ []) (ho : Headers.ofEntries r.headers = .ok h)
    (hc : h.get "content-encoding".toList = some c)
    (hec : firstPreferred acceptable ≠ c)
    (hdec : decompressCurrent z r.body (some c) = .ok (some text))
    (hb : ∀ b, z.brotliDecompress (z.brotliCompress b) = .ok b)
    (hg : ∀ b, z.gzipDecompress (z.gzipCompress b) = .ok b)
    (hd : ∀ b, z.deflateDecompress (z.deflateCompress b) = .ok b) :
    (encodeWith z text (firstPreferred acceptable) = [] →
      convertCacheableObject z r (some acceptable) = .error "No expected encoding found") ∧
    (encodeWith z text (firstPreferred acceptable) ≠ [] →
      ∃ r2, convertCacheableObject z r (some acceptable) = .ok r2 ∧
        r2.status = r.status ∧
        r2.body = encodeWith z text (firstPreferred acceptable) ∧
        r2.headers.filter (fun p => lowerName p.1 = "content-encoding".toList) =
          [("content-encoding".toList, firstPreferred acceptable)] ∧
        r2.headers.filter (fun p => lowerName p.1 = "content-length".toList) =
          [("content-length".toList, decimal r2.body.length)] ∧
        (∀ m, m ≠ "content-encoding".toList → m ≠ "content-length".toList →
          r2.headers.filter (fun p => p.1 = m) = h.entries.filter (fun p => p.1 = m)) ∧
        (firstPreferred acceptable ≠ IDENTITY →
          decompressCurrent z r2.body (some (firstPreferred acceptable)) = .ok (some text)) ∧
        (firstPreferred acceptable = IDENTITY → text.head? ≠ some BOM →
          decompressCurrent z r2.body (some IDENTITY) = .ok (some text))) := by
  have key := convertCacheableObject_reencode z r acceptable h c text hne ho hc hec hdec
  have hw := ofEntries_wellFormed _ _ ho
  constructor
  · intro he
    rw [key, if_pos (by rw [he]; rfl)]
  · intro he
    rw [key, if_neg (by rw [List.length_eq_zero]; exact he)]
    refine ⟨_, rfl, rfl, rfl, ?_, ?_, ?_, ?_, ?_⟩
    · exact (entries_after_set h hw _ (firstPreferred_mem _) _).1
    · exact (entries_after_set h hw _ (firstPreferred_mem _) _).2
    · intro m h1 h2
      apply filter_entries_congr
      rw [valuesOf_set_other _ _ _ _ (by simpa using h2),
        valuesOf_set_other _ _ _ _ (by simpa using h1)]
    · intro hi
      apply decompressCurrent_encodeWith z text _ hb hg hd
      have := firstPreferred_mem acceptable
      simp only [preferredEncodings, List.mem_cons, List.mem_singleton, List.not_mem_nil,
        or_false] at this
      rcases this with e | e | e | e
      · exact Or.inl e
      · exact Or.inr (Or.inl e)
      · exact Or.inr (Or.inr e)
      · exact absurd e hi
    · intro hi hbom
      have hbody : encodeWith z text (firstPreferred acceptable) = utf8Encode text := by
        rw [hi]; rfl
      simp only [hbody]
      unfold decompressCurrent
      rw [if_neg (by decide), if_neg (by decide), if_neg (by decide), if_pos rfl]
      unfold textDecode
      rw [utf8Decode_utf8Encode]
      cases text with
      | nil => rfl
      | cons c cs =>
        simp only [List.head?_cons, ne_eq, Option.some.injEq] at hbom
        simp only [if_neg hbom]
        rfl

/-- An instance: a gzip record re-encoded for a client that accepts brotli. -/
theorem convertCacheableObject_reencodes_witness :
    ∃ r2, convertCacheableObject tagZlib datedGzipRecord (some [BROTLI]) = .ok r2 ∧
      r2.status = datedGzipRecord.status ∧
      r2.body = encodeWith tagZlib "hi".toList (firstPreferred [BROTLI]) ∧
      r2.headers.filter (fun p => lowerName p.1 = "content-encoding".toList) =
        [("content-encoding".toList, firstPreferred [BROTLI])] ∧
      r2.headers.filter (fun p => lowerName p.1 = "content-length".toList) =
        [("content-length".toList, decimal r2.body.length)] ∧
      (∀ m, m ≠ "content-encoding".toList → m ≠ "content-length".toList →
        r2.headers.filter (fun p => p.1 = m) =
          (Headers.mk datedGzipRecord.headers).entries.filter (fun p => p.1 = m)) ∧
      (firstPreferred [BROTLI] ≠ IDENTITY →
        decompressCurrent tagZlib r2.body (some (firstPreferred [BROTLI])) =
          .ok (some "hi".toList)) ∧
      (firstPreferred [BROTLI] = IDENTITY → "hi".toList.head? ≠ some BOM →
        decompressCurrent tagZlib r2.body (some IDENTITY) = .ok (some "hi".toList)) :=
  (convertCacheableObject_reencodes tagZlib datedGzipRecord [BROTLI]
    (Headers.mk datedGzipRecord.headers) GZIP "hi".toList (by decide) (by decide) (by decide)
    (by decide) (by decide) (fun _ => rfl) (fun _ => rfl) (fun _ => rfl)).2 (by decide)

/-- C15 (the code at the failing input): a record that holds the empty text under gzip,
with decompressors that invert their compressors, is not re-encoded for a client that
accepts only `identity`: the expected encoding is found (`identity`), and yet
`convertCacheableObject` throws `No expected encoding found`, because the re-encoded body
has no bytes. The sibling paths accept an empty body under `identity`: for the empty
string `convertToCacheableObject` returns a record with an empty body, and
`convertCacheableObject` returns that record as it is. -/
theorem convertCacheableObject_rejects_empty_text :
    currentEncoding emptyGzipRecord = .ok (some GZIP) ∧
    decompressCurrent tagZlib emptyGzipRecord.body (some GZIP) = .ok (some []) ∧
    firstPreferred [IDENTITY] = IDENTITY ∧
    convertCacheableObject tagZlib emptyGzipRecord (some [IDENTITY]) =
      .error "No expected encoding found" ∧
    (convertToCacheableObject tagZlib (.text []) (some [IDENTITY])).map
        (fun r => (r.body, r.status)) = .ok ([], 200) ∧
    (convertToCacheableObject tagZlib (.text []) (some [IDENTITY]) >>=
        fun r => convertCacheableObject tagZlib r (some [IDENTITY])) =
      convertToCacheableObject tagZlib (.text []) (some [IDENTITY]) := by
  decide
/-! ## More about the fingerprint -/

theorem orElse_some_nil (s : JsString) : orElse (some s) [] = s := by
  cases s <;> rfl

theorem get_append_of_none (h0 h2 : Headers) (name : JsString)
    (hnone : h0.valuesOf (lowerName name) = []) :
    (Headers.mk (h0.list ++ h2.list)).get name = h2.get name := by
  unfold Headers.get
  have : (Headers.mk (h0.list ++ h2.list)).valuesOf (lowerName name) =
      h2.valuesOf (lowerName name) := by
    unfold Headers.valuesOf at hnone ⊢
    rw [List.filter_append, List.map_append, hnone, List.nil_append]
  rw [this]

/-- The header part of the key of a request whose two identity headers come after all its
other headers is computed from those last headers alone. -/
theorem getHeadersId_append (host : Host) (r : Request) (extra : List (JsString × JsString))
    (hx : r.headersNamed "x-unique-id".toList = [])
    (ha : r.headersNamed "authorization".toList = []) :
    getHeadersId host { r with headers := r.headers ++ extra } =
      (Headers.ofEntries r.headers).bind
        (fun _ => getHeadersId host { r with headers := extra }) := by
  unfold getHeadersId Headers.ofEntries
  simp only []
  rw [fill_append]
  cases hf : Headers.fill Headers.empty r.headers with
  | error e => rfl
  | ok h0 =>
    simp only [Except.bind, bind]
    rw [fill_shift extra h0]
    cases Headers.fill Headers.empty extra with
    | error e => rfl
    | ok h2 =>
      have v1 := valuesOf_ofEntries r.headers h0 hf "x-unique-id".toList
      have v2 := valuesOf_ofEntries r.headers h0 hf "authorization".toList
      unfold Request.headersNamed at hx ha
      rw [hx] at v1
      rw [ha] at v2
      simp only [Except.map]
      rw [get_append_of_none h0 h2 "x-unique-id".toList v1,
        get_append_of_none h0 h2 "authorization".toList v2]

theorem header_append (r : Request) (extra : List (JsString × JsString)) (name : JsString)
    (h : extra.find? (fun p => p.1 = name) = none) :
    Request.header { r with headers := r.headers ++ extra } name = r.header name := by
  unfold Request.header
  simp only [List.find?_append, h, Option.or_none]

theorem requestUrl_append (host : Host) (r : Request) (extra : List (JsString × JsString))
    (h1 : extra.find? (fun p => p.1 = "x-forwarded-proto".toList) = none)
    (h2 : extra.find? (fun p => p.1 = "x-forwarded-host".toList) = none)
    (h3 : extra.find? (fun p => p.1 = "host".toList) = none) :
    requestUrl host { r with headers := r.headers ++ extra } = requestUrl host r := by
  unfold requestUrl getFullUrl
  rw [header_append r extra _ h1, header_append r extra _ h2, header_append r extra _ h3]

theorem getRequestId_append (host : Host) (r : Request) (e1 e2 : List (JsString × JsString))
    (useBodyText : Bool)
    (hx : r.headersNamed "x-unique-id".toList = [])
    (ha : r.headersNamed "authorization".toList = [])
    (u1 : requestUrl host { r with headers := r.headers ++ e1 } = requestUrl host r)
    (u2 : requestUrl host { r with headers := r.headers ++ e2 } = requestUrl host r)
    (he : getHeadersId host { r with headers := e1 } = getHeadersId host { r with headers := e2 }) :
    getRequestId host { r with headers := r.headers ++ e1 } useBodyText =
      getRequestId host { r with headers := r.headers ++ e2 } useBodyText := by
  rw [getRequestId_eq, getRequestId_eq, u1, u2, getHeadersId_append host r e1 hx ha,
    getHeadersId_append host r e2 hx ha, he]
  rfl
theorem getHeadersId_single_unique (host : Host) (r : Request) (v : JsString) :
    getHeadersId host { r with headers := [("x-unique-id".toList, v)] } =
      if isHeaderValue (normalizeValue v) = true then
        .ok ("h:".toList ++ hash host (join [':']
          ([normalizeValue v].filter (fun s => !s.isEmpty))))
      else .error "TypeError: invalid header" := by
  have n1 : isHeaderName "x-unique-id".toList = true := by decide
  have l1 : lowerName "x-unique-id".toList = "x-unique-id".toList := by decide
  have l2 : lowerName "authorization".toList = "authorization".toList := by decide
  have d : ("x-unique-id".toList = "authorization".toList) = False := by
    simp only [eq_iff_iff, iff_false]; decide
  unfold getHeadersId Headers.ofEntries
  simp only [Headers.fill, Headers.append, n1, Bool.true_and, bind, Except.bind, Headers.empty,
    List.nil_append, l1]
  by_cases c : isHeaderValue (normalizeValue v) = true
  · simp only [if_pos c, Headers.get, Headers.valuesOf, l1, l2, List.filter, decide_True, d,
      decide_False, List.map, join_singleton, orElse_some_nil, orElse, pure, Except.pure]
    cases normalizeValue v <;> rfl
  · simp only [if_neg c]

theorem getHeadersId_single_authorization (host : Host) (r : Request) (v : JsString) :
    getHeadersId host { r with headers := [("authorization".toList, v)] } =
      if isHeaderValue (normalizeValue v) = true then
        .ok ("h:".toList ++ hash host (join [':']
          ([normalizeValue v].filter (fun s => !s.isEmpty))))
      else .error "TypeError: invalid header" := by
  have n1 : isHeaderName "authorization".toList = true := by decide
  have l1 : lowerName "x-unique-id".toList = "x-unique-id".toList := by decide
  have l2 : lowerName "authorization".toList = "authorization".toList := by decide
  have d : ("authorization".toList = "x-unique-id".toList) = False := by
    simp only [eq_iff_iff, iff_false]; decide
  unfold getHeadersId Headers.ofEntries
  simp only [Headers.fill, Headers.append, n1, Bool.true_and, bind, Except.bind, Headers.empty,
    List.nil_append, l2]
  by_cases c : isHeaderValue (normalizeValue v) = true
  · simp only [if_pos c, Headers.get, Headers.valuesOf, l1, l2, List.filter, decide_True, d,
      decide_False, List.map, join_singleton, orElse_some_nil, orElse, pure, Except.pure]
    cases normalizeValue v <;> rfl
  · simp only [if_neg c]

theorem getHeadersId_pair (host : Host) (r : Request) (x a : JsString)
    (hx : isHeaderValue (normalizeValue x) = true)
    (ha : isHeaderValue (normalizeValue a) = true) :
    getHeadersId host
        { r with headers := [("x-unique-id".toList, x), ("authorization".toList, a)] } =
      .ok ("h:".toList ++ hash host (join [':']
        ([normalizeValue x, normalizeValue a].filter (fun s => !s.isEmpty)))) := by
  have n1 : isHeaderName "x-unique-id".toList = true := by decide
  have n2 : isHeaderName "authorization".toList = true := by decide
  have l1 : lowerName "x-unique-id".toList = "x-unique-id".toList := by decide
  have l2 : lowerName "authorization".toList = "authorization".toList := by decide
  have d : ("authorization".toList = "x-unique-id".toList) = False := by
    simp only [eq_iff_iff, iff_false]; decide
  have d2 : ("x-unique-id".toList = "authorization".toList) = False := by
    simp only [eq_iff_iff, iff_false]; decide
  unfold getHeadersId Headers.ofEntries
  simp only [Headers.fill, Headers.append, n1, n2, hx, ha, Bool.true_and, bind, Except.bind,
    Headers.empty, List.nil_append, l1, l2, if_true, Headers.get, Headers.valuesOf,
    List.filter, List.cons_append, decide_True, d, d2,
    decide_False, List.map, join_singleton, orElse_some_nil, pure, Except.pure]
theorem requestUrl_identity_headers (host : Host) (r : Request)
    (extra : List (JsString × JsString))
    (h : ∀ p ∈ extra, p.1 = "x-unique-id".toList ∨ p.1 = "authorization".toList) :
    requestUrl host { r with headers := r.headers ++ extra } = requestUrl host r := by
  apply requestUrl_append <;>
  · rw [List.find?_eq_none]
    intro p hp
    rcases h p hp with e | e <;> rw [e] <;> decide

/-- C30: the key does not record which of the two headers a value came from. For a request
without `x-unique-id` and `authorization` headers, adding `x-unique-id: v` gives the same
result of `getRequestId` as adding `authorization: v`, for every `v`; two pairs of values
whose non-empty (normalized) values joined by a colon are the same text give the same
result; and the values `a`, `b:c` collide with `a:b`, `c`, on a key whenever the request has
well-formed headers and its URL resolves. -/
theorem getRequestId_forgets_header_name (host : Host) (r : Request) (useBodyText : Bool)
    (hx : r.headersNamed "x-unique-id".toList = [])
    (ha : r.headersNamed "authorization".toList = []) :
    (∀ v : JsString,
      getRequestId host { r with headers := r.headers ++ [("x-unique-id".toList, v)] }
          useBodyText =
        getRequestId host { r with headers := r.headers ++ [("authorization".toList, v)] }
          useBodyText) ∧
    (∀ x1 a1 x2 a2 : JsString,
      isHeaderValue (normalizeValue x1) = true → isHeaderValue (normalizeValue a1) = true →
      isHeaderValue (normalizeValue x2) = true → isHeaderValue (normalizeValue a2) = true →
      join [':'] ([normalizeValue x1, normalizeValue a1].filter (fun s => !s.isEmpty)) =
        join [':'] ([normalizeValue x2, normalizeValue a2].filter (fun s => !s.isEmpty)) →
      getRequestId host { r with headers := r.headers ++
          [("x-unique-id".toList, x1), ("authorization".toList, a1)] } useBodyText =
        getRequestId host { r with headers := r.headers ++
          [("x-unique-id".toList, x2), ("authorization".toList, a2)] } useBodyText) ∧
    (r.WellFormed → ∀ pq, requestUrl host r = .ok pq →
      ∃ key,
        getRequestId host { r with headers := r.headers ++
          [("x-unique-id".toList, "a".toList), ("authorization".toList, "b:c".toList)] }
            useBodyText = .ok key ∧
        getRequestId host { r with headers := r.headers ++
          [("x-unique-id".toList, "a:b".toList), ("authorization".toList, "c".toList)] }
            useBodyText = .ok key) := by
  refine ⟨?_, ?_, ?_⟩
  · intro v
    apply getRequestId_append host r _ _ useBodyText hx ha
      (requestUrl_identity_headers host r _ (by simp))
      (requestUrl_identity_headers host r _ (by simp))
    rw [getHeadersId_single_unique, getHeadersId_single_authorization]
  · intro x1 a1 x2 a2 h1 h2 h3 h4 hj
    apply getRequestId_append host r _ _ useBodyText hx ha
      (requestUrl_identity_headers host r _ (by simp))
      (requestUrl_identity_headers host r _ (by simp))
    rw [getHeadersId_pair host r x1 a1 h1 h2, getHeadersId_pair host r x2 a2 h3 h4, hj]
  · intro hw pq hpq
    have o := fill_ok r.headers Headers.empty hw
    rw [getRequestId_eq, getRequestId_eq, requestUrl_identity_headers host r _ (by simp),
      requestUrl_identity_headers host r _ (by simp), hpq, getHeadersId_append host r _ hx ha,
      getHeadersId_append host r _ hx ha]
    unfold Headers.ofEntries
    rw [o, getHeadersId_pair host r _ _ (by decide) (by decide),
      getHeadersId_pair host r _ _ (by decide) (by decide)]
    exact ⟨_, rfl, rfl⟩

/-- Witness for C30: a request that carries neither header. -/
theorem getRequestId_forgets_header_name_witness :
    (∀ v : JsString,
      getRequestId exampleHost
          { anonymousRequest with
            headers := anonymousRequest.headers ++ [("x-unique-id".toList, v)] } false =
        getRequestId exampleHost
          { anonymousRequest with
            headers := anonymousRequest.headers ++ [("authorization".toList, v)] } false) ∧
    (∃ key,
        getRequestId exampleHost { anonymousRequest with headers := anonymousRequest.headers ++
          [("x-unique-id".toList, "a".toList), ("authorization".toList, "b:c".toList)] }
            false = .ok key ∧
        getRequestId exampleHost { anonymousRequest with headers := anonymousRequest.headers ++
          [("x-unique-id".toList, "a:b".toList), ("authorization".toList, "c".toList)] }
            false = .ok key) :=
  ⟨(getRequestId_forgets_header_name exampleHost anonymousRequest false
      (by decide) (by decide)).1,
   (getRequestId_forgets_header_name exampleHost anonymousRequest false
      (by decide) (by decide)).2.2 (by decide) _ rfl⟩
/-! ## Reading cut or padded files -/

theorem deserializeLoop_through (data : List Nat) (items : List DataArray) :
    ∀ (bytes tail : List Nat) (fuel offset : Nat) (acc : List DataArray),
      serializeItems items = .ok bytes → data.drop offset = bytes ++ tail →
      deserializeLoop data (fuel + items.length) offset acc =
        deserializeLoop data fuel (offset + bytes.length) (acc ++ items.map reread) := by
  induction items with
  | nil =>
    intro bytes tail fuel offset acc hser _
    have hb : bytes = [] := (Except.ok.inj hser).symm
    subst hb
    simp
  | cons item rest ih =>
    intro bytes tail fuel offset acc hser hdrop
    obtain ⟨w, bs, hw, hbs, rfl⟩ := serializeItems_cons_inv item rest bytes hser
    rw [List.append_assoc] at hdrop
    rw [List.length_cons, ← Nat.add_assoc,
      deserializeLoop_step data _ offset acc item w (bs ++ tail) hw hdrop,
      ih bs tail fuel (offset + w.length) (acc ++ [reread item]) hbs
        (drop_add_of_drop _ _ _ _ hdrop)]
    simp [Nat.add_assoc]

theorem getD_of_drop_take (data w : List Nat) (offset m i : Nat)
    (hdrop : data.drop offset = w.take m) (hi : i < m) :
    data.getD (offset + i) 0 = w.getD i 0 := by
  have h1 : data.getD (offset + i) 0 = (data.drop offset).getD i 0 := by
    simp [List.getD_eq_getElem?_getD, List.getElem?_drop]
  rw [h1, hdrop]
  simp [List.getD_eq_getElem?_getD, List.getElem?_take, hi]

theorem readUInt32LE_cut (data w : List Nat) (offset m p : Nat)
    (hdrop : data.drop offset = w.take m) (hm : m ≤ w.length) (hoff : offset ≤ data.length) :
    readUInt32LE data (offset + p) =
      if p + 4 ≤ m then readUInt32LE w p else .error "ERR_OUT_OF_RANGE" := by
  have hlen : data.length = offset + m := by
    have := congrArg List.length hdrop
    simp only [List.length_drop, List.length_take] at this
    omega
  unfold readUInt32LE
  by_cases c : p + 4 ≤ m
  · rw [if_pos c, if_pos (by omega), if_pos (by omega)]
    have e0 := getD_of_drop_take data w offset m p hdrop (by omega)
    have e1 := getD_of_drop_take data w offset m (p + 1) hdrop (by omega)
    have e2 := getD_of_drop_take data w offset m (p + 2) hdrop (by omega)
    have e3 := getD_of_drop_take data w offset m (p + 3) hdrop (by omega)
    rw [← Nat.add_assoc] at e1 e2 e3
    rw [e0, e1, e2, e3]
  · rw [if_neg c, if_neg (by omega)]

theorem readInt32LE_cut (data w : List Nat) (offset m p : Nat)
    (hdrop : data.drop offset = w.take m) (hm : m ≤ w.length) (hoff : offset ≤ data.length) :
    readInt32LE data (offset + p) =
      if p + 4 ≤ m then readInt32LE w p else .error "ERR_OUT_OF_RANGE" := by
  unfold readInt32LE
  rw [readUInt32LE_cut data w offset m p hdrop hm hoff]
  split <;> rfl
/-- One iteration on a record that is cut before its body starts: one of the four reads of
a length or of the status runs past the end of the data. -/
theorem deserializeLoop_short (data : List Nat) (fuel offset : Nat) (acc : List DataArray)
    (item : DataArray) (w : List Nat) (m : Nat) (hser : serializeItem item = .ok w)
    (hdrop : data.drop offset = w.take m) (hpos : 0 < m)
    (hm : m + item.2.value.body.length < w.length) :
    deserializeLoop data (fuel + 1) offset acc = .error "ERR_OUT_OF_RANGE" := by
  obtain ⟨k4, h4, s4, b4, hk, hh, hs, hb, hw⟩ := serializeItem_inv item w hser
  have lk := length_of_writeUInt32LE _ _ hk
  have lh := length_of_writeUInt32LE _ _ hh
  have ls := length_of_writeInt32LE _ _ hs
  have lb := length_of_writeUInt32LE _ _ hb
  have hwl : w.length = 16 + (utf8Encode item.1).length +
      (utf8Encode (headersString item.2.value.headers)).length + item.2.value.body.length := by
    rw [hw]
    simp only [List.length_append, lk, lh, ls, lb]
    omega
  have hlen : data.length = offset + m := by
    have := congrArg List.length hdrop
    simp only [List.length_drop, List.length_take] at this
    omega
  have hlt : offset < data.length := by omega
  have hoff : offset ≤ data.length := by omega
  have hml : m ≤ w.length := by omega
  have d0 : w.drop 0 = k4 ++ (utf8Encode item.1 ++ (h4 ++
      (utf8Encode (headersString item.2.value.headers) ++ (s4 ++ (b4 ++ item.2.value.body))))) := by
    rw [hw]
    simp only [List.drop_zero, List.append_assoc]
  have d1 := drop_add_of_drop _ _ _ _ d0
  rw [lk] at d1
  have d2 := drop_add_of_drop _ _ _ _ d1
  have d3 := drop_add_of_drop _ _ _ _ d2
  rw [lh] at d3
  have d4 := drop_add_of_drop _ _ _ _ d3
  have d5 := drop_add_of_drop _ _ _ _ d4
  rw [ls] at d5
  have w1 := readUInt32LE_write _ _ _ _ _ hk d0
  have w2 := readUInt32LE_write _ _ _ _ _ hh d2
  have w3 := readInt32LE_write _ _ _ _ _ hs d4
  have r1 := readUInt32LE_cut data w offset m 0 hdrop hml hoff
  have r2 := readUInt32LE_cut data w offset m (0 + 4 + (utf8Encode item.1).length) hdrop hml hoff
  have r3 := readInt32LE_cut data w offset m (0 + 4 + (utf8Encode item.1).length + 4 +
    (utf8Encode (headersString item.2.value.headers)).length) hdrop hml hoff
  have r4 := readUInt32LE_cut data w offset m (0 + 4 + (utf8Encode item.1).length + 4 +
    (utf8Encode (headersString item.2.value.headers)).length + 4) hdrop hml hoff
  rw [w1] at r1
  rw [w2] at r2
  rw [w3] at r3
  rw [if_neg (by omega)] at r4
  simp only [← Nat.add_assoc, Nat.add_zero] at r1 r2 r3 r4
  rw [deserializeLoop, if_pos hlt, r1]
  by_cases c1 : 0 + 4 ≤ m
  · rw [if_pos c1]
    simp only [bind, Except.bind]
    rw [r2]
    by_cases c2 : 0 + 4 + (utf8Encode item.1).length + 4 ≤ m
    · rw [if_pos c2]
      simp only []
      rw [r3]
      by_cases c3 : 0 + 4 + (utf8Encode item.1).length + 4 +
          (utf8Encode (headersString item.2.value.headers)).length + 4 ≤ m
      · rw [if_pos c3]
        simp only []
        rw [r4]
      · rw [if_neg c3]
    · rw [if_neg c2]
  · rw [if_neg c1]
    rfl

/-- One iteration on fewer than four remaining bytes: the first read runs past the end. -/
theorem deserializeLoop_extra (data : List Nat) (fuel offset : Nat) (acc : List DataArray)
    (h1 : offset < data.length) (h2 : data.length < offset + 4) :
    deserializeLoop data (fuel + 1) offset acc = .error "ERR_OUT_OF_RANGE" := by
  rw [deserializeLoop, if_pos h1]
  simp only [readUInt32LE, if_neg (by omega : ¬ offset + 4 ≤ data.length), bind, Except.bind]
theorem deserializeFromFile_of_error (fs : FileSystem) (filename : JsString) (data : List Nat)
    (hfile : fs filename = some data) (fuel : Nat) (message : String)
    (hfuel : data.length + 1 = fuel)
    (h : deserializeLoop data fuel 0 [] = .error message) :
    deserializeFromFile fs filename = .ok [] := by
  unfold deserializeFromFile
  rw [hfile]
  simp only [hfuel, h]

/-- C11 (amended): `deserializeFromFile` does not fail on cut or padded data. For every
existing file it fulfils. When the file holds a serialization cut inside its last record
before the body of that record starts (more than the body and less than the whole record
is missing), or a serialization followed by one to three more bytes, a read runs past the
end, the exception is caught, and the result is the empty list. -/
theorem deserializeFromFile_swallows_short_reads (fs : FileSystem) (filename : JsString)
    (data : List Nat) (done : List DataArray) (last : DataArray) (doneBytes w extra : List Nat)
    (n : Nat) (hdone : serializeItems done = .ok doneBytes) (hlast : serializeItem last = .ok w)
    (hn1 : last.2.value.body.length < n) (hn2 : n < w.length)
    (hx1 : 0 < extra.length) (hx2 : extra.length < 4) :
    (∃ l, deserializeFromFile (writeFile fs filename data) filename = .ok l) ∧
    deserializeFromFile
      (writeFile fs filename ((doneBytes ++ w).take ((doneBytes ++ w).length - n)))
      filename = .ok [] ∧
    deserializeFromFile (writeFile fs filename (doneBytes ++ w ++ extra)) filename = .ok [] := by
  have hdl := length_serializeItems done doneBytes hdone
  refine ⟨?_, ?_, ?_⟩
  · unfold deserializeFromFile
    simp only [writeFile, if_true]
    cases deserializeLoop data (data.length + 1) 0 [] with
    | ok l => exact ⟨l, rfl⟩
    | error e => exact ⟨[], rfl⟩
  · have hcut : (doneBytes ++ w).take ((doneBytes ++ w).length - n) =
        doneBytes ++ w.take (w.length - n) := by
      rw [List.length_append, Nat.add_sub_assoc (Nat.le_of_lt hn2), List.take_append]
    rw [hcut]
    apply deserializeFromFile_of_error _ filename (doneBytes ++ w.take (w.length - n))
      (by simp only [writeFile, if_true])
      ((doneBytes.length + (w.length - n) - done.length + 1) + done.length) "ERR_OUT_OF_RANGE"
    · simp only [List.length_append, List.length_take]
      omega
    · rw [deserializeLoop_through _ done doneBytes (w.take (w.length - n)) _ 0 [] hdone
        (by simp)]
      apply deserializeLoop_short _ _ _ _ last w (w.length - n) hlast
      · simp
      · omega
      · omega
  · apply deserializeFromFile_of_error _ filename (doneBytes ++ w ++ extra)
      (by simp only [writeFile, if_true])
      ((doneBytes.length + w.length + extra.length - done.length - 1 + 1 + 1) + done.length)
      "ERR_OUT_OF_RANGE"
    · simp only [List.length_append]
      have hw : 0 < w.length := by omega
      omega
    · rw [deserializeLoop_through _ done doneBytes (w ++ extra) _ 0 [] hdone
        (by simp)]
      rw [deserializeLoop_step _ _ _ _ last w extra hlast (by simp)]
      apply deserializeLoop_extra
      · simp only [List.length_append]; omega
      · simp only [List.length_append]; omega

/-- Witness for C11: the entry of the storage tests, with six bytes missing and with three
bytes added. -/
theorem deserializeFromFile_swallows_short_reads_witness :
    (∃ l, deserializeFromFile (writeFile noFiles cacheBin [1, 2, 3]) cacheBin = .ok l) ∧
    deserializeFromFile
      (writeFile noFiles cacheBin
        (([] ++ mockDataArray.flatMap layoutRecord).take
          (([] ++ mockDataArray.flatMap layoutRecord).length - 6)))
      cacheBin = .ok [] ∧
    deserializeFromFile
      (writeFile noFiles cacheBin ([] ++ mockDataArray.flatMap layoutRecord ++ [1, 2, 3]))
      cacheBin = .ok [] :=
  deserializeFromFile_swallows_short_reads noFiles cacheBin [1, 2, 3] []
    ("requestId1".toList,
      { value := { body := utf8Encode "body1".toList, status := 200,
                   headers := [("Content-Type".toList, "text/plain".toList)] },
        size := 100 })
    [] (mockDataArray.flatMap layoutRecord) [1, 2, 3] 6 rfl (by decide) (by decide) (by decide)
    (by decide) (by decide)

/-- C11 (counterexample): the file written for the entry of the storage tests is read
without an error after trailing bytes are removed. With one byte missing the result holds
a record whose body is one byte short; with six bytes missing, and with three bytes added,
the result is the empty list. -/
theorem deserializeFromFile_reads_cut_file :
    serializeItems mockDataArray = .ok (mockDataArray.flatMap layoutRecord) ∧
    deserializeFromFile
      (writeFile noFiles cacheBin ((mockDataArray.flatMap layoutRecord).take
        ((mockDataArray.flatMap layoutRecord).length - 1))) cacheBin =
      .ok [("requestId1".toList,
        { value := { body := utf8Encode "body".toList, status := 200,
                     headers := [("Content-Type".toList, "text/plain".toList)] },
          size := 50 })] ∧
    deserializeFromFile
      (writeFile noFiles cacheBin ((mockDataArray.flatMap layoutRecord).take
        ((mockDataArray.flatMap layoutRecord).length - 6))) cacheBin = .ok [] ∧
    deserializeFromFile
      (writeFile noFiles cacheBin (mockDataArray.flatMap layoutRecord ++ [1, 2, 3]))
      cacheBin = .ok [] := by
  decide
/-! ## The singleton -/

theorem updateStore_fields (s : ManagerState) (store : Nat) (f : LRUCache → LRUCache) :
    (s.updateStore store f).instanceRef = s.instanceRef ∧
      (s.updateStore store f).managers = s.managers := by
  unfold ManagerState.updateStore
  split <;> exact ⟨rfl, rfl⟩

theorem loadCache_fields (s : ManagerState) (ref : Nat) (fs : FileSystem) (p : JsString) :
    (CacheManager.loadCache s ref fs p).instanceRef = s.instanceRef ∧
      (CacheManager.loadCache s ref fs p).managers = s.managers := by
  unfold CacheManager.loadCache
  split
  · exact ⟨rfl, rfl⟩
  · split
    · split
      · split
        · exact updateStore_fields _ _ _
        · exact ⟨rfl, rfl⟩
      · exact ⟨rfl, rfl⟩
    · exact ⟨rfl, rfl⟩

/-- The registered object and the store it refers to. -/
theorem call_keeps_instance (s : ManagerState) (c : ManagerCall) (ref store : Nat)
    (hc : c.isDestroy = false) (hi : s.instanceRef = some ref)
    (hm : s.managers.get? ref = some ⟨some store⟩) :
    (s.call c).instanceRef = some ref ∧ (s.call c).managers.get? ref = some ⟨some store⟩ := by
  cases c with
  | initInstance options =>
    simp only [ManagerState.call, CacheManager.initInstance, hi, Option.isSome_some, if_true]
    exact ⟨trivial, hm⟩
  | loadCache r fs p =>
    have := loadCache_fields s r fs p
    simp only [ManagerState.call, this.1, this.2]
    exact ⟨hi, hm⟩
  | destroy r => simp [ManagerCall.isDestroy] at hc
  | construct options =>
    simp only [ManagerState.call, CacheManager.new, hi, Option.isSome_some, if_true]
    exact ⟨trivial, hm⟩
  | getCacheInstance => exact ⟨hi, hm⟩
  | useStore st f =>
    have := updateStore_fields s st f
    simp only [ManagerState.call, this.1, this.2]
    exact ⟨hi, hm⟩

theorem calls_keep_instance (more : List ManagerCall) :
    ∀ (s : ManagerState) (ref store : Nat), (∀ c ∈ more, c.isDestroy = false) →
      s.instanceRef = some ref → s.managers.get? ref = some ⟨some store⟩ →
      (more.foldl ManagerState.call s).instanceRef = some ref ∧
        (more.foldl ManagerState.call s).managers.get? ref = some ⟨some store⟩ := by
  induction more with
  | nil => intro s ref store _ hi hm; exact ⟨hi, hm⟩
  | cons c t ih =>
    intro s ref store hd hi hm
    have h1 := call_keeps_instance s c ref store (hd c (by simp)) hi hm
    exact ih (s.call c) ref store (fun c2 h2 => hd c2 (List.mem_cons_of_mem _ h2)) h1.1 h1.2

/-- The state of `#instance` after one call, and the object it then refers to. -/
theorem call_instance (s : ManagerState) (c : ManagerCall)
    (hinv : ∀ ref, s.instanceRef = some ref → ∃ store, s.managers.get? ref = some ⟨some store⟩) :
    (s.call c).instanceRef.isSome =
        (match c with
         | .initInstance _ => true
         | .destroy _ => false
         | _ => s.instanceRef.isSome) ∧
      ∀ ref, (s.call c).instanceRef = some ref →
        ∃ store, (s.call c).managers.get? ref = some ⟨some store⟩ := by
  cases hs : s.instanceRef with
  | some ref =>
    obtain ⟨store, hm⟩ := hinv ref hs
    cases c with
    | destroy r =>
      simp [ManagerState.call, CacheManager.destroy]
    | initInstance o =>
      have := call_keeps_instance s (.initInstance o) ref store rfl hs hm
      simp only [this.1, Option.isSome_some, true_and]
      intro r hr
      rw [← Option.some.inj hr]
      exact ⟨store, this.2⟩
    | loadCache r fs p =>
      have := call_keeps_instance s (.loadCache r fs p) ref store rfl hs hm
      simp only [this.1, Option.isSome_some, true_and]
      intro r hr
      rw [← Option.some.inj hr]
      exact ⟨store, this.2⟩
    | construct o =>
      have := call_keeps_instance s (.construct o) ref store rfl hs hm
      simp only [this.1, Option.isSome_some, true_and]
      intro r hr
      rw [← Option.some.inj hr]
      exact ⟨store, this.2⟩
    | getCacheInstance =>
      have := call_keeps_instance s .getCacheInstance ref store rfl hs hm
      simp only [this.1, Option.isSome_some, true_and]
      intro r hr
      rw [← Option.some.inj hr]
      exact ⟨store, this.2⟩
    | useStore st f =>
      have := call_keeps_instance s (.useStore st f) ref store rfl hs hm
      simp only [this.1, Option.isSome_some, true_and]
      intro r hr
      rw [← Option.some.inj hr]
      exact ⟨store, this.2⟩
  | none =>
    cases c with
    | destroy r => simp [ManagerState.call, CacheManager.destroy]
    | initInstance o =>
      simp only [ManagerState.call, CacheManager.initInstance, CacheManager.new, hs,
        Option.isSome_none, Bool.false_eq_true, if_false, bind, Except.bind, pure, Except.pure,
        Option.isSome_some, true_and]
      intro r hr
      rw [← Option.some.inj hr]
      exact ⟨s.stores.length, by simp [List.get?_eq_getElem?]⟩
    | loadCache r fs p =>
      have := loadCache_fields s r fs p
      simp only [ManagerState.call, this.1, hs, Option.isSome_none, true_and]
      intro r hr
      cases hr
    | construct o =>
      simp only [ManagerState.call, CacheManager.new, hs, Option.isSome_none,
        Bool.false_eq_true, if_false, true_and]
      intro r hr
      cases hr
    | getCacheInstance =>
      simp only [ManagerState.call, hs, Option.isSome_none, true_and]
      intro r hr
      cases hr
    | useStore st f =>
      have := updateStore_fields s st f
      simp only [ManagerState.call, this.1, hs, Option.isSome_none, true_and]
      intro r hr
      cases hr
theorem calls_instance (calls : List ManagerCall) :
    ∀ (s : ManagerState) (b : Bool), s.instanceRef.isSome = b →
      (∀ ref, s.instanceRef = some ref → ∃ store, s.managers.get? ref = some ⟨some store⟩) →
      (calls.foldl ManagerState.call s).instanceRef.isSome =
          calls.foldl (fun live c =>
            match c with
            | .initInstance _ => true
            | .destroy _ => false
            | _ => live) b ∧
        ∀ ref, (calls.foldl ManagerState.call s).instanceRef = some ref →
          ∃ store, (calls.foldl ManagerState.call s).managers.get? ref = some ⟨some store⟩ := by
  induction calls with
  | nil => intro s b hb hinv; exact ⟨hb, hinv⟩
  | cons c t ih =>
    intro s b hb hinv
    have h1 := call_instance s c hinv
    simp only [List.foldl_cons]
    apply ih (s.call c) _ _ h1.2
    rw [h1.1, hb]

theorem after_instance (calls : List ManagerCall) :
    (ManagerState.after calls).instanceRef.isSome = liveAfter calls ∧
      ∀ ref, (ManagerState.after calls).instanceRef = some ref →
        ∃ store, (ManagerState.after calls).managers.get? ref = some ⟨some store⟩ :=
  calls_instance calls ManagerState.initial false rfl (by intro ref h; cases h)

/-- C16: the singleton lifecycle, for every sequence of calls on the freshly loaded module.
`getCacheInstance` throws the initialization error exactly when no instance is live
(`initInstance` has not been called, or `destroy` has been called since its last call).
While an instance is live, `getCacheInstance` returns a store, and the same store after any
further calls that do not include `destroy`; `initInstance` returns at once and leaves the
module, with that store and its contents, as it is; and `new CacheManager` throws (it does
not throw when no instance is live). -/
theorem getCacheInstance_lifecycle (calls : List ManagerCall) :
    (CacheManager.getCacheInstance (ManagerState.after calls) =
        .error "CacheManager instance not initiated. Use CacheManager.initInstance(options: CacheOptions)"
      ↔ liveAfter calls = false) ∧
    (liveAfter calls = true →
      ∃ store, CacheManager.getCacheInstance (ManagerState.after calls) = .ok (some store) ∧
        ∀ more : List ManagerCall, (∀ c ∈ more, c.isDestroy = false) →
          CacheManager.getCacheInstance (ManagerState.after (calls ++ more)) =
            .ok (some store)) ∧
    (liveAfter calls = true → ∀ options,
      CacheManager.initInstance (ManagerState.after calls) options =
        .ok (none, ManagerState.after calls)) ∧
    (∀ options,
      CacheManager.new (ManagerState.after calls) options =
          .error "CacheManager instance already created. Use CacheManager.getInstance()"
        ↔ liveAfter calls = true) := by
  obtain ⟨h1, h2⟩ := after_instance calls
  cases hs : (ManagerState.after calls).instanceRef with
  | none =>
    rw [hs] at h1
    have hl : liveAfter calls = false := h1.symm
    refine ⟨?_, ?_, ?_, ?_⟩
    · simp [CacheManager.getCacheInstance, hs, hl]
    · intro h; rw [hl] at h; cases h
    · intro h; rw [hl] at h; cases h
    · intro o
      simp [CacheManager.new, hs, hl]
  | some ref =>
    rw [hs] at h1
    have hl : liveAfter calls = true := h1.symm
    obtain ⟨store, hm⟩ := h2 ref hs
    have hg : ∀ s : ManagerState, s.instanceRef = some ref →
        s.managers.get? ref = some ⟨some store⟩ →
        CacheManager.getCacheInstance s = .ok (some store) := by
      intro s h3 h4
      unfold CacheManager.getCacheInstance
      rw [h3]
      simp only [h4]
    refine ⟨?_, ?_, ?_, ?_⟩
    · rw [hg _ hs hm, hl]
      simp
    · intro _
      refine ⟨store, hg _ hs hm, ?_⟩
      intro more hmore
      have := calls_keep_instance more (ManagerState.after calls) ref store hmore hs hm
      unfold ManagerState.after at this ⊢
      rw [List.foldl_append]
      exact hg _ this.1 this.2
    · intro _ o
      simp [CacheManager.initInstance, hs]
    · intro o
      simp [CacheManager.new, hs, hl]
/-! ## Memoization -/

theorem returnedFor_append {β : Type} (r : Nat) (log : List (Nat × Except String β))
    (x : Nat × Except String β) :
    returnedFor r (log ++ [x]) = returnedFor r log ++ returnedFor r [x] := by
  unfold returnedFor
  rw [List.filter_append]

theorem returnedFor_ok {β : Type} (r req : Nat) (v : β) :
    returnedFor r [(req, (Except.ok v : Except String β))] =
      if req = r then [(req, .ok v)] else [] := by
  by_cases h : req = r
  · simp [returnedFor, Except.isOk, Except.toBool, h]
  · simp [returnedFor, Except.isOk, Except.toBool, h]

theorem returnedFor_error {β : Type} (r req : Nat) (e : String) :
    returnedFor r [(req, (Except.error e : Except String β))] = [] := by
  simp [returnedFor, Except.isOk, Except.toBool]

theorem requestMemoize_consistent {α β : Type} (fn : Nat → Nat → α → Except String β)
    (s : MemoState β) (req : Nat) (args : α) (hs : s.Consistent) :
    (requestMemoize fn s req args).2.Consistent := by
  unfold requestMemoize
  cases hc : s.cache req with
  | some result => exact hs
  | none =>
    simp only []
    cases hf : fn s.invocations.length req args with
    | error e =>
      intro r
      simp only [returnedFor_append, returnedFor_error, List.append_nil]
      exact hs r
    | ok result =>
      intro r
      simp only [returnedFor_append, returnedFor_ok]
      by_cases hr : r = req
      · subst hr
        simp only [if_true, (hs r).2 hc, List.nil_append]
        constructor
        · intro v hv
          cases hv
          rfl
        · intro hn
          cases hn
      · have hr2 : ¬ req = r := fun e => hr e.symm
        simp only [if_neg hr, if_neg hr2, List.append_nil]
        exact hs r

theorem memoizedCalls_consistent {α β : Type} (fn : Nat → Nat → α → Except String β)
    (calls : List (Nat × α)) : (memoizedCalls fn calls).Consistent := by
  unfold memoizedCalls
  have : ∀ s : MemoState β, s.Consistent →
      (calls.foldl (fun s c => (requestMemoize fn s c.1 c.2).2) s).Consistent := by
    induction calls with
    | nil => intro s hs; exact hs
    | cons c t ih =>
      intro s hs
      exact ih _ (requestMemoize_consistent fn s c.1 c.2 hs)
  apply this
  intro r
  constructor
  · intro v hv
    cases hv
  · intro _
    rfl

/-- For every wrapped function, every sequence of calls of the memoized function and every
request object: at most one invocation of the wrapped function with that request object
has returned; once one has returned `v`, every call with that request object, with any
arguments, returns `v` and invokes nothing; and a call with a request object for which no
invocation has returned yet invokes the wrapped function and returns or throws what it
does. -/
theorem requestMemoize_returned_once {α β : Type} (fn : Nat → Nat → α → Except String β)
    (calls : List (Nat × α)) (req : Nat) :
    (returnedFor req (memoizedCalls fn calls).invocations).length ≤ 1 ∧
    (∀ v, (req, Except.ok v) ∈ (memoizedCalls fn calls).invocations → ∀ args,
      requestMemoize fn (memoizedCalls fn calls) req args =
        (.ok v, memoizedCalls fn calls)) ∧
    (returnedFor req (memoizedCalls fn calls).invocations = [] → ∀ args,
      (requestMemoize fn (memoizedCalls fn calls) req args).1 =
          fn (memoizedCalls fn calls).invocations.length req args ∧
        (requestMemoize fn (memoizedCalls fn calls) req args).2.invocations =
          (memoizedCalls fn calls).invocations ++
            [(req, fn (memoizedCalls fn calls).invocations.length req args)]) := by
  have hs := memoizedCalls_consistent fn calls req
  generalize memoizedCalls fn calls = s at hs
  cases hc : s.cache req with
  | none =>
    have h0 := hs.2 hc
    refine ⟨by rw [h0]; simp, ?_, ?_⟩
    · intro v hv
      have : (req, Except.ok v) ∈ returnedFor req s.invocations := by
        unfold returnedFor
        rw [List.mem_filter]
        exact ⟨hv, by simp [Except.isOk, Except.toBool]⟩
      rw [h0] at this
      cases this
    · intro _ args
      unfold requestMemoize
      rw [hc]
      simp only []
      cases fn s.invocations.length req args <;> exact ⟨rfl, rfl⟩
  | some w =>
    have h1 := hs.1 w hc
    refine ⟨by rw [h1]; simp, ?_, ?_⟩
    · intro v hv args
      have : (req, Except.ok v) ∈ returnedFor req s.invocations := by
        unfold returnedFor
        rw [List.mem_filter]
        exact ⟨hv, by simp [Except.isOk, Except.toBool]⟩
      rw [h1, List.mem_singleton] at this
      have hv2 : v = w := by
        have := (Prod.mk.inj this).2
        exact Except.ok.inj this
      unfold requestMemoize
      rw [hc, hv2]
    · intro h0
      rw [h1] at h0
      cases h0

/-- C26 (counterexample): an invocation that throws stores nothing, so a wrapped function
that throws (as `getFullUrl` does for a request whose URL does not resolve) is invoked
again by the second call with the same request object: two invocations for one request. -/
theorem requestMemoize_reinvokes_after_throw :
    (memoizedCalls throwingFn [(0, ()), (0, ())]).invocations =
      [(0, .error "invalid URL"), (0, .error "invalid URL")] ∧
    ((memoizedCalls throwingFn [(0, ()), (0, ())]).invocations.filter
      (fun i => decide (i.1 = 0))).length = 2 := by
  decide

theorem requestMemoize_log_ok {α β : Type} (fn : Nat → Nat → α → Except String β)
    (hfn : ∀ n r a, ∃ v, fn n r a = .ok v) (calls : List (Nat × α)) :
    ∀ i ∈ (memoizedCalls fn calls).invocations, i.2.isOk = true := by
  unfold memoizedCalls
  have : ∀ s : MemoState β, (∀ i ∈ s.invocations, i.2.isOk = true) →
      ∀ i ∈ (calls.foldl (fun s c => (requestMemoize fn s c.1 c.2).2) s).invocations,
        i.2.isOk = true := by
    induction calls with
    | nil => intro s hs; exact hs
    | cons c t ih =>
      intro s hs
      apply ih
      dsimp only
      unfold requestMemoize
      cases hc : s.cache c.1 with
      | some result => exact hs
      | none =>
        obtain ⟨v, hv⟩ := hfn s.invocations.length c.1 c.2
        simp only [hv]
        intro i hi
        rcases List.mem_append.mp hi with h | h
        · exact hs i h
        · simp only [List.mem_singleton] at h
          rw [h]
          rfl
  apply this
  intro i hi
  cases hi

/-- C26 (amended): for every wrapped function, every sequence of calls of the memoized
function and every request object: at most one invocation of the wrapped function with
that request object has returned; once one has returned `v`, every call with that request
object, with any arguments, returns `v` and invokes nothing; a call with a request object
for which no invocation has returned yet (another request object, whatever its URL, or one
for which the wrapped function has only thrown so far) invokes the wrapped function and
returns or throws what it does; and for a wrapped function that never throws, the wrapped
function has been invoked at most once with each request object. -/
theorem requestMemoize_invokes_once {α β : Type} (fn : Nat → Nat → α → Except String β)
    (calls : List (Nat × α)) (req : Nat) :
    (returnedFor req (memoizedCalls fn calls).invocations).length ≤ 1 ∧
    (∀ v, (req, Except.ok v) ∈ (memoizedCalls fn calls).invocations → ∀ args,
      requestMemoize fn (memoizedCalls fn calls) req args =
        (.ok v, memoizedCalls fn calls)) ∧
    (returnedFor req (memoizedCalls fn calls).invocations = [] → ∀ args,
      (requestMemoize fn (memoizedCalls fn calls) req args).1 =
          fn (memoizedCalls fn calls).invocations.length req args ∧
        (requestMemoize fn (memoizedCalls fn calls) req args).2.invocations =
          (memoizedCalls fn calls).invocations ++
            [(req, fn (memoizedCalls fn calls).invocations.length req args)]) ∧
    ((∀ n r a, ∃ v, fn n r a = .ok v) →
      ((memoizedCalls fn calls).invocations.filter
        (fun i => decide (i.1 = req))).length ≤ 1) := by
  obtain ⟨h1, h2, h3⟩ := requestMemoize_returned_once fn calls req
  refine ⟨h1, h2, h3, ?_⟩
  intro hfn
  have hall := requestMemoize_log_ok fn hfn calls
  have hfilter : (memoizedCalls fn calls).invocations.filter (fun i => decide (i.1 = req)) =
      returnedFor req (memoizedCalls fn calls).invocations := by
    unfold returnedFor
    apply List.filter_congr
    intro i hi
    rw [hall i hi, Bool.and_true]
  rw [hfilter]
  exact h1
/-! ## Routing -/

theorem findMatchedRouteLoop_found (exec : PatternExec) (fullUrl : JsString)
    (routes : List CompiledRoute) (i : Nat) (m : CompiledRoute × RouteParams) :
    findMatchedRouteLoop exec fullUrl routes i (some m) = some m := by
  cases i <;> rfl

theorem findMatchedRouteLoop_eq (exec : PatternExec) (fullUrl : JsString)
    (routes : List CompiledRoute) :
    ∀ i, i ≤ routes.length →
      findMatchedRouteLoop exec fullUrl routes i none =
        firstMatch exec fullUrl (routes.take i).reverse := by
  intro i
  induction i with
  | zero => intro _; rfl
  | succ i ih =>
    intro hi
    have hlt : i < routes.length := hi
    have ht : routes.take (i + 1) = routes.take i ++ [routes[i]] := by
      rw [List.take_succ, List.getElem?_eq_getElem hlt]
      rfl
    rw [ht, List.reverse_append, List.reverse_singleton, List.singleton_append]
    unfold firstMatch
    rw [List.findSome?_cons]
    unfold findMatchedRouteLoop
    simp only [List.get?_eq_getElem?, List.getElem?_eq_getElem hlt]
    cases exec (routes[i]).path fullUrl with
    | some params =>
      simp only [Option.map_some']
      exact findMatchedRouteLoop_found _ _ _ _ _
    | none =>
      simp only [Option.map_none']
      exact ih (Nat.le_of_lt hlt)

/-- C27: `findMatchedRoute` scans the list from its end, so it returns the last route of
the list whose pattern matches the URL of the request (the first match of the reversed
list), with the parameters of that pattern, and `undefined` exactly when no route matches.
With a route for `/items/7` followed by a route that matches everything, a request for
`/items/7` gets the second route, although the first route of the list matches. -/
theorem findMatchedRoute_returns_last_match (host : Host) (exec : PatternExec)
    (request : Request) (routes : List CompiledRoute) :
    (findMatchedRoute host exec request routes =
      (getFullUrl host request).map (fun fullUrl => firstMatch exec fullUrl routes.reverse)) ∧
    (∀ fullUrl, getFullUrl host request = .ok fullUrl →
      (findMatchedRoute host exec request routes = .ok none ↔
        ∀ route ∈ routes, exec route.path fullUrl = none)) ∧
    (firstMatch suffixExec "https://shop.example/items/7".toList [itemRoute, fallbackRoute] =
        some (itemRoute, []) ∧
      findMatchedRoute exampleHost suffixExec itemRequest [itemRoute, fallbackRoute] =
        .ok (some (fallbackRoute, []))) := by
  have h1 : findMatchedRoute host exec request routes =
      (getFullUrl host request).map (fun fullUrl => firstMatch exec fullUrl routes.reverse) := by
    unfold findMatchedRoute
    cases getFullUrl host request with
    | error e => rfl
    | ok fullUrl =>
      simp only [bind, Except.bind, pure, Except.pure, Except.map]
      rw [findMatchedRouteLoop_eq exec fullUrl routes routes.length (Nat.le_refl _),
        List.take_length]
  refine ⟨h1, ?_, by decide⟩
  intro fullUrl hu
  rw [h1, hu]
  simp only [Except.map, firstMatch]
  constructor
  · intro h route hr
    have h2 := Except.ok.inj h
    rw [List.findSome?_eq_none_iff] at h2
    have := h2 route (List.mem_reverse.mpr hr)
    simpa using this
  · intro h
    congr 1
    rw [List.findSome?_eq_none_iff]
    intro route hr
    rw [h route (List.mem_reverse.mp hr)]
    rfl
/-! ## The error response -/

theorem newResponse_ok (body : List Nat) (status : Int) (headers : Headers)
    (h : 200 ≤ status ∧ status ≤ 599 ∧ status ∉ nullBodyStatus) :
    newResponse body status headers = .ok { body := body, status := status, headers := headers } := by
  unfold newResponse
  rw [if_neg (by omega), if_neg h.2.2]

/-- The three cases of `errorResponse`. -/
theorem errorResponse_parts (message responseText : JsString)
    (statusCode defaultStatusCode : Int)
    (h1 : 200 ≤ statusCode ∧ statusCode ≤ 599 ∧ statusCode ∉ nullBodyStatus)
    (h2 : 200 ≤ defaultStatusCode ∧ defaultStatusCode ≤ 599 ∧
      defaultStatusCode ∉ nullBodyStatus) :
    errorResponse (.routeError message statusCode responseText) defaultStatusCode =
      .ok { body := utf8Encode (jsonStringify
              ([("error".toList, JsonValue.string "RouteError".toList),
                ("message".toList, JsonValue.string
                  (if message = [] then "A routing error occurred".toList else message)),
                ("statusCode".toList, JsonValue.number statusCode)] ++
               (if responseText = [] then []
                else [("responseText".toList, JsonValue.string responseText)]))),
            status := statusCode,
            headers := ⟨[("content-type".toList, "application/json".toList)]⟩ } ∧
    errorResponse (.error message) defaultStatusCode =
      .ok { body := utf8Encode (jsonStringify
              [("error".toList, JsonValue.string "ServerError".toList),
               ("message".toList, JsonValue.string message),
               ("statusCode".toList, JsonValue.number defaultStatusCode)]),
            status := defaultStatusCode,
            headers := ⟨[("content-type".toList, "application/json".toList)]⟩ } ∧
    errorResponse .value defaultStatusCode =
      .ok { body := utf8Encode (jsonStringify
              [("error".toList, JsonValue.string "ServerError".toList),
               ("message".toList, JsonValue.string "An unexpected error occurred".toList),
               ("statusCode".toList, JsonValue.number defaultStatusCode)]),
            status := defaultStatusCode,
            headers := ⟨[("content-type".toList, "application/json".toList)]⟩ } := by
  have hh : Headers.empty.set "Content-Type".toList "application/json".toList =
      ⟨[("content-type".toList, "application/json".toList)]⟩ := by decide
  refine ⟨?_, ?_, ?_⟩
  · unfold errorResponse
    simp only [hh]
    rw [newResponse_ok _ _ _ h1]
    cases message <;> cases responseText <;> simp [orElse]
  · unfold errorResponse
    simp only [hh]
    rw [newResponse_ok _ _ _ h2]
    simp
  · unfold errorResponse
    simp only [hh]
    rw [newResponse_ok _ _ _ h2]
    simp

/-- C25: `errorResponse` builds the structured error response, for statuses a `Response`
with a body can carry (200 to 599 other than 204, 205 and 304). For a `RouteError` the
status is its `statusCode` and the body is the JSON text of `error` `RouteError`, `message`
its message (`A routing error occurred` when that is empty), `statusCode`, and
`responseText` exactly when that is not empty. For another `Error` the status is
`defaultStatusCode` and the body has `error` `ServerError` and the message of the error; for
a value that is not an `Error` the message is `An unexpected error occurred`. The content
type is `application/json`. -/
theorem errorResponse_structure (message responseText : JsString)
    (statusCode defaultStatusCode : Int)
    (h1 : 200 ≤ statusCode ∧ statusCode ≤ 599 ∧ statusCode ∉ nullBodyStatus)
    (h2 : 200 ≤ defaultStatusCode ∧ defaultStatusCode ≤ 599 ∧
      defaultStatusCode ∉ nullBodyStatus) :
    errorResponse (.routeError message statusCode responseText) defaultStatusCode =
      .ok { body := utf8Encode (jsonStringify
              ([("error".toList, JsonValue.string "RouteError".toList),
                ("message".toList, JsonValue.string
                  (if message = [] then "A routing error occurred".toList else message)),
                ("statusCode".toList, JsonValue.number statusCode)] ++
               (if responseText = [] then []
                else [("responseText".toList, JsonValue.string responseText)]))),
            status := statusCode,
            headers := ⟨[("content-type".toList, "application/json".toList)]⟩ } ∧
    errorResponse (.error message) defaultStatusCode =
      .ok { body := utf8Encode (jsonStringify
              [("error".toList, JsonValue.string "ServerError".toList),
               ("message".toList, JsonValue.string message),
               ("statusCode".toList, JsonValue.number defaultStatusCode)]),
            status := defaultStatusCode,
            headers := ⟨[("content-type".toList, "application/json".toList)]⟩ } ∧
    errorResponse .value defaultStatusCode =
      .ok { body := utf8Encode (jsonStringify
              [("error".toList, JsonValue.string "ServerError".toList),
               ("message".toList, JsonValue.string "An unexpected error occurred".toList),
               ("statusCode".toList, JsonValue.number defaultStatusCode)]),
            status := defaultStatusCode,
            headers := ⟨[("content-type".toList, "application/json".toList)]⟩ } :=
  errorResponse_parts message responseText statusCode defaultStatusCode h1 h2

/-- Witness for C25: a `RouteError` of the proxy for an upstream 502, with the default
status 500. -/
theorem errorResponse_structure_witness :
    errorResponse (.routeError "Proxy request failed".toList 502 "Bad Gateway".toList) 500 =
      .ok { body := utf8Encode (jsonStringify
              ([("error".toList, JsonValue.string "RouteError".toList),
                ("message".toList, JsonValue.string
                  (if "Proxy request failed".toList = [] then "A routing error occurred".toList
                   else "Proxy request failed".toList)),
                ("statusCode".toList, JsonValue.number 502)] ++
               (if "Bad Gateway".toList = [] then []
                else [("responseText".toList, JsonValue.string "Bad Gateway".toList)]))),
            status := 502,
            headers := ⟨[("content-type".toList, "application/json".toList)]⟩ } ∧
    errorResponse (.error "Proxy request failed".toList) 500 =
      .ok { body := utf8Encode (jsonStringify
              [("error".toList, JsonValue.string "ServerError".toList),
               ("message".toList, JsonValue.string "Proxy request failed".toList),
               ("statusCode".toList, JsonValue.number 500)]),
            status := 500,
            headers := ⟨[("content-type".toList, "application/json".toList)]⟩ } ∧
    errorResponse .value 500 =
      .ok { body := utf8Encode (jsonStringify
              [("error".toList, JsonValue.string "ServerError".toList),
               ("message".toList, JsonValue.string "An unexpected error occurred".toList),
               ("statusCode".toList, JsonValue.number 500)]),
            status := 500,
            headers := ⟨[("content-type".toList, "application/json".toList)]⟩ } :=
  errorResponse_structure "Proxy request failed".toList "Bad Gateway".toList 502 500
    (by decide) (by decide)
/-! ## The request listener -/

theorem get_set_self (h : Headers) (n v : JsString) :
    (h.set n v).get n = some (normalizeValue v) := by
  unfold Headers.get
  rw [valuesOf_set_self]
  simp only [join_singleton]

theorem get_set_other (h : Headers) (n v m : JsString) (hm : lowerName m ≠ lowerName n) :
    (h.set n v).get m = h.get m := by
  unfold Headers.get
  rw [valuesOf_set_other _ _ _ _ hm]

theorem get_setCORSHeaders (h : Headers) (m : JsString)
    (h1 : lowerName m ≠ "access-control-allow-origin".toList)
    (h2 : lowerName m ≠ "access-control-allow-methods".toList)
    (h3 : lowerName m ≠ "access-control-allow-headers".toList)
    (h4 : lowerName m ≠ "access-control-allow-credentials".toList) :
    (setCORSHeaders h).get m = h.get m := by
  unfold setCORSHeaders
  simp only []
  rw [get_set_other _ _ _ _ (by rw [show lowerName "Access-Control-Allow-Credentials".toList =
        "access-control-allow-credentials".toList by decide]; exact h4),
    get_set_other _ _ _ _ (by rw [show lowerName "Access-Control-Allow-Headers".toList =
        "access-control-allow-headers".toList by decide]; exact h3),
    get_set_other _ _ _ _ (by rw [show lowerName "Access-Control-Allow-Methods".toList =
        "access-control-allow-methods".toList by decide]; exact h2),
    get_set_other _ _ _ _ (by rw [show lowerName "Access-Control-Allow-Origin".toList =
        "access-control-allow-origin".toList by decide]; exact h1)]

/-- Reading a header from the `Headers` object rebuilt from the entries of another: the
value the other one gives, normalized once more. -/
theorem get_ofEntries_entries (h : Headers) (hw : h.WellFormed) :
    ∃ h2, Headers.ofEntries h.entries = .ok h2 ∧ h2.WellFormed ∧
      ∀ n, lowerName n = n → n ≠ setCookie → h2.get n = (h.get n).map normalizeValue := by
  obtain ⟨h2, ho, hget⟩ := ofEntries_entries h hw
  refine ⟨h2, ho, ofEntries_wellFormed _ _ ho, ?_⟩
  intro n hlow hc
  by_cases hn : n ∈ h.list.map (fun p => p.1)
  · rw [hget n hlow hc hn]
    unfold Headers.get
    rw [hlow]
    have := (mem_names_iff_valuesOf h n).mp hn
    cases hv : h.valuesOf n with
    | nil => exact absurd hv this
    | cons v vs => rfl
  · have e1 : h.valuesOf n = [] := by
      by_contra hne
      exact hn ((mem_names_iff_valuesOf h n).mpr hne)
    have e2 : h2.valuesOf n = [] := by
      rw [valuesOf_ofEntries _ _ ho n, filter_lower_entries h hw n,
        filter_entries_of_not_mem h n hn]
      rfl
    unfold Headers.get
    rw [hlow, e1, e2]
    rfl
theorem get_congr_lower (h : Headers) (a b : JsString) (hab : lowerName a = lowerName b) :
    h.get a = h.get b := by
  unfold Headers.get
  rw [hab]

/-- The response made from a record with a non-empty body, headers that `new Headers`
accepts and a status that `new Response` accepts. -/
theorem respond_ok (data : ResponseCacheableObject) (h2 : Headers)
    (hb : data.body ≠ []) (ho : Headers.ofEntries data.headers = .ok h2)
    (hs : 200 ≤ data.status ∧ data.status ≤ 599 ∧ data.status ∉ nullBodyStatus) :
    respond data =
      .written { body := data.body, status := data.status,
                 headers := setCORSHeaders
                   (if orElse (h2.get "x-cache".toList) [] = [] then
                      h2.set "X-Cache".toList "MISS".toList
                    else h2) } := by
  unfold respond
  rw [if_neg (by rw [List.length_eq_zero]; exact hb), ho]
  simp only []
  rw [newResponse_ok _ _ _ hs]

/-- The response on a hit. -/
theorem serveHit_ok (data : ResponseCacheableObject) (h : Headers)
    (hb : data.body ≠ []) (ho : Headers.ofEntries data.headers = .ok h)
    (hs : 200 ≤ data.status ∧ data.status ≤ 599 ∧ data.status ∉ nullBodyStatus) :
    ∃ h2, serveHit data =
        .written { body := data.body, status := data.status, headers := setCORSHeaders h2 } ∧
      Headers.ofEntries (h.set "X-Cache".toList "HIT".toList).entries = .ok h2 ∧
      h2.get "x-cache".toList = some "HIT".toList ∧
      ∀ n, lowerName n = n → n ≠ setCookie → n ≠ "x-cache".toList →
        h2.get n = (h.get n).map normalizeValue := by
  have hw := ofEntries_wellFormed _ _ ho
  have hw1 := wellFormed_set h "X-Cache".toList "HIT".toList hw (by decide) (by decide)
  obtain ⟨h2, ho2, _, hget⟩ := get_ofEntries_entries _ hw1
  have hx : h2.get "x-cache".toList = some "HIT".toList := by
    rw [hget _ (by decide) (by decide), get_congr_lower _ "x-cache".toList "X-Cache".toList
      (by decide), get_set_self]
    decide
  refine ⟨h2, ?_, ho2, hx, ?_⟩
  · unfold serveHit
    rw [ho]
    simp only []
    rw [respond_ok { data with headers := (h.set "X-Cache".toList "HIT".toList).entries } h2
      hb ho2 hs, hx]
    simp only [orElse]
    rw [if_neg (by decide)]
  · intro n hlow hc hn
    rw [hget n hlow hc, get_set_other _ _ _ _ (by
      rw [hlow, show lowerName "X-Cache".toList = "x-cache".toList by decide]
      exact hn)]

/-- The response of the `catch` block, for an error whose status `new Response` accepts. -/
theorem caught_ok (ex : Thrown)
    (hs : ∀ m s t, ex = .routeError m s t → 200 ≤ s ∧ s ≤ 599 ∧ s ∉ nullBodyStatus) :
    ∃ r, caught ex = .written r ∧ r.headers.get "x-cache".toList = some "ERROR".toList ∧
      r.status = (match ex with
        | .routeError _ s _ => s
        | _ => 500) := by
  have h500 : (200 : Int) ≤ 500 ∧ (500 : Int) ≤ 599 ∧ (500 : Int) ∉ nullBodyStatus := by decide
  have hx : ∀ h : Headers, ((setCORSHeaders h).set "X-Cache".toList "ERROR".toList).get
      "x-cache".toList = some "ERROR".toList := by
    intro h
    rw [get_congr_lower _ "x-cache".toList "X-Cache".toList (by decide), get_set_self]
    decide
  cases ex with
  | routeError m s t =>
    have e := (errorResponse_parts m t s 500 (hs m s t rfl) h500).1
    unfold caught
    rw [e]
    exact ⟨_, rfl, hx ⟨[("content-type".toList, "application/json".toList)]⟩, rfl⟩
  | error m =>
    have e := (errorResponse_parts m [] 500 500 h500 h500).2.1
    unfold caught
    rw [e]
    exact ⟨_, rfl, hx ⟨[("content-type".toList, "application/json".toList)]⟩, rfl⟩
  | value =>
    have e := (errorResponse_parts [] [] 500 500 h500 h500).2.2
    unfold caught
    rw [e]
    exact ⟨_, rfl, hx ⟨[("content-type".toList, "application/json".toList)]⟩, rfl⟩
/-- The listener for a request that reaches the cache decision. -/
theorem listener_reached (o : RunOptions) (s : Server) (req : Request) (route : CompiledRoute)
    (params : RouteParams) (requestHeaders : Headers) (requestId : JsString)
    (hr : ReachesCache o req route params requestHeaders requestId) :
    s.listener o req =
      if workWithCache o route req requestHeaders = true then
        match s.cache.peek requestId with
        | some data =>
          if data.body.length ≠ 0 then
            (serveHit data, s.request requestId (requestAcceptableEncodings requestHeaders)
              (o.handlerThrows route req params).isSome)
          else
            (awaitHandler (o.handlerThrows route req params) route params true requestId
                (requestAcceptableEncodings requestHeaders),
              s.request requestId (requestAcceptableEncodings requestHeaders)
                (o.handlerThrows route req params).isSome)
        | none =>
          (awaitHandler (o.handlerThrows route req params) route params true requestId
              (requestAcceptableEncodings requestHeaders),
            s.request requestId (requestAcceptableEncodings requestHeaders)
              (o.handlerThrows route req params).isSome)
      else
        (awaitHandler (o.handlerThrows route req params) route params false requestId
            (requestAcceptableEncodings requestHeaders),
          { s with originCalls := s.originCalls + 1 }) := by
  obtain ⟨h1, h2, h3, h4, h5, h6, h7, h8⟩ := hr
  unfold Server.listener
  rw [h1, h2, if_neg (by simp), if_neg (by simp), if_neg h3, h4, h5]
  simp only [h6, h7, h8, Bool.false_eq_true, if_false]

/-- The decision `workWithCache`, in one formula. -/
theorem workWithCache_iff (o : RunOptions) (route : CompiledRoute) (req : Request)
    (requestHeaders : Headers) :
    workWithCache o route req requestHeaders = true ↔
      (o.cache = true ∧ cacheRequest requestHeaders = true ∧ route.cache = true ∧
        (toUpperCase req.method ∈ ["GET".toList, "HEAD".toList, "OPTIONS".toList] ∨
          route.isGraphQL = true)) ∧
      (route.isGraphQL = true →
        getBodyAsText req = [] ∨
        ∃ truthy, o.jsonParse (getBodyAsText req) = .ok (.value truthy) ∧
          truthy "mutate".toList = false ∧ truthy "mutation".toList = false) := by
  unfold workWithCache
  simp only []
  by_cases hg : route.isGraphQL = true
  · rw [if_pos hg]
    by_cases hb : getBodyAsText req = []
    · simp [hb, hg, and_assoc]
    · rw [if_pos hb]
      cases hp : o.jsonParse (getBodyAsText req) with
      | error e => simp [hb, hg]
      | ok parsed =>
        cases parsed with
        | null => simp [hb, hg]
        | value truthy =>
          simp only []
          by_cases ht : (truthy "mutate".toList || truthy "mutation".toList) = true
          · rw [if_pos ht]
            simp only [Bool.false_eq_true, false_iff, not_and]
            intro _ h2
            rcases h2 hg with e | ⟨t2, e1, e2, e3⟩
            · exact hb e
            · have := Except.ok.inj e1
              cases this
              rw [e2, e3] at ht
              simp at ht
          · rw [if_neg ht]
            simp only [Bool.or_eq_true, not_or, Bool.not_eq_true] at ht
            have t1 : truthy ['m', 'u', 't', 'a', 't', 'e'] = false := ht.1
            have t2 : truthy ['m', 'u', 't', 'a', 't', 'i', 'o', 'n'] = false := ht.2
            simp [hg, hb, t1, t2, and_assoc]
  · rw [if_neg hg]
    simp [hg, and_assoc]
/-- C17 (amended): for a request that reaches the cache decision of the listener (it is not
answered before as favicon, health check or `OPTIONS` request, and a route with a handler
matches), the listener works with the cache exactly when a cache was passed to `run`, the
`cache-control` header does not contain `no-cache`, the route has `cache` enabled, the
method is GET, HEAD or OPTIONS in any case or the route is flagged `isGraphQL`, and, for a
route flagged `isGraphQL`, the body is empty or parses to a value whose properties `mutate`
and `mutation` are falsy. When it works with the cache, the state changes as
`Server.request` says (the store is read); when it does not, the listener calls the origin
handler (and waits for what it returns, or answers from its `catch` block when the call
throws) and the store, the dedup set and the tasks stay as they are. -/
theorem listener_cacheability (o : RunOptions) (s : Server) (req : Request)
    (route : CompiledRoute) (params : RouteParams) (requestHeaders : Headers)
    (requestId : JsString) (hr : ReachesCache o req route params requestHeaders requestId) :
    (workWithCache o route req requestHeaders = true ↔
      (o.cache = true ∧ cacheRequest requestHeaders = true ∧ route.cache = true ∧
        (toUpperCase req.method ∈ ["GET".toList, "HEAD".toList, "OPTIONS".toList] ∨
          route.isGraphQL = true)) ∧
      (route.isGraphQL = true →
        getBodyAsText req = [] ∨
        ∃ truthy, o.jsonParse (getBodyAsText req) = .ok (.value truthy) ∧
          truthy "mutate".toList = false ∧ truthy "mutation".toList = false)) ∧
    (workWithCache o route req requestHeaders = true →
      (s.listener o req).2 =
        s.request requestId (requestAcceptableEncodings requestHeaders)
          (o.handlerThrows route req params).isSome) ∧
    (workWithCache o route req requestHeaders = false →
      s.listener o req =
        (awaitHandler (o.handlerThrows route req params) route params false requestId
            (requestAcceptableEncodings requestHeaders),
          { s with originCalls := s.originCalls + 1 })) := by
  refine ⟨workWithCache_iff o route req requestHeaders, ?_, ?_⟩
  · intro hw
    rw [listener_reached o s req route params requestHeaders requestId hr, if_pos hw]
    cases s.cache.peek requestId with
    | none => rfl
    | some data =>
      simp only []
      split <;> rfl
  · intro hw
    rw [listener_reached o s req route params requestHeaders requestId hr,
      if_neg (by rw [hw]; simp)]

/-- Witness for C17: a GET request for a cached route, on a server with a cache. -/
theorem listener_cacheability_witness :
    (workWithCache exampleRun itemRoute itemRequest
        ⟨[("host".toList, "shop.example".toList)]⟩ = true ↔
      (exampleRun.cache = true ∧
        cacheRequest ⟨[("host".toList, "shop.example".toList)]⟩ = true ∧
        itemRoute.cache = true ∧
        (toUpperCase itemRequest.method ∈ ["GET".toList, "HEAD".toList, "OPTIONS".toList] ∨
          itemRoute.isGraphQL = true)) ∧
      (itemRoute.isGraphQL = true →
        getBodyAsText itemRequest = [] ∨
        ∃ truthy, exampleRun.jsonParse (getBodyAsText itemRequest) = .ok (.value truthy) ∧
          truthy "mutate".toList = false ∧ truthy "mutation".toList = false)) ∧
    (workWithCache exampleRun itemRoute itemRequest
        ⟨[("host".toList, "shop.example".toList)]⟩ = true →
      (coldServer.listener exampleRun itemRequest).2 =
        coldServer.request "req:u:/items/7:h:".toList
          (requestAcceptableEncodings ⟨[("host".toList, "shop.example".toList)]⟩)
          (exampleRun.handlerThrows itemRoute itemRequest []).isSome) ∧
    (workWithCache exampleRun itemRoute itemRequest
        ⟨[("host".toList, "shop.example".toList)]⟩ = false →
      coldServer.listener exampleRun itemRequest =
        (awaitHandler (exampleRun.handlerThrows itemRoute itemRequest []) itemRoute [] false
            "req:u:/items/7:h:".toList
            (requestAcceptableEncodings ⟨[("host".toList, "shop.example".toList)]⟩),
          { coldServer with originCalls := coldServer.originCalls + 1 })) :=
  listener_cacheability exampleRun coldServer itemRequest itemRoute []
    ⟨[("host".toList, "shop.example".toList)]⟩ "req:u:/items/7:h:".toList (by decide)

/-- C17 (counterexample): two requests that meet the four conditions and are served
without the cache. An `OPTIONS` request for a cached route is answered with 204 before a
route is looked up, and the store is left as it is. A request to a cached GraphQL route
whose body has a truthy property `mutation` reaches the cache decision, which is negative:
the listener calls the origin handler and leaves the store as it is. -/
theorem listener_skips_cache_despite_conditions :
    (findMatchedRoute traceHost suffixExec optionsRequest exampleRun.routes =
        .ok (some (itemRoute, [])) ∧
      exampleRun.cache = true ∧ itemRoute.cache = true ∧
      cacheRequest ⟨optionsRequest.headers⟩ = true ∧
      toUpperCase optionsRequest.method ∈ ["GET".toList, "HEAD".toList, "OPTIONS".toList] ∧
      (warmServer.listener exampleRun optionsRequest).1 =
        .ended 204 (setCORSHeaders Headers.empty) ∧
      (warmServer.listener exampleRun optionsRequest).2.cache.entries =
        warmServer.cache.entries) ∧
    (ReachesCache exampleRun flaggedRequest graphRoute [] ⟨flaggedRequest.headers⟩
        (mutationKeyOf flaggedRequest) ∧
      exampleRun.cache = true ∧ graphRoute.cache = true ∧
      cacheRequest ⟨flaggedRequest.headers⟩ = true ∧ graphRoute.isGraphQL = true ∧
      workWithCache exampleRun graphRoute flaggedRequest ⟨flaggedRequest.headers⟩ = false ∧
      (warmServer.listener exampleRun flaggedRequest).1 =
        .awaitingHandler graphRoute [] false (mutationKeyOf flaggedRequest) [IDENTITY] ∧
      (warmServer.listener exampleRun flaggedRequest).2.cache.entries =
        warmServer.cache.entries) := by
  decide
/-- C18: the standard GraphQL body of a mutation, sent to a cached GraphQL route, is not
recognised: its text contains `mutation`, but the parsed body has no property `mutate` or
`mutation`, so the listener works with the cache. On a server with an empty store it reads
the store and waits for the origin handler; the answer is then written to the store under
the key of the request; and the same request, sent again, is answered from the store with
`X-Cache: HIT`. -/
theorem listener_caches_standard_mutation :
    includes mutationRequest.body "mutation".toList = true ∧
    ReachesCache exampleRun mutationRequest graphRoute [] ⟨mutationRequest.headers⟩
      mutationKey ∧
    workWithCache exampleRun graphRoute mutationRequest ⟨mutationRequest.headers⟩ = true ∧
    (coldServer.listener exampleRun mutationRequest).1 =
      .awaitingHandler graphRoute [] true mutationKey [IDENTITY] ∧
    (afterMutation.cache.peek mutationKey).map (fun r => r.body) =
      some (0x62 :: utf8Encode mutationResult.bodyText) ∧
    ((afterMutation.listener exampleRun mutationRequest).1.response.map
        (fun r => (r.body, r.headers.get "x-cache".toList))) =
      some (0x62 :: utf8Encode mutationResult.bodyText, some "HIT".toList) := by
  decide
/-! ## The responses of the listener -/

theorem notFoundResponse_ok :
    notFoundResponse = .ok notFound ∧ notFound.status = 404 ∧
      notFound.headers.get "x-cache".toList = none := by
  decide

/-- The response made from what the origin handler returned. -/
theorem serveOrigin_ok (z : Zlib) (acceptable : List JsString) (x : RouteData)
    (hx : x.WellFormed) (hne : acceptable ≠ [])
    (hb : encodeWith z x.bodyText (firstPreferred acceptable) ≠ [])
    (hs : StatusWithBody x.recordStatus) :
    ∃ h2, serveOrigin z acceptable (.ok x) =
        .written { body := encodeWith z x.bodyText (firstPreferred acceptable),
                   status := x.recordStatus,
                   headers := setCORSHeaders
                     (if orElse (h2.get "x-cache".toList) [] = [] then
                        h2.set "X-Cache".toList "MISS".toList
                      else h2) } ∧
      ∀ n, lowerName n = n → n ≠ setCookie → n ≠ "content-encoding".toList →
        n ≠ "content-length".toList →
        h2.get n = (x.baseHeaders.get n).map normalizeValue := by
  have hwb := wellFormed_baseHeaders x hx
  have hev : isHeaderValue (firstPreferred acceptable) = true := by
    have he := firstPreferred_mem acceptable
    simp only [preferredEncodings, List.mem_cons, List.mem_singleton, List.not_mem_nil,
      or_false] at he
    rcases he with e | e | e | e <;> rw [e] <;> decide
  have hw1 := wellFormed_set x.baseHeaders "content-encoding".toList _ hwb (by decide) hev
  have hw2 := wellFormed_set _ "content-length".toList
    (decimal (encodeWith z x.bodyText (firstPreferred acceptable)).length) hw1 (by decide)
    (isHeaderValue_decimal _)
  obtain ⟨h2, ho2, _, hget⟩ := get_ofEntries_entries _ hw2
  refine ⟨h2, ?_, ?_⟩
  · unfold serveOrigin
    simp only []
    rw [convertToCacheableObject_eq z x acceptable hne]
    simp only []
    exact respond_ok _ h2 hb ho2 hs
  · intro n hlow hc h1 h3
    rw [hget n hlow hc, get_set_other _ _ _ _ (by
        rw [hlow, show lowerName "content-length".toList = "content-length".toList by decide]
        exact h3),
      get_set_other _ _ _ _ (by
        rw [hlow, show lowerName "content-encoding".toList = "content-encoding".toList by decide]
        exact h1)]

theorem get_xcache_after (h2 : Headers) :
    (setCORSHeaders
      (if orElse (h2.get "x-cache".toList) [] = [] then h2.set "X-Cache".toList "MISS".toList
       else h2)).get "x-cache".toList =
      some (if orElse (h2.get "x-cache".toList) [] = [] then "MISS".toList
            else orElse (h2.get "x-cache".toList) []) := by
  rw [get_setCORSHeaders _ _ (by decide) (by decide) (by decide) (by decide)]
  by_cases c : orElse (h2.get "x-cache".toList) [] = []
  · rw [if_pos c, if_pos c, get_congr_lower _ "x-cache".toList "X-Cache".toList (by decide),
      get_set_self]
    decide
  · rw [if_neg c, if_neg c]
    cases hg : h2.get "x-cache".toList with
    | none => rw [hg] at c; exact absurd rfl c
    | some v =>
      rw [orElse_some_nil]

/-- C19 (amended): `X-Cache` tagging of the responses made in the `try` block and in the
`catch` block, for records and errors whose status `new Response` accepts with a body. A
record served from the cache (non-empty body, headers that `new Headers` accepts) gets
`X-Cache: HIT`. What the origin handler returned, if it encodes to a non-empty body, gets
`X-Cache: MISS` when it carries no `x-cache` header or an empty one, and otherwise keeps
its own `x-cache` value. What the `catch` block writes, also when the origin handler
throws, gets `X-Cache: ERROR`. -/
theorem xcache_tagging (z : Zlib) (data : ResponseCacheableObject) (h : Headers)
    (x : RouteData) (acceptable : List JsString) (ex : Thrown)
    (hb : data.body ≠ []) (ho : Headers.ofEntries data.headers = .ok h)
    (hs : StatusWithBody data.status)
    (hx : x.WellFormed) (hne : acceptable ≠ [])
    (hxb : encodeWith z x.bodyText (firstPreferred acceptable) ≠ [])
    (hxs : StatusWithBody x.recordStatus)
    (hex : ∀ m s t, ex = .routeError m s t → StatusWithBody s) :
    (∃ r, serveHit data = .written r ∧ r.headers.get "x-cache".toList = some "HIT".toList) ∧
    (∃ r, serveOrigin z acceptable (.ok x) = .written r ∧
      r.headers.get "x-cache".toList =
        some (if orElse ((x.baseHeaders.get "x-cache".toList).map normalizeValue) [] = [] then
                "MISS".toList
              else orElse ((x.baseHeaders.get "x-cache".toList).map normalizeValue) [])) ∧
    (∃ r, caught ex = .written r ∧ r.headers.get "x-cache".toList = some "ERROR".toList) ∧
    (∃ r, serveOrigin z acceptable (.error ex) = .written r ∧
      r.headers.get "x-cache".toList = some "ERROR".toList) := by
  refine ⟨?_, ?_, ?_, ?_⟩
  · obtain ⟨h2, e, _, hx2, _⟩ := serveHit_ok data h hb ho hs
    refine ⟨_, e, ?_⟩
    dsimp only
    rw [get_setCORSHeaders _ _ (by decide) (by decide) (by decide) (by decide), hx2]
  · obtain ⟨h2, e, hget⟩ := serveOrigin_ok z acceptable x hx hne hxb hxs
    refine ⟨_, e, ?_⟩
    dsimp only
    rw [get_xcache_after h2, hget _ (by decide) (by decide) (by decide) (by decide)]
  · obtain ⟨r, e, hr, _⟩ := caught_ok ex hex
    exact ⟨r, e, hr⟩
  · obtain ⟨r, e, hr, _⟩ := caught_ok ex hex
    exact ⟨r, e, hr⟩

/-- Witness for C19: a brotli record served from the cache, a `Response` of the origin
without an `x-cache` header, and a `RouteError` for an upstream 502. -/
theorem xcache_tagging_witness :
    (∃ r, serveHit brotliRecord = .written r ∧
      r.headers.get "x-cache".toList = some "HIT".toList) ∧
    (∃ r, serveOrigin tagZlib [GZIP] (.ok (.response sampleResponse)) = .written r ∧
      r.headers.get "x-cache".toList =
        some (if orElse (((RouteData.response sampleResponse).baseHeaders.get
                  "x-cache".toList).map normalizeValue) [] = [] then
                "MISS".toList
              else orElse (((RouteData.response sampleResponse).baseHeaders.get
                  "x-cache".toList).map normalizeValue) [])) ∧
    (∃ r, caught (.routeError "Proxy request failed".toList 502 []) = .written r ∧
      r.headers.get "x-cache".toList = some "ERROR".toList) ∧
    (∃ r, serveOrigin tagZlib [GZIP]
        (.error (.routeError "Proxy request failed".toList 502 [])) = .written r ∧
      r.headers.get "x-cache".toList = some "ERROR".toList) :=
  xcache_tagging tagZlib brotliRecord ⟨brotliRecord.headers⟩ (.response sampleResponse) [GZIP]
    (.routeError "Proxy request failed".toList 502 []) (by decide) (by decide) (by decide)
    (by decide) (by decide) (by decide) (by decide)
    (by intro m s t e; cases e; decide)

/-- C19 (counterexample): two responses of the normal path that are not tagged as claimed.
A `Response` of the origin handler that carries `x-cache: HIT` itself (as an upstream cache
sets it) is served on a miss with `X-Cache: HIT`; and the 404 response for an empty body
carries no `X-Cache` header. -/
theorem miss_response_keeps_origin_xcache :
    ((serveOrigin tagZlib [IDENTITY]
        (.ok (.response { text := "hi".toList, status := 200,
                          headers := ⟨[("x-cache".toList, "HIT".toList)]⟩ }))).response.map
        (fun r => (r.status, r.body, r.headers.get "x-cache".toList))) =
      some (200, utf8Encode "hi".toList, some "HIT".toList) ∧
    ((serveOrigin tagZlib [IDENTITY] (.ok (.text []))).response.map
        (fun r => (r.status, r.headers.get "x-cache".toList))) =
      some (404, none) := by
  decide
/-- C20 (amended): the listener answers 404 exactly when the encoded body is empty, which
depends on the encoding selected for the client. For what the origin handler returned
and a non-empty list of accepted encodings: when the content encodes to no bytes under the
selected encoding, the response is the one `notFoundResponse` builds, with status 404; this
is so when the content is empty and the selected encoding is `identity`. When the content
encodes to at least one byte (as empty content does under a compressor that writes a
header), the response carries these bytes and the status of the record, given a status
`new Response` accepts and well-formed headers. -/
theorem empty_encoded_body_not_found (z : Zlib) (x : RouteData) (acceptable : List JsString)
    (hne : acceptable ≠ []) :
    (encodeWith z x.bodyText (firstPreferred acceptable) = [] →
      serveOrigin z acceptable (.ok x) = .written notFound ∧ notFound.status = 404) ∧
    (x.bodyText = [] → firstPreferred acceptable = IDENTITY →
      serveOrigin z acceptable (.ok x) = .written notFound) ∧
    (encodeWith z x.bodyText (firstPreferred acceptable) ≠ [] → x.WellFormed →
      StatusWithBody x.recordStatus →
      ∃ r, serveOrigin z acceptable (.ok x) = .written r ∧
        r.body = encodeWith z x.bodyText (firstPreferred acceptable) ∧
        r.status = x.recordStatus) := by
  have h0 : encodeWith z x.bodyText (firstPreferred acceptable) = [] →
      serveOrigin z acceptable (.ok x) = .written notFound := by
    intro he
    unfold serveOrigin
    simp only []
    rw [convertToCacheableObject_eq z x acceptable hne]
    simp only []
    unfold respond
    rw [if_pos (by simp only [he, List.length_nil]), notFoundResponse_ok.1]
  refine ⟨fun he => ⟨h0 he, rfl⟩, ?_, ?_⟩
  · intro hb hi
    apply h0
    rw [hb, hi]
    rfl
  · intro hb hx hs
    obtain ⟨h2, e, _⟩ := serveOrigin_ok z acceptable x hx hne hb hs
    exact ⟨_, e, rfl, rfl⟩

/-- Witness for C20: an empty string from the origin, for a client that accepts only
`identity`. -/
theorem empty_encoded_body_not_found_witness :
    serveOrigin tagZlib [IDENTITY] (.ok (.text [])) = .written notFound ∧
      notFound.status = 404 :=
  (empty_encoded_body_not_found tagZlib (.text []) [IDENTITY] (by decide)).1 (by decide)

/-- C20 (counterexample): an empty string from the origin, for a client that accepts gzip,
is not answered with 404: the response has status 200 and the gzip encoding of the empty
text as its body. -/
theorem empty_content_served_under_gzip :
    ((serveOrigin tagZlib [GZIP] (.ok (.text []))).response.map
        (fun r => (r.status, r.body, r.headers.get "content-encoding".toList))) =
      some (200, tagZlib.gzipCompress [], some GZIP) := by
  decide
/-! ## Inbound hits -/

/-- The store after a hit whose revalidation does not fail at once: the record under the
key has its headers replaced. -/
theorem request_hit_peek (s : Server) (k : JsString) (acceptable : List JsString)
    (data : ResponseCacheableObject) (h : Headers) (threw : Bool)
    (hp : s.cache.peek k = some data) (hb : data.body ≠ [])
    (ho : Headers.ofEntries data.headers = .ok h)
    (hok : k ∈ s.bgRequests ∨ threw = false) :
    (s.request k acceptable threw).cache.peek k =
      some { data with headers := (h.set "X-Cache".toList "HIT".toList).entries } := by
  unfold LRUCache.peek at hp
  cases hf : s.cache.entries.find? (fun e => e.key = k) with
  | none => rw [hf] at hp; cases hp
  | some e =>
    rw [hf] at hp
    have hv : e.value = data := Option.some.inj hp
    have hk : e.key = k := by simpa using List.find?_some hf
    have hlen : data.body.length ≠ 0 := by
      rw [ne_eq, List.length_eq_zero]; exact hb
    have hfind : ∀ (f : ResponseCacheableObject → ResponseCacheableObject),
        ((s.cache.entries.filter (fun e => e.key ≠ k) ++ [e]).map
          (fun e => if e.key = k then { e with value := f e.value } else e)).find?
            (fun e => e.key = k) = some { e with value := f e.value } := by
      intro f
      rw [List.map_append, List.find?_append]
      have hnone : ((s.cache.entries.filter (fun e => e.key ≠ k)).map
          (fun e => if e.key = k then { e with value := f e.value } else e)).find?
            (fun e => e.key = k) = none := by
        rw [List.find?_eq_none]
        intro a ha
        rw [List.mem_map] at ha
        obtain ⟨b, hb1, rfl⟩ := ha
        have hbk : b.key ≠ k := by simpa using (List.mem_filter.mp hb1).2
        simp [hbk]
      rw [hnone]
      simp [hk]
    have hthrew : (if k ∈ s.bgRequests then (0 : Nat) else if threw = true then 1 else 2)
        ≠ 1 := by
      rcases hok with hin | ht
      · rw [if_pos hin]; decide
      · rw [ht]; split <;> decide
    unfold Server.request LRUCache.get
    rw [hf]
    simp only [hv, hlen, ne_eq, not_false_eq_true, if_true, ho]
    split
    · unfold LRUCache.peek LRUCache.mutate
      simp only []
      have hf2 := hfind (fun r =>
        { r with headers := (h.set "X-Cache".toList "HIT".toList).entries })
      simp only [ne_eq] at hf2 ⊢
      rw [hf2]
      simp [hv]
    · rename_i hin
      rw [if_neg hin] at hthrew
      split
      · rename_i ht
        rw [if_pos ht] at hthrew
        exact absurd rfl hthrew
      · unfold LRUCache.peek LRUCache.mutate
        simp only []
        have hf2 := hfind (fun r =>
          { r with headers := (h.set "X-Cache".toList "HIT".toList).entries })
        simp only [ne_eq] at hf2 ⊢
        rw [hf2]
        simp [hv]

/-- The store after a hit whose revalidation calls an origin handler that throws: the
record has been deleted. -/
theorem request_hit_throws_peek (s : Server) (k : JsString) (acceptable : List JsString)
    (data : ResponseCacheableObject)
    (hp : s.cache.peek k = some data) (hb : data.body ≠ []) (hk : k ∉ s.bgRequests) :
    (s.request k acceptable true).cache.peek k = none := by
  unfold LRUCache.peek at hp
  cases hf : s.cache.entries.find? (fun e => e.key = k) with
  | none => rw [hf] at hp; cases hp
  | some e =>
    rw [hf] at hp
    have hv : e.value = data := Option.some.inj hp
    have hlen : data.body.length ≠ 0 := by
      rw [ne_eq, List.length_eq_zero]; exact hb
    have hnone : ∀ (l : List StoreEntry) (f : StoreEntry → StoreEntry),
        (∀ a, (f a).key = a.key) →
        ((l.filter (fun e => e.key ≠ k)).map f).find? (fun e => e.key = k) = none := by
      intro l f hkey
      rw [List.find?_eq_none]
      intro a ha
      rw [List.mem_map] at ha
      obtain ⟨b, hb1, rfl⟩ := ha
      have hbk : b.key ≠ k := by simpa using (List.mem_filter.mp hb1).2
      simp [hkey, hbk]
    unfold Server.request LRUCache.get
    rw [hf]
    simp only [hv, hlen, ne_eq, not_false_eq_true, if_true, hk, if_false]
    cases Headers.ofEntries data.headers with
    | error err => exact peek_delete _ _
    | ok headers =>
      simp only []
      unfold LRUCache.peek LRUCache.mutate Server.refreshFailed LRUCache.delete
      simp only []
      rw [hnone _ _ (by intro a; split <;> rfl)]
      rfl

/-- C21 (amended): an inbound hit returns the cached bytes, for a record the response can
be made from. When the listener works with the cache for a request and the store holds
under its key a record with a non-empty body, headers that `new Headers` accepts and a
status `new Response` accepts with a body (200 to 599 other than 204, 205 and 304), the
listener writes a response at once, whatever the origin handler does when the revalidation
calls it and later: its body is the stored body, its status the stored status, and its
`content-encoding` the stored one. The response is made from the record alone, so it is
the same whatever `Accept-Encoding` the request sent. -/
theorem hit_serves_stored_bytes (o : RunOptions) (s : Server) (req : Request)
    (route : CompiledRoute) (params : RouteParams) (requestHeaders : Headers)
    (requestId : JsString) (data : ResponseCacheableObject) (h : Headers)
    (hr : ReachesCache o req route params requestHeaders requestId)
    (hw : workWithCache o route req requestHeaders = true)
    (hp : s.cache.peek requestId = some data) (hb : data.body ≠ [])
    (ho : Headers.ofEntries data.headers = .ok h) (hs : StatusWithBody data.status) :
    ∃ r, (s.listener o req).1 = .written r ∧
      (∀ origin, s.respondTo o req origin = .written r) ∧
      serveHit data = .written r ∧
      r.body = data.body ∧ r.status = data.status ∧
      r.headers.get "content-encoding".toList =
        (h.get "content-encoding".toList).map normalizeValue ∧
      (∀ c ∈ preferredEncodings, h.get "content-encoding".toList = some c →
        r.headers.get "content-encoding".toList = some c) := by
  obtain ⟨h2, e, _, _, hget⟩ := serveHit_ok data h hb ho hs
  have hl : (s.listener o req).1 = serveHit data := by
    rw [listener_reached o s req route params requestHeaders requestId hr, if_pos hw, hp]
    simp only []
    rw [if_pos (by rw [ne_eq, List.length_eq_zero]; exact hb)]
  have hce : (setCORSHeaders h2).get "content-encoding".toList =
      (h.get "content-encoding".toList).map normalizeValue := by
    rw [get_setCORSHeaders _ _ (by decide) (by decide) (by decide) (by decide),
      hget _ (by decide) (by decide) (by decide)]
  refine ⟨_, hl.trans e, ?_, e, rfl, rfl, ?_, ?_⟩
  · intro origin
    unfold Server.respondTo
    rw [hl, e]
  · dsimp only
    exact hce
  · intro c hc hg
    dsimp only
    rw [hce, hg]
    simp only [Option.map_some', normalizeValue_preferred c hc]

/-- C21 (counterexample): the origin handler answers a request with status 204 and no
content. The write to the cache in the background stores the answer under brotli, a record
with a non-empty body and status 204. The next request for the key is a hit for this
record, and it is not answered with the stored body and status: `new Response` throws for
status 204 with a body, and the `catch` block answers with status 500 and
`X-Cache: ERROR`. -/
theorem hit_for_no_content_record_fails :
    (afterNoContent.cache.peek itemKey).map (fun r => (r.body, r.status)) =
      some ([0x62], 204) ∧
    ReachesCache exampleRun itemRequest itemRoute []
      ⟨[("host".toList, "shop.example".toList)]⟩ itemKey ∧
    workWithCache exampleRun itemRoute itemRequest
      ⟨[("host".toList, "shop.example".toList)]⟩ = true ∧
    ((afterNoContent.listener exampleRun itemRequest).1.response.map
        (fun r => (r.status, r.headers.get "x-cache".toList))) =
      some (500, some "ERROR".toList) := by
  decide

/-- Witness for C21: a request that accepts only `identity` is served the stored brotli
record. -/
theorem hit_serves_stored_bytes_witness :
    ∃ r, (warmItemServer.listener exampleRun itemRequest).1 = .written r ∧
      (∀ origin, warmItemServer.respondTo exampleRun itemRequest origin = .written r) ∧
      serveHit brotliRecord = .written r ∧
      r.body = brotliRecord.body ∧ r.status = brotliRecord.status ∧
      r.headers.get "content-encoding".toList =
        ((Headers.mk brotliRecord.headers).get "content-encoding".toList).map
          normalizeValue ∧
      (∀ c ∈ preferredEncodings,
        (Headers.mk brotliRecord.headers).get "content-encoding".toList = some c →
        r.headers.get "content-encoding".toList = some c) :=
  hit_serves_stored_bytes exampleRun warmItemServer itemRequest itemRoute []
    ⟨[("host".toList, "shop.example".toList)]⟩ itemKey brotliRecord ⟨brotliRecord.headers⟩
    (by decide) (by decide) (by decide) (by decide) (by decide) (by decide)

/-- C28 (amended): serving an inbound hit changes the stored record in place, unless the
revalidation it starts fails at once. The listener works with the cache for a request and
the store holds under its key a record with a non-empty body whose headers `new Headers`
accepts. When the key is in `bgRequests` (no revalidation starts) or the call of the origin
handler by the revalidation returns, then after the listener has run the store holds under
the key a record with the same body and status whose header list is the entries of the
`Headers` object with `X-Cache: HIT` set: it contains the pair `x-cache`, `HIT`, and all its
names are in lower case. When the key is not in `bgRequests` and the call of the origin
handler throws, the revalidation has deleted the record before the headers are assigned,
and the store holds no record under the key. -/
theorem hit_mutates_stored_record (o : RunOptions) (s : Server) (req : Request)
    (route : CompiledRoute) (params : RouteParams) (requestHeaders : Headers)
    (requestId : JsString) (data : ResponseCacheableObject) (h : Headers)
    (hr : ReachesCache o req route params requestHeaders requestId)
    (hw : workWithCache o route req requestHeaders = true)
    (hp : s.cache.peek requestId = some data) (hb : data.body ≠ [])
    (ho : Headers.ofEntries data.headers = .ok h) :
    ((requestId ∈ s.bgRequests ∨ o.handlerThrows route req params = none) →
      ∃ stored, (s.listener o req).2.cache.peek requestId = some stored ∧
        stored.body = data.body ∧ stored.status = data.status ∧
        stored.headers = (h.set "X-Cache".toList "HIT".toList).entries ∧
        ("x-cache".toList, "HIT".toList) ∈ stored.headers ∧
        ∀ p ∈ stored.headers, lowerName p.1 = p.1) ∧
    (requestId ∉ s.bgRequests → (o.handlerThrows route req params).isSome = true →
      (s.listener o req).2.cache.peek requestId = none) := by
  have hw1 := wellFormed_set h "X-Cache".toList "HIT".toList (ofEntries_wellFormed _ _ ho)
    (by decide) (by decide)
  have hst : (s.listener o req).2 =
      s.request requestId (requestAcceptableEncodings requestHeaders)
        (o.handlerThrows route req params).isSome := by
    rw [listener_reached o s req route params requestHeaders requestId hr, if_pos hw, hp]
    simp only []
    rw [if_pos (by rw [ne_eq, List.length_eq_zero]; exact hb)]
  constructor
  · intro hok
    refine ⟨{ data with headers := (h.set "X-Cache".toList "HIT".toList).entries },
      ?_, rfl, rfl, rfl, ?_, ?_⟩
    · rw [hst]
      apply request_hit_peek s requestId _ data h _ hp hb ho
      rcases hok with h1 | h2
      · exact Or.inl h1
      · rw [h2]; exact Or.inr rfl
    · dsimp only
      have hm := mem_names_set h "X-Cache".toList "HIT".toList
      rw [show lowerName "X-Cache".toList = "x-cache".toList by decide] at hm
      have hf := filter_entries (h.set "X-Cache".toList "HIT".toList) "x-cache".toList hm
        (by decide)
      have hv := valuesOf_set_self h "X-Cache".toList "HIT".toList
      rw [show lowerName "X-Cache".toList = "x-cache".toList by decide] at hv
      rw [hv, join_singleton, show normalizeValue "HIT".toList = "HIT".toList by decide] at hf
      have : ("x-cache".toList, "HIT".toList) ∈
          (h.set "X-Cache".toList "HIT".toList).entries.filter
            (fun p => p.1 = "x-cache".toList) := by
        rw [hf]; simp
      exact (List.mem_filter.mp this).1
    · intro p hp2
      exact (entries_accepted _ hw1 p hp2).2.2
  · intro hk ht
    rw [hst, ht]
    exact request_hit_throws_peek s requestId _ data hp hb hk

/-- Witness for C28: the stored brotli record after a hit whose revalidation waits for the
origin handler. -/
theorem hit_mutates_stored_record_witness :
    ∃ stored, (warmItemServer.listener exampleRun itemRequest).2.cache.peek itemKey =
        some stored ∧
      stored.body = brotliRecord.body ∧ stored.status = brotliRecord.status ∧
      stored.headers =
        ((Headers.mk brotliRecord.headers).set "X-Cache".toList "HIT".toList).entries ∧
      ("x-cache".toList, "HIT".toList) ∈ stored.headers ∧
      ∀ p ∈ stored.headers, lowerName p.1 = p.1 :=
  (hit_mutates_stored_record exampleRun warmItemServer itemRequest itemRoute []
    ⟨[("host".toList, "shop.example".toList)]⟩ itemKey brotliRecord ⟨brotliRecord.headers⟩
    (by decide) (by decide) (by decide) (by decide) (by decide)).1 (Or.inr rfl)

/-- C28 (counterexample): a hit on a route whose origin handler throws when it is called.
The hit is served from the record, with `X-Cache: HIT`; the revalidation has caught what the
handler threw and has deleted the record, so after the hit the store holds no record under
the key. -/
theorem hit_with_throwing_handler_deletes_record :
    ReachesCache throwingRun itemRequest itemRoute []
      ⟨[("host".toList, "shop.example".toList)]⟩ itemKey ∧
    workWithCache throwingRun itemRoute itemRequest
      ⟨[("host".toList, "shop.example".toList)]⟩ = true ∧
    warmItemServer.cache.peek itemKey = some brotliRecord ∧
    ((warmItemServer.listener throwingRun itemRequest).1.response.map
        (fun r => (r.body, r.status, r.headers.get "x-cache".toList))) =
      some (brotliRecord.body, 200, some "HIT".toList) ∧
    (warmItemServer.listener throwingRun itemRequest).2.cache.peek itemKey = none ∧
    (warmItemServer.listener throwingRun itemRequest).2.bgRequests = [] ∧
    (warmItemServer.listener throwingRun itemRequest).2.originCalls = 1 := by
  decide
/-! ## Outbound revalidation -/

theorem mem_setAdd (s : List JsString) (k x : JsString) :
    x ∈ setAdd s k ↔ x ∈ s ∨ x = k := by
  unfold setAdd
  split
  · constructor
    · intro h; exact Or.inl h
    · rintro (h | h)
      · exact h
      · rw [h]; assumption
  · simp

theorem mem_setDelete (s : List JsString) (k x : JsString) :
    x ∈ setDelete s k ↔ x ∈ s ∧ x ≠ k := by
  unfold setDelete
  simp [List.mem_filter]

theorem guarded_erase (s : Outbound) (i : Nat) (t : Refetch) (hs : s.Guarded)
    (ht : s.refetches.get? i = some t) :
    Outbound.Guarded { s with refetches := s.refetches.eraseIdx i,
                              bgRequests := setDelete s.bgRequests t.key } := by
  obtain ⟨hnd, hmem⟩ := hs
  have hi : i < s.refetches.length := by
    rw [List.get?_eq_getElem?] at ht
    exact (List.getElem?_eq_some_iff.mp ht).1
  have hti : s.refetches[i] = t := by
    rw [List.get?_eq_getElem?] at ht
    exact (List.getElem?_eq_some_iff.mp ht).2
  have hsplit : s.refetches = s.refetches.take i ++ t :: s.refetches.drop (i + 1) := by
    rw [← hti]
    exact (List.take_append_drop i s.refetches).symm.trans (by rw [List.drop_eq_getElem_cons hi])
  have herase : s.refetches.eraseIdx i = s.refetches.take i ++ s.refetches.drop (i + 1) :=
    List.eraseIdx_eq_take_drop_succ _ _
  constructor
  · show ((s.refetches.eraseIdx i).map (fun t => t.key)).Nodup
    rw [herase]
    rw [hsplit] at hnd
    simp only [List.map_append, List.map_cons] at hnd ⊢
    rw [List.nodup_append] at hnd ⊢
    refine ⟨hnd.1, (List.nodup_cons.mp hnd.2.1).2, ?_⟩
    intro a ha hb
    exact hnd.2.2 ha (List.mem_cons_of_mem _ hb)
  · intro u hu
    show u.key ∈ setDelete s.bgRequests t.key
    rw [mem_setDelete]
    have hu' : u ∈ s.refetches.eraseIdx i := hu
    rw [herase] at hu'
    have humem : u ∈ s.refetches := by
      rw [hsplit]
      rcases List.mem_append.mp hu' with h | h
      · exact List.mem_append_left _ h
      · exact List.mem_append_right _ (List.mem_cons_of_mem _ h)
    refine ⟨hmem u humem, ?_⟩
    intro heq
    rw [hsplit] at hnd
    simp only [List.map_append, List.map_cons] at hnd
    rw [List.nodup_append] at hnd
    rcases List.mem_append.mp hu' with h | h
    · exact hnd.2.2 (List.mem_map.mpr ⟨u, h, rfl⟩) (by rw [heq]; exact List.mem_cons_self _ _)
    · have := (List.nodup_cons.mp hnd.2.1).1
      exact this (by rw [← heq]; exact List.mem_map.mpr ⟨u, h, rfl⟩)
theorem guarded_suspend (s : Outbound) (i : Nat) (t : Refetch) (a : RefetchAwait)
    (cache : LRUCache) (hs : s.Guarded) (ht : s.refetches.get? i = some t) :
    Outbound.Guarded { s with cache := cache,
                              refetches := s.refetches.set i { t with awaiting := a } } := by
  obtain ⟨hnd, hmem⟩ := hs
  have hi : i < s.refetches.length := by
    rw [List.get?_eq_getElem?] at ht
    exact (List.getElem?_eq_some_iff.mp ht).1
  have hti : s.refetches[i] = t := by
    rw [List.get?_eq_getElem?] at ht
    exact (List.getElem?_eq_some_iff.mp ht).2
  have hkeys : (s.refetches.set i { t with awaiting := a }).map (fun t => t.key) =
      s.refetches.map (fun t => t.key) := by
    rw [List.map_set]
    apply List.ext_getElem
    · simp
    · intro n h1 h2
      rw [List.getElem_set]
      split
      · rename_i hin
        subst hin
        simp [hti]
      · rfl
  constructor
  · show ((s.refetches.set i { t with awaiting := a }).map (fun t => t.key)).Nodup
    rw [hkeys]
    exact hnd
  · intro u hu
    have hu' : u ∈ s.refetches.set i { t with awaiting := a } := hu
    show u.key ∈ s.bgRequests
    have : u.key ∈ (s.refetches.set i { t with awaiting := a }).map (fun t => t.key) :=
      List.mem_map.mpr ⟨u, hu', rfl⟩
    rw [hkeys, List.mem_map] at this
    obtain ⟨v, hv, hvk⟩ := this
    rw [← hvk]
    exact hmem v hv

theorem guarded_cache (s : Outbound) (cache : LRUCache) (hs : s.Guarded) :
    Outbound.Guarded { s with cache := cache } := hs

theorem revalidate_guarded (host : Host) (s : Outbound) (options : Option RequestInit)
    (k : JsString) (hs : s.Guarded) : (revalidateInBackground host s options k).Guarded := by
  unfold revalidateInBackground
  split
  · exact hs
  · split
    · exact hs
    · rename_i hk
      obtain ⟨hnd, hmem⟩ := hs
      have hnone : k ∉ s.refetches.map (fun t => t.key) := by
        intro h
        rw [List.mem_map] at h
        obtain ⟨u, hu, rfl⟩ := h
        exact hk (hmem u hu)
      simp only []
      split
      · constructor
        · show ((s.refetches ++ [({ key := k, awaiting := RefetchAwait.fetch } : Refetch)]).map
            (fun t => t.key)).Nodup
          rw [List.map_append, List.nodup_append]
          refine ⟨hnd, by simp, ?_⟩
          intro a ha hb
          simp only [List.map_cons, List.map_nil, List.mem_singleton] at hb
          rw [hb] at ha
          exact hnone ha
        · intro u hu
          show u.key ∈ setAdd s.bgRequests k
          rw [mem_setAdd]
          rcases List.mem_append.mp hu with h | h
          · exact Or.inl (hmem u h)
          · simp only [List.mem_singleton] at h
            rw [h]
            exact Or.inr rfl
      · constructor
        · exact hnd
        · intro u hu
          show u.key ∈ setDelete (setAdd s.bgRequests k) k
          rw [mem_setDelete, mem_setAdd]
          refine ⟨Or.inl (hmem u hu), ?_⟩
          intro e
          exact hnone (List.mem_map.mpr ⟨u, hu, e⟩)

theorem resume_guarded (z : Zlib) (s : Outbound) (i : Nat) (network : Except String Response)
    (now : JsString) (hs : s.Guarded) : (s.resume z i network now).Guarded := by
  unfold Outbound.resume
  cases ht : s.refetches.get? i with
  | none => exact hs
  | some t =>
    simp only []
    have hend := guarded_erase s i t hs ht
    cases t.awaiting with
    | fetch =>
      cases network with
      | ok response => exact guarded_suspend s i t _ s.cache hs ht
      | error e => exact hend
    | encode response =>
      simp only []
      cases convertToCacheableObject z (.response response) (some allEncodings) with
      | error e => exact hend
      | ok obj =>
        simp only []
        cases cacheResponseObject now s.initiated s.cache t.key obj with
        | error e => exact guarded_suspend s i t _ s.cache hs ht
        | ok p => exact guarded_suspend s i t _ p.2 hs ht
    | write settled => exact hend

theorem fetchStale_guarded (host : Host) (z : Zlib) (s : Outbound) (uniqueKey : JsString)
    (url : UrlArg) (requestOptions : Option RequestInit) (revalidate : Option Bool)
    (hs : s.Guarded) : (fetchStale host z s uniqueKey url requestOptions revalidate).2.Guarded := by
  unfold fetchStale
  simp only []
  cases getUrlId host url uniqueKey with
  | error e => exact hs
  | ok urlId =>
    simp only []
    split
    · exact hs
    · cases hg : s.cache.get ("fetchStale:".toList ++ urlId) with
      | mk found cache =>
        cases found with
        | none => exact hs
        | some cachedData =>
          simp only []
          split
          · have h1 : Outbound.Guarded
                (if revalidate.getD true = true then
                  revalidateInBackground host { s with cache := cache } requestOptions
                    ("fetchStale:".toList ++ urlId)
                 else { s with cache := cache }) := by
              split
              · exact revalidate_guarded _ _ _ _ (guarded_cache s cache hs)
              · exact guarded_cache s cache hs
            split
            · exact h1
            · split
              · exact h1
              · split <;> exact h1
          · exact hs

theorem step_guarded (host : Host) (z : Zlib) (s : Outbound) (step : OutboundStep)
    (hs : s.Guarded) : (s.step host z step).Guarded := by
  cases step with
  | call uniqueKey url requestOptions revalidate =>
    exact fetchStale_guarded host z s uniqueKey url requestOptions revalidate hs
  | settled requestOptions cacheKey shouldRevalidate network =>
    unfold Outbound.step fetchStaleSettled
    cases network with
    | error e => exact hs
    | ok response =>
      simp only []
      split
      · exact revalidate_guarded _ _ _ _ hs
      · exact hs
  | resume i network now => exact resume_guarded z s i network now hs

theorem after_guarded (host : Host) (z : Zlib) (steps : List OutboundStep) :
    ∀ s : Outbound, s.Guarded → (s.after host z steps).Guarded := by
  induction steps with
  | nil => intro s hs; exact hs
  | cons step rest ih =>
    intro s hs
    exact ih _ (step_guarded host z s step hs)

theorem inFlight_le_one (s : Outbound) (k : JsString) (hs : s.Guarded) :
    (s.inFlight k).length ≤ 1 := by
  obtain ⟨hnd, _⟩ := hs
  unfold Outbound.inFlight
  generalize s.refetches = l at hnd
  induction l with
  | nil => simp
  | cons a t ih =>
    rw [List.map_cons, List.nodup_cons] at hnd
    rw [List.filter_cons]
    split
    · rename_i hak
      have hak' : a.key = k := by simpa using hak
      have : t.filter (fun t => t.key = k) = [] := by
        rw [List.filter_eq_nil_iff]
        intro u hu
        simp only [decide_eq_true_eq]
        intro e
        exact hnd.1 (List.mem_map.mpr ⟨u, hu, by rw [e, hak']⟩)
      rw [this]
      simp
    · exact ih hnd.2

theorem setDelete_setAdd (s : List JsString) (k : JsString) (hk : k ∉ s) :
    setDelete (setAdd s k) k = s := by
  unfold setAdd setDelete
  rw [if_neg hk, List.filter_append]
  have h1 : s.filter (fun x => decide (x ≠ k)) = s := by
    rw [List.filter_eq_self]
    intro a ha
    simp only [ne_eq, decide_not, Bool.not_eq_true', decide_eq_false_iff_not]
    intro e
    exact hk (e ▸ ha)
  rw [h1]
  simp

/-- What `revalidateInBackground` does up to its first `await`, in its three cases. -/
theorem revalidate_cases (host : Host) (s : Outbound) (options : Option RequestInit)
    (cacheKey : JsString) :
    (¬ (host.toUpperCase (requestMethod options) ∈
          ["GET".toList, "HEAD".toList, "OPTIONS".toList] ∧ cacheKey ∉ s.bgRequests) →
      revalidateInBackground host s options cacheKey = s) ∧
    ((host.toUpperCase (requestMethod options) ∈
          ["GET".toList, "HEAD".toList, "OPTIONS".toList] ∧ cacheKey ∉ s.bgRequests) →
      (∀ h, Headers.ofEntries (requestHeadersInit options) = .ok h →
        revalidateInBackground host s options cacheKey =
          { s with bgRequests := setAdd s.bgRequests cacheKey,
                   refetches := s.refetches ++ [{ key := cacheKey, awaiting := .fetch }],
                   issued := s.issued ++ [cacheKey] }) ∧
      (∀ e, Headers.ofEntries (requestHeadersInit options) = .error e →
        revalidateInBackground host s options cacheKey = s)) := by
  constructor
  · intro hc
    unfold revalidateInBackground
    by_cases h1 : host.toUpperCase (requestMethod options) ∈
        ["GET".toList, "HEAD".toList, "OPTIONS".toList]
    · have h2 : cacheKey ∈ s.bgRequests := by
        by_contra h3
        exact hc ⟨h1, h3⟩
      rw [if_neg (not_not.mpr h1), if_pos h2]
    · rw [if_pos h1]
  · intro hc
    constructor
    · intro h ho
      unfold revalidateInBackground
      rw [if_neg (not_not.mpr hc.1), if_neg hc.2, ho]
    · intro e ho
      unfold revalidateInBackground
      rw [if_neg (not_not.mpr hc.1), if_neg hc.2, ho]
      simp only []
      rw [setDelete_setAdd _ _ hc.2]

/-- What the resumption of a suspended revalidation does to the revalidation and to
`bgRequests`: it ends and the key is deleted, or it moves on to its next `await`. -/
theorem resume_cases (z : Zlib) (s : Outbound) (i : Nat) (t : Refetch)
    (network : Except String Response) (now : JsString)
    (ht : s.refetches.get? i = some t) :
    (refetchEnds z t network = true →
      (s.resume z i network now).refetches = s.refetches.eraseIdx i ∧
        (s.resume z i network now).bgRequests = setDelete s.bgRequests t.key) ∧
    (refetchEnds z t network = false →
      (s.resume z i network now).bgRequests = s.bgRequests ∧
        ∃ a : RefetchAwait, a.stage = t.awaiting.stage + 1 ∧
          (s.resume z i network now).refetches =
            s.refetches.set i { t with awaiting := a }) := by
  unfold Outbound.resume refetchEnds
  rw [ht]
  simp only []
  cases t.awaiting with
  | fetch =>
    cases network with
    | ok response =>
      refine ⟨fun h => by simp [failed] at h, fun _ => ⟨rfl, _, ?_, rfl⟩⟩
      rfl
    | error e => exact ⟨fun _ => ⟨rfl, rfl⟩, fun h => by simp [failed] at h⟩
  | encode response =>
    simp only []
    cases convertToCacheableObject z (.response response) (some allEncodings) with
    | error e => exact ⟨fun _ => ⟨rfl, rfl⟩, fun h => by simp [failed] at h⟩
    | ok obj =>
      simp only []
      cases cacheResponseObject now s.initiated s.cache t.key obj with
      | error e =>
        refine ⟨fun h => by simp [failed] at h, fun _ => ⟨rfl, _, ?_, rfl⟩⟩
        rfl
      | ok p =>
        refine ⟨fun h => by simp [failed] at h, fun _ => ⟨rfl, _, ?_, rfl⟩⟩
        rfl
  | write settled => exact ⟨fun _ => ⟨rfl, rfl⟩, fun h => by simp at h⟩

/-- C23 (amended): the guard of the outbound revalidation. `revalidateInBackground` issues
a refetch exactly when the method of the options (GET when there is none), in upper case,
is GET, HEAD or OPTIONS, the key is not in `bgRequests`, and `new Headers` accepts the
headers of the options; it then adds the key and waits for the network. In every other
case it leaves the state as it is (when `new Headers` throws, the key that was added is
deleted again). A revalidation that resumes ends, and its key is deleted from
`bgRequests`, when its refetch or the conversion has failed or it was waiting for the cache
write; otherwise it moves on to its next `await` (of three) and `bgRequests` stays as it
is. After every sequence of steps of calls of `fetchStale` and of revalidations, from a
state with no revalidation in flight, at most one revalidation per key is in flight. -/
theorem revalidation_guard (host : Host) (z : Zlib) (s start : Outbound)
    (options : Option RequestInit) (cacheKey : JsString) (steps : List OutboundStep)
    (hstart : start.refetches = []) :
    ((revalidateInBackground host s options cacheKey).issued = s.issued ++ [cacheKey] ↔
      (host.toUpperCase (requestMethod options) ∈
          ["GET".toList, "HEAD".toList, "OPTIONS".toList] ∧
        cacheKey ∉ s.bgRequests ∧
        ∃ h, Headers.ofEntries (requestHeadersInit options) = .ok h)) ∧
    ((host.toUpperCase (requestMethod options) ∈
          ["GET".toList, "HEAD".toList, "OPTIONS".toList] ∧
        cacheKey ∉ s.bgRequests ∧
        ∃ h, Headers.ofEntries (requestHeadersInit options) = .ok h) →
      cacheKey ∈ (revalidateInBackground host s options cacheKey).bgRequests ∧
        (revalidateInBackground host s options cacheKey).refetches =
          s.refetches ++ [{ key := cacheKey, awaiting := .fetch }]) ∧
    (¬ (host.toUpperCase (requestMethod options) ∈
          ["GET".toList, "HEAD".toList, "OPTIONS".toList] ∧
        cacheKey ∉ s.bgRequests ∧
        ∃ h, Headers.ofEntries (requestHeadersInit options) = .ok h) →
      revalidateInBackground host s options cacheKey = s) ∧
    (∀ i t network now, s.refetches.get? i = some t →
      (refetchEnds z t network = true →
        (s.resume z i network now).refetches = s.refetches.eraseIdx i ∧
          (s.resume z i network now).bgRequests = setDelete s.bgRequests t.key ∧
          t.key ∉ (s.resume z i network now).bgRequests) ∧
      (refetchEnds z t network = false →
        (s.resume z i network now).bgRequests = s.bgRequests ∧
          ∃ a : RefetchAwait, a.stage = t.awaiting.stage + 1 ∧
            (s.resume z i network now).refetches =
              s.refetches.set i { t with awaiting := a })) ∧
    (∀ k, ((start.after host z steps).inFlight k).length ≤ 1) := by
  obtain ⟨hskip, hrun⟩ := revalidate_cases host s options cacheKey
  have hnot : ¬ (host.toUpperCase (requestMethod options) ∈
          ["GET".toList, "HEAD".toList, "OPTIONS".toList] ∧
        cacheKey ∉ s.bgRequests ∧
        ∃ h, Headers.ofEntries (requestHeadersInit options) = .ok h) →
      revalidateInBackground host s options cacheKey = s := by
    intro hc
    by_cases hg : host.toUpperCase (requestMethod options) ∈
        ["GET".toList, "HEAD".toList, "OPTIONS".toList] ∧ cacheKey ∉ s.bgRequests
    · cases ho : Headers.ofEntries (requestHeadersInit options) with
      | ok h => exact absurd ⟨hg.1, hg.2, h, ho⟩ hc
      | error e => exact (hrun hg).2 e ho
    · exact hskip hg
  refine ⟨?_, ?_, hnot, ?_, ?_⟩
  · constructor
    · intro hi
      by_contra hc
      rw [hnot hc] at hi
      have := congrArg List.length hi
      simp at this
    · rintro ⟨h1, h2, h, ho⟩
      rw [(hrun ⟨h1, h2⟩).1 h ho]
  · rintro ⟨h1, h2, h, ho⟩
    rw [(hrun ⟨h1, h2⟩).1 h ho]
    exact ⟨(mem_setAdd _ _ _).mpr (Or.inr rfl), rfl⟩
  · intro i t network now ht
    obtain ⟨hend, hgo⟩ := resume_cases z s i t network now ht
    constructor
    · intro he
      obtain ⟨e1, e2⟩ := hend he
      refine ⟨e1, e2, ?_⟩
      rw [e2]
      exact not_mem_setDelete _ _
    · exact hgo
  · intro k
    apply inFlight_le_one
    apply after_guarded
    constructor
    · rw [hstart]; simp
    · intro t ht
      rw [hstart] at ht
      cases ht

/-- Witness for C23: a revalidation without options on a state with nothing in flight, and
three calls of `fetchStale` for the same URL whose network responses arrive one after the
other. -/
theorem revalidation_guard_witness :
    ((revalidateInBackground traceHost coldOutbound none feedKey).issued =
        coldOutbound.issued ++ [feedKey] ↔
      (traceHost.toUpperCase (requestMethod none) ∈
          ["GET".toList, "HEAD".toList, "OPTIONS".toList] ∧
        feedKey ∉ coldOutbound.bgRequests ∧
        ∃ h, Headers.ofEntries (requestHeadersInit none) = .ok h)) ∧
    (∀ k, ((coldOutbound.after traceHost tagZlib threeCalls).inFlight k).length ≤ 1) :=
  ⟨(revalidation_guard traceHost tagZlib coldOutbound coldOutbound none feedKey threeCalls
      (by decide)).1,
   (revalidation_guard traceHost tagZlib coldOutbound coldOutbound none feedKey threeCalls
      (by decide)).2.2.2.2⟩

/-- C23 (counterexample): options without a method whose headers `new Headers` rejects, on
a state with nothing in flight: the method is GET and the key is not in `bgRequests`, but
no refetch is issued; the key, added before `new Headers` throws, is deleted again. -/
theorem revalidation_skips_rejected_headers :
    traceHost.toUpperCase (requestMethod (some spacedNameOptions)) ∈
        ["GET".toList, "HEAD".toList, "OPTIONS".toList] ∧
    feedKey ∉ coldOutbound.bgRequests ∧
    Headers.ofEntries (requestHeadersInit (some spacedNameOptions)) =
      .error "TypeError: invalid header" ∧
    (revalidateInBackground traceHost coldOutbound (some spacedNameOptions) feedKey).issued =
      [] ∧
    (revalidateInBackground traceHost coldOutbound (some spacedNameOptions) feedKey).refetches =
      [] ∧
    (revalidateInBackground traceHost coldOutbound (some spacedNameOptions)
      feedKey).bgRequests = [] := by
  decide

/-- C24: a failure of the outbound revalidation is contained. When a suspended
revalidation resumes and ends with a failure (the refetch was rejected, the conversion
threw, or the promise of the cache write was rejected), the store is exactly as it was,
the key is not in `bgRequests`, and the revalidation is gone. When the cache write itself
throws, at the step that converts and writes, the store is as it was, too. The resumption
has no other effect: nothing is thrown to a caller of `fetchStale`. -/
theorem refetch_failure_contained (z : Zlib) (s : Outbound) (i : Nat) (t : Refetch)
    (network : Except String Response) (now : JsString)
    (ht : s.refetches.get? i = some t) :
    (refetchFails z t network = true →
      (s.resume z i network now).cache = s.cache ∧
        t.key ∉ (s.resume z i network now).bgRequests ∧
        (s.resume z i network now).refetches = s.refetches.eraseIdx i ∧
        (s.resume z i network now).initiated = s.initiated) ∧
    (∀ response cacheableObject e, t.awaiting = .encode response →
      convertToCacheableObject z (.response response) (some allEncodings) =
        .ok cacheableObject →
      cacheResponseObject now s.initiated s.cache t.key cacheableObject = .error e →
      (s.resume z i network now).cache = s.cache ∧
        (s.resume z i network now).refetches =
          s.refetches.set i { t with awaiting := .write (.error e) }) := by
  constructor
  · intro hf
    unfold Outbound.resume
    rw [ht]
    simp only []
    unfold refetchFails at hf
    cases ha : t.awaiting with
    | fetch =>
      rw [ha] at hf
      cases network with
      | ok response => simp [failed] at hf
      | error e => exact ⟨rfl, not_mem_setDelete _ _, rfl, rfl⟩
    | encode response =>
      rw [ha] at hf
      simp only [] at hf ⊢
      cases hc : convertToCacheableObject z (.response response) (some allEncodings) with
      | ok obj => rw [hc] at hf; simp [failed] at hf
      | error e => exact ⟨rfl, not_mem_setDelete _ _, rfl, rfl⟩
    | write settled => exact ⟨rfl, not_mem_setDelete _ _, rfl, rfl⟩
  · intro response obj e ha hc hw
    unfold Outbound.resume
    rw [ht]
    simp only [ha, hc, hw]
    exact ⟨trivial, trivial⟩

/-- Witness for C24: the refetch of a revalidation is rejected while the store holds a
record under the key. -/
theorem refetch_failure_contained_witness :
    (warmOutbound.resume tagZlib 0 (.error "fetch failed") []).cache = warmOutbound.cache ∧
      feedKey ∉ (warmOutbound.resume tagZlib 0 (.error "fetch failed") []).bgRequests ∧
      (warmOutbound.resume tagZlib 0 (.error "fetch failed") []).refetches =
        warmOutbound.refetches.eraseIdx 0 ∧
      (warmOutbound.resume tagZlib 0 (.error "fetch failed") []).initiated =
        warmOutbound.initiated :=
  (refetch_failure_contained tagZlib warmOutbound 0 { key := feedKey, awaiting := .fetch }
    (.error "fetch failed") [] rfl).1 rfl

theorem get_fst (c : LRUCache) (k : JsString) : (c.get k).1 = c.peek k := by
  unfold LRUCache.get LRUCache.peek
  cases c.entries.find? (fun e => e.key = k) <;> rfl

theorem utf8EncodeChar_ne_nil (c : Char) : utf8EncodeChar c ≠ [] := by
  unfold utf8EncodeChar
  simp only []
  split
  · simp
  · split
    · simp
    · split <;> simp

theorem utf8Encode_eq_nil (s : JsString) : utf8Encode s = [] ↔ s = [] := by
  cases s with
  | nil => simp [utf8Encode]
  | cons c cs =>
    simp only [utf8Encode, List.flatMap_cons, List.append_eq_nil, reduceCtorEq, iff_false,
      not_and]
    intro h
    exact absurd h (utf8EncodeChar_ne_nil c)

/-- The result of `fetchStale` on a hit, from the stored record. -/
theorem fetchStale_hit (host : Host) (z : Zlib) (s : Outbound) (uniqueKey : JsString)
    (url : UrlArg) (requestOptions : Option RequestInit) (revalidate : Option Bool)
    (urlId : JsString) (data : ResponseCacheableObject)
    (hu : getUrlId host url uniqueKey = .ok urlId) (hi : s.initiated = true)
    (hp : s.cache.peek ("fetchStale:".toList ++ urlId) = some data) (hb : data.body ≠ []) :
    (fetchStale host z s uniqueKey url requestOptions revalidate).1 =
      match convertCacheableObject z data (some [IDENTITY]) with
      | .error e => .rejected (.ofMessage e)
      | .ok cde =>
        match Headers.ofEntries cde.headers with
        | .error e => .rejected (.ofMessage e)
        | .ok cachedHeaders =>
          match newResponse cde.body cde.status cachedHeaders with
          | .ok r => .returned r
          | .error e => .rejected e := by
  have hg := get_fst s.cache ("fetchStale:".toList ++ urlId)
  rw [hp] at hg
  unfold fetchStale
  simp only [hu, hi, Bool.true_eq_false, if_false]
  cases hget : s.cache.get ("fetchStale:".toList ++ urlId) with
  | mk found cache =>
    rw [hget] at hg
    simp only [] at hg
    subst hg
    simp only []
    rw [if_pos (by rw [ne_eq, List.length_eq_zero]; exact hb)]
    cases convertCacheableObject z data (some [IDENTITY]) with
    | error e => rfl
    | ok cde =>
      simp only []
      cases Headers.ofEntries cde.headers with
      | error e => rfl
      | ok ch =>
        simp only []
        cases newResponse cde.body cde.status ch <;> rfl

/-- The cases of `fetchStale` on a hit, and the miss. -/
theorem fetchStale_cases (host : Host) (z : Zlib) (s : Outbound)
    (uniqueKey : JsString) (url : UrlArg) (requestOptions : Option RequestInit)
    (revalidate : Option Bool) (urlId : JsString) (data : ResponseCacheableObject)
    (h : Headers) (c text : JsString)
    (hu : getUrlId host url uniqueKey = .ok urlId) (hi : s.initiated = true)
    (hp : s.cache.peek ("fetchStale:".toList ++ urlId) = some data) (hb : data.body ≠ [])
    (ho : Headers.ofEntries data.headers = .ok h)
    (hc : h.get "content-encoding".toList = some c)
    (hs : StatusWithBody data.status)
    (hdec : decompressCurrent z data.body (some c) = .ok (some text)) :
    (c = IDENTITY →
      ∃ r, (fetchStale host z s uniqueKey url requestOptions revalidate).1 = .returned r ∧
        r.status = data.status ∧ r.body = data.body ∧
        r.headers.get "content-encoding".toList = some IDENTITY) ∧
    (c ≠ IDENTITY → text ≠ [] →
      ∃ r, (fetchStale host z s uniqueKey url requestOptions revalidate).1 = .returned r ∧
        r.status = data.status ∧ r.body = utf8Encode text ∧
        r.headers.get "content-encoding".toList = some IDENTITY) ∧
    (c ≠ IDENTITY → text = [] →
      (fetchStale host z s uniqueKey url requestOptions revalidate).1 =
        .rejected (.ofMessage "No expected encoding found")) ∧
    (∀ (s2 : Outbound), s2.initiated = true →
      s2.cache.peek ("fetchStale:".toList ++ urlId) = none →
      (fetchStale host z s2 uniqueKey url requestOptions revalidate).1 =
          .awaitingFetch ("fetchStale:".toList ++ urlId) (revalidate.getD true) ∧
        ∀ s3 shouldRevalidate response,
          (fetchStaleSettled host s3 requestOptions ("fetchStale:".toList ++ urlId)
            shouldRevalidate (.ok response)).1 = .ok response) := by
  have key := fetchStale_hit host z s uniqueKey url requestOptions revalidate urlId data hu hi
    hp hb
  have hw := ofEntries_wellFormed _ _ ho
  have hfp : firstPreferred [IDENTITY] = IDENTITY := by decide
  refine ⟨?_, ?_, ?_, ?_⟩
  · intro hci
    have hcur : currentEncoding data = .ok (some (firstPreferred [IDENTITY])) := by
      unfold currentEncoding
      rw [ho, hfp, ← hci, ← hc]
      rfl
    rw [key, convertCacheableObject_of_current z data [IDENTITY] (by simp) hcur]
    simp only [ho]
    rw [newResponse_ok _ _ _ hs]
    refine ⟨_, rfl, rfl, rfl, ?_⟩
    dsimp only
    rw [hc, hci]
  · intro hci ht
    have hre := convertCacheableObject_reencode z data [IDENTITY] h c text (by simp) ho hc
      (by rw [hfp]; exact fun e => hci e.symm) hdec
    have henc : encodeWith z text (firstPreferred [IDENTITY]) = utf8Encode text := by
      rw [hfp]; rfl
    rw [henc] at hre
    rw [if_neg (by rw [List.length_eq_zero, utf8Encode_eq_nil]; exact ht)] at hre
    have hw1 := wellFormed_set h "content-encoding".toList (firstPreferred [IDENTITY]) hw
      (by decide) (by decide)
    have hw2 := wellFormed_set _ "content-length".toList (decimal (utf8Encode text).length) hw1
      (by decide) (isHeaderValue_decimal _)
    obtain ⟨h2, ho2, _, hget⟩ := get_ofEntries_entries _ hw2
    rw [key, hre]
    simp only [ho2]
    rw [newResponse_ok _ _ _ hs]
    refine ⟨_, rfl, rfl, rfl, ?_⟩
    dsimp only
    rw [hget _ (by decide) (by decide), get_set_other _ _ _ _ (by decide), get_set_self]
    decide
  · intro hci ht
    have hre := convertCacheableObject_reencode z data [IDENTITY] h c text (by simp) ho hc
      (by rw [hfp]; exact fun e => hci e.symm) hdec
    have henc : encodeWith z text (firstPreferred [IDENTITY]) = utf8Encode text := by
      rw [hfp]; rfl
    rw [henc, ht] at hre
    rw [key, hre]
    rfl
  · intro s2 hi2 hp2
    constructor
    · have hg := get_fst s2.cache ("fetchStale:".toList ++ urlId)
      rw [hp2] at hg
      unfold fetchStale
      simp only [hu, hi2, Bool.true_eq_false, if_false]
      cases hget : s2.cache.get ("fetchStale:".toList ++ urlId) with
      | mk found cache =>
        rw [hget] at hg
        simp only [] at hg
        subst hg
        rfl
    · intro s3 sr response
      unfold fetchStaleSettled
      simp only []
      split <;> rfl

/-- An outbound hit for a record whose content is not empty: the store holds `hi` under
gzip, and `fetchStale` returns it under `identity`. -/
theorem fetchStale_returns_decoded_record :
    ∃ r, (fetchStale traceHost tagZlib (outboundWith gzipRecord) "site".toList
        (.string "https://example.com/feed".toList) none none).1 = .returned r ∧
      r.status = gzipRecord.status ∧ r.body = utf8Encode "hi".toList ∧
      r.headers.get "content-encoding".toList = some IDENTITY :=
  (fetchStale_cases traceHost tagZlib (outboundWith gzipRecord) "site".toList
    (.string "https://example.com/feed".toList) none none "u:site/feed".toList gzipRecord
    ⟨gzipRecord.headers⟩ GZIP "hi".toList (by decide) (by decide) (by decide) (by decide)
    (by decide) (by decide) (by decide) (by decide)).2.1 (by decide) (by decide)

/-- C22 (the code at the failing input): the store holds under the key a record with a
non-empty body under brotli whose content is the empty text, as the revalidation stores it
for an upstream answer with an empty body. `fetchStale` does not return the cached
response: `convertCacheableObject` throws `No expected encoding found`, and so does
`fetchStale`. -/
theorem fetchStale_rejects_empty_content :
    (convertToCacheableObject tagZlib (.response emptyUpstream) (some allEncodings)).map
        (fun r => (r.body, r.status)) = .ok (emptyBrotliRecord.body, emptyBrotliRecord.status) ∧
    (outboundWith emptyBrotliRecord).cache.peek feedKey = some emptyBrotliRecord ∧
    emptyBrotliRecord.body ≠ [] ∧
    currentEncoding emptyBrotliRecord = .ok (some BROTLI) ∧
    decompressCurrent tagZlib emptyBrotliRecord.body (some BROTLI) = .ok (some []) ∧
    (fetchStale traceHost tagZlib (outboundWith emptyBrotliRecord) "site".toList
        (.string "https://example.com/feed".toList) none none).1 =
      .rejected (.ofMessage "No expected encoding found") := by
  decide

theorem mem_of_mem_evictUntil (budget : Nat) (l : List StoreEntry) :
    ∀ e ∈ evictUntil budget l, e ∈ l := by
  induction l with
  | nil => intro e he; simp [evictUntil] at he
  | cons a t ih =>
    intro e he
    unfold evictUntil at he
    split at he
    · exact he
    · exact List.mem_cons_of_mem _ (ih e he)

theorem peek_set_fits (c : LRUCache) (k : JsString) (v : ResponseCacheableObject)
    (h : c.options.sizeCalculation v ≤ c.options.maxSize) : (c.set k v).peek k = some v := by
  unfold LRUCache.set LRUCache.peek
  simp only [if_neg (Nat.not_lt.mpr h)]
  rw [List.find?_append]
  have hnone : (evictUntil (c.options.maxSize - c.options.sizeCalculation v)
      (c.entries.filter (fun e => e.key ≠ k))).find? (fun e => e.key = k) = none := by
    rw [List.find?_eq_none]
    intro e he
    have := mem_of_mem_evictUntil _ _ e he
    have := (List.mem_filter.mp this).2
    simpa using this
  rw [hnone]
  simp

/-- The record a revalidation stores for a network response, and the store after it. -/
theorem resume_encode (z : Zlib) (s : Outbound) (i : Nat) (t : Refetch) (response : Response)
    (now : JsString) (network : Except String Response)
    (ht : s.refetches.get? i = some t) (ha : t.awaiting = .encode response)
    (hi : s.initiated = true) (hw : response.headers.WellFormed)
    (hnow : isHeaderValue now = true) :
    ∃ stored h4, (s.resume z i network now).cache = s.cache.set t.key stored ∧
      stored.status = response.status ∧
      stored.body = z.brotliCompress (utf8Encode response.text) ∧
      Headers.ofEntries stored.headers = .ok h4 ∧
      h4.get "content-encoding".toList = some BROTLI := by
  have hne : allEncodings ≠ [] := by decide
  have hfp : firstPreferred allEncodings = BROTLI := by decide
  have hconv := convertToCacheableObject_eq z (.response response) allEncodings hne
  rw [hfp] at hconv
  have hw1 := wellFormed_set response.headers "content-encoding".toList BROTLI hw
    (by decide) (by decide)
  have hw2 := wellFormed_set _ "content-length".toList
    (decimal (encodeWith z response.text BROTLI).length) hw1 (by decide)
    (isHeaderValue_decimal _)
  obtain ⟨h2, ho2, hw3, hget2⟩ := get_ofEntries_entries _ hw2
  have hw4 := wellFormed_set h2 "x-cache-date".toList now hw3 (by decide) hnow
  obtain ⟨h4, ho4, _, hget4⟩ := get_ofEntries_entries _ hw4
  refine ⟨{ body := encodeWith z response.text BROTLI, status := response.status,
            headers := (h2.set "x-cache-date".toList now).entries }, h4, ?_, rfl, rfl, ho4, ?_⟩
  · unfold Outbound.resume
    rw [ht]
    simp only [ha]
    rw [show RouteData.bodyText (.response response) = response.text from rfl,
      show RouteData.recordStatus (.response response) = response.status from rfl,
      show RouteData.baseHeaders (.response response) = response.headers from rfl] at hconv
    rw [hconv]
    simp only [cacheResponseObject, ho2, hi, bind, Except.bind, pure, Except.pure, if_true]
  · rw [hget4 _ (by decide) (by decide), get_set_other _ _ _ _ (by decide),
      hget2 _ (by decide) (by decide), get_set_other _ _ _ _ (by decide), get_set_self]
    decide

/-- C29: the outbound revalidation stores the refetched response whatever its status is.
When a revalidation has received a network response (with well-formed headers) and
resumes, the store becomes the store after `set` of a record under the cache key with the
status of the response and its text under brotli; when the record fits the store, the store
then holds it under the key, whatever it held before. A later `fetchStale` for the key, on
a state whose store holds this record, returns a response with the status of that network
response and its text as body (given a text that is not empty, a status `new Response`
accepts with a body, and a brotli decompressor that inverts the compressor). -/
theorem refetch_stores_any_status (host : Host) (z : Zlib) (s : Outbound) (i : Nat)
    (t : Refetch) (response : Response) (now : JsString) (network : Except String Response)
    (ht : s.refetches.get? i = some t) (ha : t.awaiting = .encode response)
    (hi : s.initiated = true) (hw : response.headers.WellFormed)
    (hnow : isHeaderValue now = true) :
    ∃ stored, (s.resume z i network now).cache = s.cache.set t.key stored ∧
      stored.status = response.status ∧
      stored.body = z.brotliCompress (utf8Encode response.text) ∧
      (s.cache.options.sizeCalculation stored ≤ s.cache.options.maxSize →
        (s.resume z i network now).cache.peek t.key = some stored) ∧
      (∀ (s2 : Outbound) (uniqueKey : JsString) (url : UrlArg)
          (requestOptions : Option RequestInit) (revalidate : Option Bool) (urlId : JsString),
        getUrlId host url uniqueKey = .ok urlId → t.key = "fetchStale:".toList ++ urlId →
        s2.initiated = true → s2.cache.peek t.key = some stored →
        response.text ≠ [] → z.brotliCompress (utf8Encode response.text) ≠ [] →
        StatusWithBody response.status →
        (∀ b, z.brotliDecompress (z.brotliCompress b) = .ok b) →
        ∃ r, (fetchStale host z s2 uniqueKey url requestOptions revalidate).1 = .returned r ∧
          r.status = response.status ∧ r.body = utf8Encode response.text) := by
  obtain ⟨stored, h4, hc, hst, hbody, ho4, hce⟩ :=
    resume_encode z s i t response now network ht ha hi hw hnow
  refine ⟨stored, hc, hst, hbody, ?_, ?_⟩
  · intro hfit
    rw [hc]
    exact peek_set_fits _ _ _ hfit
  · intro s2 uniqueKey url requestOptions revalidate urlId hu hk hi2 hp ht2 hne hs hinv
    rw [hk] at hp
    have hdec : decompressCurrent z stored.body (some BROTLI) = .ok (some response.text) := by
      rw [hbody]
      show (do let b ← z.brotliDecompress (z.brotliCompress (utf8Encode response.text))
               pure (some (utf8Decode b)) : Except String (Option JsString)) = _
      rw [hinv]
      simp only [bind, Except.bind, pure, Except.pure, utf8Decode_utf8Encode]
    obtain ⟨r, hr, hrs, hrb, _⟩ :=
      (fetchStale_cases host z s2 uniqueKey url requestOptions revalidate urlId stored h4
        BROTLI response.text hu hi2 hp (by rw [hbody]; exact hne) ho4 hce
        (by rw [hst]; exact hs) hdec).2.1 (by decide) ht2
    exact ⟨r, hr, hrs.trans hst, hrb⟩

/-- Witness for C29: a revalidation that has received a 404 response overwrites a stored
record of status 200, and the next `fetchStale` returns status 404 with the body of that
response. -/
theorem refetch_stores_any_status_witness :
    (∃ stored,
      (refreshingOutbound.resume tagZlib 0 (.ok goneUpstream) exampleNow).cache =
          refreshingOutbound.cache.set feedKey stored ∧
        stored.status = goneUpstream.status ∧
        stored.body = tagZlib.brotliCompress (utf8Encode goneUpstream.text) ∧
        (refreshingOutbound.cache.options.sizeCalculation stored ≤
            refreshingOutbound.cache.options.maxSize →
          (refreshingOutbound.resume tagZlib 0 (.ok goneUpstream) exampleNow).cache.peek
            feedKey = some stored) ∧
        (∀ (s2 : Outbound) (uniqueKey : JsString) (url : UrlArg)
            (requestOptions : Option RequestInit) (revalidate : Option Bool)
            (urlId : JsString),
          getUrlId traceHost url uniqueKey = .ok urlId →
          feedKey = "fetchStale:".toList ++ urlId →
          s2.initiated = true → s2.cache.peek feedKey = some stored →
          goneUpstream.text ≠ [] →
          tagZlib.brotliCompress (utf8Encode goneUpstream.text) ≠ [] →
          StatusWithBody goneUpstream.status →
          (∀ b, tagZlib.brotliDecompress (tagZlib.brotliCompress b) = .ok b) →
          ∃ r, (fetchStale traceHost tagZlib s2 uniqueKey url requestOptions revalidate).1 =
              .returned r ∧
            r.status = goneUpstream.status ∧ r.body = utf8Encode goneUpstream.text)) ∧
    (refreshingOutbound.cache.peek feedKey).map (fun r => r.status) = some 200 ∧
    (refreshedOutbound.cache.peek feedKey).map (fun r => r.status) = some 404 ∧
    ((fetchStale traceHost tagZlib refreshedOutbound "site".toList
        (.string "https://example.com/feed".toList) none none).1 =
      .returned { body := utf8Encode "gone".toList, status := 404,
                  headers := ⟨[("content-encoding".toList, IDENTITY),
                               ("content-length".toList, "4".toList),
                               ("content-type".toList, "text/plain".toList),
                               ("x-cache-date".toList, exampleNow)]⟩ }) :=
  ⟨refetch_stores_any_status traceHost tagZlib refreshingOutbound 0
      { key := feedKey, awaiting := .encode goneUpstream } goneUpstream exampleNow
      (.ok goneUpstream) rfl rfl rfl (by decide) (by decide),
    by decide, by decide, by decide⟩

end Nodeblaze
